import Mathlib

/-!
Point & Figure chart engine: the embedding of `PF_Column.cpp` and `PF_Chart.cpp`

The column state machine (`PF_Column`) and the chart that sequences columns
(`PF_Chart`) are embedded as pure functions with explicit state passing.

Conventions of the embedding

* `DprDecimal::DDecQuad` values are rationals (`ℚ`): the decimal arithmetic is
  exact, comparison is numeric. Division is the total division of `ℚ`.
* `PF_Column::tpt` (a time point) is the integer count of nanoseconds.
* A member function that mutates `*this` returns the new object next to its
  result: `AddValue` gives `(column after the call, (status, successor))`.
* The `while` loops of the percent scale take a fuel argument; `none` means the
  fuel ran out before the loop condition became false.
-/

namespace PointFigure

/-! ## Enumerations -/

/-- The enumeration `PF_Column::Direction`. -/
inductive Direction where
  | e_unknown
  | e_down
  | e_up
  deriving DecidableEq, Repr

/-- The enumeration `PF_Column::Status`. -/
inductive Status where
  | e_accepted
  | e_ignored
  | e_reversal
  deriving DecidableEq, Repr

/-- The enumeration `BoxType`. -/
inductive BoxType where
  | e_integral
  | e_fractional
  deriving DecidableEq, Repr

/-- The enumeration `ColumnScale` (`Boxes::BoxScale` in the chart). -/
inductive ColumnScale where
  | e_linear
  | e_percent
  deriving DecidableEq, Repr

/-- Time points: nanoseconds since the epoch. -/
abbrev tpt := Int

/-! ## Exact decimal operations -/

/-- Modelled from the spec: `DDecQuad::ToIntTruncated` (DDecQuad.h is not among
the sources), "truncate_to_int(a): towards zero". The result is an unbounded
integer; where the source stores it in an `int`, `toInt32` is applied to it. -/
def ToIntTruncated (a : ℚ) : Int :=
  if 0 ≤ a then ⌊a⌋ else -⌊-a⌋

/-- The value that an `int` holds after an integer is stored in it: the source keeps the count
of boxes of a move in `int how_many_boxes`, 32 bits in two's complement, so the count is
taken modulo 2^32 into the range from −2^31 to 2^31 − 1. A count within that range is kept as
it is. -/
def toInt32 (n : Int) : Int :=
  (n + 2 ^ 31) % 2 ^ 32 - 2 ^ 31

/-- Modelled from the spec: `DprDecimal::Mod` (DDecQuad.h is not among the
sources), "mod(a, b): defined as a − truncate_to_int(a/b) × b". -/
def Mod (a b : ℚ) : ℚ :=
  a - (ToIntTruncated (a / b) : ℚ) * b

/-- Round to the nearest integer, ties to the even neighbour. -/
def roundHalfEven (x : ℚ) : Int :=
  let f := ⌊x⌋
  let r := x - (f : ℚ)
  if r < 1 / 2 then f
  else if 1 / 2 < r then f + 1
  else if f % 2 = 0 then f else f + 1

/-- Modelled from the spec: `DDecQuad::Rescale` (DDecQuad.h is not among the
sources), "rescale(a, exponent): round a to a representation with the given
decimal exponent, using round-half-even". -/
def Rescale (a : ℚ) (exponent : Int) : ℚ :=
  (roundHalfEven (a / (10 : ℚ) ^ exponent) : ℚ) * (10 : ℚ) ^ exponent

/-- Modelled from the spec: `DDecQuad::ToPower` (DDecQuad.h is not among the
sources), "a^n" for an integer power. -/
def ToPower (a : ℚ) (n : Int) : ℚ :=
  a ^ n

/-! ## Columns -/

/-- The data members of `PF_Column` (PF_Column.h is not among the sources; the
members are the ones PF_Column.cpp reads and writes). `box_size_exponent_` is
`box_size_.GetExponent()`: the decimal exponent of the stored representation
of the box size, which a rational value does not carry. -/
structure PF_Column where
  box_size_ : ℚ
  box_size_exponent_ : Int
  reversal_boxes_ : Int
  box_type_ : BoxType
  column_scale_ : ColumnScale
  direction_ : Direction
  top_ : ℚ
  bottom_ : ℚ
  had_reversal_ : Bool
  time_span_ : tpt × tpt
  percent_box_increment_up_ : ℚ
  percent_exponent_ : Int
  percent_box_increment_down_ : ℚ
  reversal_factor_up_ : ℚ
  reversal_factor_down_ : ℚ
  deriving DecidableEq, Repr

/-- The pair `PF_Column::AddResult`: a status and an optional successor. -/
abbrev AddResult := Status × Option PF_Column

/-- The constructor `PF_Column::PF_Column(box_size, reversal_boxes, box_type,
column_scale, direction, top, bottom)`. Members the constructor does not
mention keep their default: `had_reversal_` false, the time span and (on the
linear scale) the percent members zero. -/
def PF_Column.new (box_size : ℚ) (box_size_exponent : Int) (reversal_boxes : Int)
    (box_type : BoxType) (column_scale : ColumnScale) (direction : Direction)
    (top bottom : ℚ) : PF_Column :=
  if column_scale = ColumnScale.e_percent then
    let up := 1 + box_size
    let pe := box_size_exponent - 1
    let down := Rescale (box_size / up) pe
    { box_size_ := box_size, box_size_exponent_ := box_size_exponent,
      reversal_boxes_ := reversal_boxes, box_type_ := box_type,
      column_scale_ := column_scale, direction_ := direction,
      top_ := top, bottom_ := bottom, had_reversal_ := false, time_span_ := (0, 0),
      percent_box_increment_up_ := up,
      percent_exponent_ := pe,
      percent_box_increment_down_ := down,
      reversal_factor_up_ := Rescale (ToPower up reversal_boxes) pe,
      reversal_factor_down_ := Rescale (ToPower down reversal_boxes) pe }
  else
    { box_size_ := box_size, box_size_exponent_ := box_size_exponent,
      reversal_boxes_ := reversal_boxes, box_type_ := box_type,
      column_scale_ := column_scale, direction_ := direction,
      top_ := top, bottom_ := bottom, had_reversal_ := false, time_span_ := (0, 0),
      percent_box_increment_up_ := 0,
      percent_exponent_ := 0,
      percent_box_increment_down_ := 0,
      reversal_factor_up_ := 0,
      reversal_factor_down_ := 0 }

/-- The method `PF_Column::MakeReversalColumn`. -/
def PF_Column.MakeReversalColumn (c : PF_Column) (direction : Direction) (value : ℚ)
    (the_time : tpt) : PF_Column :=
  let new_column := PF_Column.new c.box_size_ c.box_size_exponent_ c.reversal_boxes_
    c.box_type_ c.column_scale_ direction
    (if direction = Direction.e_down then c.top_ - c.box_size_ else value)
    (if direction = Direction.e_down then value else c.bottom_ + c.box_size_)
  { new_column with time_span_ := (the_time, the_time) }

/-- The method `PF_Column::MakeReversalColumnPercent`. -/
def PF_Column.MakeReversalColumnPercent (c : PF_Column) (direction : Direction) (value : ℚ)
    (the_time : tpt) : PF_Column :=
  let new_column := PF_Column.new c.box_size_ c.box_size_exponent_ c.reversal_boxes_
    c.box_type_ c.column_scale_ direction
    (if direction = Direction.e_down
      then Rescale (c.top_ * c.percent_box_increment_down_) c.box_size_exponent_ else value)
    (if direction = Direction.e_down
      then value else Rescale (c.bottom_ * c.percent_box_increment_up_) c.box_size_exponent_)
  { new_column with time_span_ := (the_time, the_time) }

/-- The comparison `PF_Column::operator==`. -/
def PF_Column.eq (lhs rhs : PF_Column) : Bool :=
  decide (rhs.box_size_ = lhs.box_size_) && decide (rhs.reversal_boxes_ = lhs.reversal_boxes_)
    && decide (rhs.direction_ = lhs.direction_)
    && decide (rhs.column_scale_ = lhs.column_scale_)
    && decide (rhs.top_ = lhs.top_) && decide (rhs.bottom_ = lhs.bottom_)
    && decide (rhs.had_reversal_ = lhs.had_reversal_)

/-- The method `PF_Column::RoundDownToNearestBox`. -/
def PF_Column.RoundDownToNearestBox (c : PF_Column) (a_value : ℚ) : ℚ :=
  let price_as_int : ℚ :=
    if c.box_type_ = BoxType.e_integral then (ToIntTruncated a_value : ℚ) else a_value
  Mod price_as_int c.box_size_ * c.box_size_

/-- The method `PF_Column::StartColumn`. -/
def PF_Column.StartColumn (c : PF_Column) (new_value : ℚ) (the_time : tpt) :
    PF_Column × AddResult :=
  let top := c.RoundDownToNearestBox new_value
  ({ c with top_ := top, bottom_ := top, time_span_ := (the_time, the_time) },
    (Status.e_accepted, none))

/-- The method `PF_Column::TryToFindDirection`. -/
def PF_Column.TryToFindDirection (c : PF_Column) (possible_value : ℚ) (the_time : tpt) :
    PF_Column × AddResult :=
  if possible_value ≥ c.top_ + c.box_size_ then
    let how_many_boxes := toInt32 (ToIntTruncated ((possible_value - c.top_) / c.box_size_))
    ({ c with direction_ := Direction.e_up,
              top_ := c.top_ + (how_many_boxes : ℚ) * c.box_size_,
              time_span_ := (c.time_span_.1, the_time) },
      (Status.e_accepted, none))
  else if possible_value ≤ c.bottom_ - c.box_size_ then
    let how_many_boxes := toInt32 (ToIntTruncated ((possible_value - c.bottom_) / c.box_size_))
    ({ c with direction_ := Direction.e_down,
              bottom_ := c.bottom_ + (how_many_boxes : ℚ) * c.box_size_,
              time_span_ := (c.time_span_.1, the_time) },
      (Status.e_accepted, none))
  else
    (c, (Status.e_ignored, none))

/-- The method `PF_Column::TryToExtendUp`. -/
def PF_Column.TryToExtendUp (c : PF_Column) (possible_value : ℚ) (the_time : tpt) :
    PF_Column × AddResult :=
  if possible_value ≥ c.top_ + c.box_size_ then
    let how_many_boxes := toInt32 (ToIntTruncated ((possible_value - c.top_) / c.box_size_))
    ({ c with top_ := c.top_ + (how_many_boxes : ℚ) * c.box_size_,
              time_span_ := (c.time_span_.1, the_time) },
      (Status.e_accepted, none))
  else if possible_value ≤ c.top_ - c.box_size_ * (c.reversal_boxes_ : ℚ) then
    if c.reversal_boxes_ = 1 then
      if c.bottom_ ≤ c.top_ - c.box_size_ then
        let c1 := { c with time_span_ := (c.time_span_.1, the_time) }
        (c1, (Status.e_reversal,
          some (c1.MakeReversalColumn Direction.e_down (c1.top_ - c1.box_size_) the_time)))
      else
        let how_many_boxes := toInt32 (ToIntTruncated ((possible_value - c.bottom_) / c.box_size_))
        ({ c with bottom_ := c.bottom_ + (how_many_boxes : ℚ) * c.box_size_,
                  had_reversal_ := true,
                  direction_ := Direction.e_down,
                  time_span_ := (c.time_span_.1, the_time) },
          (Status.e_accepted, none))
    else
      let c1 := { c with time_span_ := (c.time_span_.1, the_time) }
      (c1, (Status.e_reversal,
        some (c1.MakeReversalColumn Direction.e_down
          (c1.top_ - c1.box_size_ * (c1.reversal_boxes_ : ℚ)) the_time)))
  else
    (c, (Status.e_ignored, none))

/-- The method `PF_Column::TryToExtendDown`. -/
def PF_Column.TryToExtendDown (c : PF_Column) (possible_value : ℚ) (the_time : tpt) :
    PF_Column × AddResult :=
  if possible_value ≤ c.bottom_ - c.box_size_ then
    let how_many_boxes := toInt32 (ToIntTruncated ((possible_value - c.bottom_) / c.box_size_))
    ({ c with bottom_ := c.bottom_ + (how_many_boxes : ℚ) * c.box_size_,
              time_span_ := (c.time_span_.1, the_time) },
      (Status.e_accepted, none))
  else if possible_value ≥ c.bottom_ + c.box_size_ * (c.reversal_boxes_ : ℚ) then
    if c.reversal_boxes_ = 1 then
      if c.top_ ≥ c.bottom_ + c.box_size_ then
        let c1 := { c with time_span_ := (c.time_span_.1, the_time) }
        (c1, (Status.e_reversal,
          some (c1.MakeReversalColumn Direction.e_up (c1.bottom_ + c1.box_size_) the_time)))
      else
        let how_many_boxes := toInt32 (ToIntTruncated ((possible_value - c.top_) / c.box_size_))
        ({ c with top_ := c.top_ + (how_many_boxes : ℚ) * c.box_size_,
                  had_reversal_ := true,
                  direction_ := Direction.e_up,
                  time_span_ := (c.time_span_.1, the_time) },
          (Status.e_accepted, none))
    else
      let c1 := { c with time_span_ := (c.time_span_.1, the_time) }
      (c1, (Status.e_reversal,
        some (c1.MakeReversalColumn Direction.e_up
          (c1.bottom_ + c1.box_size_ * (c1.reversal_boxes_ : ℚ)) the_time)))
  else
    (c, (Status.e_ignored, none))

/-! ## Percent scale -/

/-- The loop `while (possible_value >= top_ * percent_box_increment_up_)
top_ *= percent_box_increment_up_;` with its final value of `top_`. -/
def percentLoopUp : Nat → ℚ → ℚ → ℚ → Option ℚ
  | 0, _, _, _ => none
  | fuel + 1, possible_value, top, increment_up =>
    if possible_value ≥ top * increment_up
    then percentLoopUp fuel possible_value (top * increment_up) increment_up
    else some top

/-- The loop `while (possible_value <= bottom_ * percent_box_increment_down_)
bottom_ *= percent_box_increment_down_;` with its final value of `bottom_`. -/
def percentLoopDown : Nat → ℚ → ℚ → ℚ → Option ℚ
  | 0, _, _, _ => none
  | fuel + 1, possible_value, bottom, increment_down =>
    if possible_value ≤ bottom * increment_down
    then percentLoopDown fuel possible_value (bottom * increment_down) increment_down
    else some bottom

/-- The method `PF_Column::StartColumnPercent`. -/
def PF_Column.StartColumnPercent (c : PF_Column) (new_value : ℚ) (the_time : tpt) :
    PF_Column × AddResult :=
  ({ c with top_ := new_value, bottom_ := new_value, time_span_ := (the_time, the_time) },
    (Status.e_accepted, none))

/-- The method `PF_Column::TryToFindDirectionPercent`. -/
def PF_Column.TryToFindDirectionPercent (fuel : Nat) (c : PF_Column) (possible_value : ℚ)
    (the_time : tpt) : Option (PF_Column × AddResult) :=
  if possible_value ≥ c.top_ * c.percent_box_increment_up_ then
    match percentLoopUp fuel possible_value c.top_ c.percent_box_increment_up_ with
    | none => none
    | some top =>
      some ({ c with direction_ := Direction.e_up,
                     top_ := Rescale top c.percent_exponent_,
                     time_span_ := (c.time_span_.1, the_time) },
        (Status.e_accepted, none))
  else if possible_value ≤ c.bottom_ * c.percent_box_increment_down_ then
    match percentLoopDown fuel possible_value c.bottom_ c.percent_box_increment_down_ with
    | none => none
    | some bottom =>
      some ({ c with direction_ := Direction.e_down,
                     bottom_ := Rescale bottom c.percent_exponent_,
                     time_span_ := (c.time_span_.1, the_time) },
        (Status.e_accepted, none))
  else
    some (c, (Status.e_ignored, none))

/-- The method `PF_Column::TryToExtendUpPercent`. -/
def PF_Column.TryToExtendUpPercent (fuel : Nat) (c : PF_Column) (possible_value : ℚ)
    (the_time : tpt) : Option (PF_Column × AddResult) :=
  if possible_value ≥ c.top_ * c.percent_box_increment_up_ then
    match percentLoopUp fuel possible_value c.top_ c.percent_box_increment_up_ with
    | none => none
    | some top =>
      some ({ c with top_ := Rescale top c.percent_exponent_,
                     time_span_ := (c.time_span_.1, the_time) },
        (Status.e_accepted, none))
  else if possible_value ≤ c.top_ * c.reversal_factor_down_ then
    if c.reversal_boxes_ = 1 then
      if c.bottom_ ≤ c.top_ * c.percent_box_increment_down_ then
        let c1 := { c with time_span_ := (c.time_span_.1, the_time) }
        some (c1, (Status.e_reversal,
          some (c1.MakeReversalColumnPercent Direction.e_down
            (Rescale (c1.top_ * c1.percent_box_increment_down_) c1.percent_exponent_) the_time)))
      else
        match percentLoopDown fuel possible_value c.bottom_ c.percent_box_increment_down_ with
        | none => none
        | some bottom =>
          some ({ c with bottom_ := Rescale bottom c.percent_exponent_,
                         had_reversal_ := true,
                         direction_ := Direction.e_down,
                         time_span_ := (c.time_span_.1, the_time) },
            (Status.e_accepted, none))
    else
      let c1 := { c with time_span_ := (c.time_span_.1, the_time) }
      some (c1, (Status.e_reversal,
        some (c1.MakeReversalColumnPercent Direction.e_down
          (Rescale (c1.top_ * c1.reversal_factor_down_) c1.percent_exponent_) the_time)))
  else
    some (c, (Status.e_ignored, none))

/-- The method `PF_Column::TryToExtendDownPercent`. -/
def PF_Column.TryToExtendDownPercent (fuel : Nat) (c : PF_Column) (possible_value : ℚ)
    (the_time : tpt) : Option (PF_Column × AddResult) :=
  if possible_value ≤ c.bottom_ * c.percent_box_increment_down_ then
    match percentLoopDown fuel possible_value c.bottom_ c.percent_box_increment_down_ with
    | none => none
    | some bottom =>
      some ({ c with bottom_ := Rescale bottom c.percent_exponent_,
                     time_span_ := (c.time_span_.1, the_time) },
        (Status.e_accepted, none))
  else if possible_value ≥ c.bottom_ * c.reversal_factor_up_ then
    if c.reversal_boxes_ = 1 then
      if c.top_ ≥ c.bottom_ * c.percent_box_increment_up_ then
        let c1 := { c with time_span_ := (c.time_span_.1, the_time) }
        some (c1, (Status.e_reversal,
          some (c1.MakeReversalColumnPercent Direction.e_up
            (Rescale (c1.bottom_ * c1.percent_box_increment_up_) c1.percent_exponent_) the_time)))
      else
        match percentLoopUp fuel possible_value c.top_ c.percent_box_increment_up_ with
        | none => none
        | some top =>
          some ({ c with top_ := Rescale top c.percent_exponent_,
                         had_reversal_ := true,
                         direction_ := Direction.e_up,
                         time_span_ := (c.time_span_.1, the_time) },
            (Status.e_accepted, none))
    else
      let c1 := { c with time_span_ := (c.time_span_.1, the_time) }
      some (c1, (Status.e_reversal,
        some (c1.MakeReversalColumnPercent Direction.e_up
          (Rescale (c1.bottom_ * c1.reversal_factor_up_) c1.percent_exponent_) the_time)))
  else
    some (c, (Status.e_ignored, none))

/-- The method `PF_Column::AddValuePercent`. -/
def PF_Column.AddValuePercent (fuel : Nat) (c : PF_Column) (new_value : ℚ) (the_time : tpt) :
    Option (PF_Column × AddResult) :=
  if c.top_ = -1 ∧ c.bottom_ = -1 then
    some (c.StartColumnPercent new_value the_time)
  else if c.direction_ = Direction.e_unknown then
    c.TryToFindDirectionPercent fuel new_value the_time
  else if c.direction_ = Direction.e_up then
    c.TryToExtendUpPercent fuel new_value the_time
  else
    c.TryToExtendDownPercent fuel new_value the_time

/-- The method `PF_Column::AddValue`. On the linear scale no loop runs and the
fuel is not consulted. -/
def PF_Column.AddValue (fuel : Nat) (c : PF_Column) (new_value : ℚ) (the_time : tpt) :
    Option (PF_Column × AddResult) :=
  if c.column_scale_ = ColumnScale.e_percent then
    c.AddValuePercent fuel new_value the_time
  else if c.top_ = -1 ∧ c.bottom_ = -1 then
    some (c.StartColumn new_value the_time)
  else
    let possible_value : ℚ :=
      if c.box_type_ = BoxType.e_integral then (ToIntTruncated new_value : ℚ) else new_value
    if c.direction_ = Direction.e_unknown then
      some (c.TryToFindDirection possible_value the_time)
    else if c.direction_ = Direction.e_up then
      some (c.TryToExtendUp possible_value the_time)
    else
      some (c.TryToExtendDown possible_value the_time)

/-! ## Charts -/

/-- Modelled from the spec: the class `Boxes` (Boxes.h is not among the
sources), "Immutable configuration bundle: box size, box type (integral |
fractional), box scale (linear | percent)". The exponent of the box size's
stored representation is kept next to its value. -/
structure Boxes where
  box_size : ℚ
  box_size_exponent : Int
  box_type : BoxType
  box_scale : ColumnScale
  deriving DecidableEq, Repr

/-- The data members of `PF_Chart` that PF_Chart.cpp reads and writes. -/
structure PF_Chart where
  boxes_ : Boxes
  columns_ : List PF_Column
  current_column_ : PF_Column
  symbol_ : String
  first_date_ : tpt
  last_change_date_ : tpt
  last_checked_date_ : tpt
  y_min_ : ℚ
  y_max_ : ℚ
  current_direction_ : Direction
  deriving DecidableEq, Repr

/-- The constructor `PF_Chart::PF_Chart(symbol, box_size, reversal_boxes,
box_type, box_scale)`: the boxes, an empty current column (direction unknown,
top and bottom at the sentinel -1) and the member initialisers of PF_Chart.h,
`y_min_ = 100000` and `y_max_ = -1`. -/
def PF_Chart.new (symbol : String) (box_size : ℚ) (box_size_exponent : Int)
    (reversal_boxes : Int) (box_type : BoxType) (box_scale : ColumnScale) : PF_Chart :=
  { boxes_ := { box_size := box_size, box_size_exponent := box_size_exponent,
                box_type := box_type, box_scale := box_scale },
    columns_ := [],
    current_column_ := PF_Column.new box_size box_size_exponent reversal_boxes box_type
      box_scale Direction.e_unknown (-1) (-1),
    symbol_ := symbol,
    first_date_ := 0,
    last_change_date_ := 0,
    last_checked_date_ := 0,
    y_min_ := 100000,
    y_max_ := -1,
    current_direction_ := Direction.e_unknown }

/-- The accessor `PF_Chart::GetBoxSize`. -/
def PF_Chart.GetBoxSize (c : PF_Chart) : ℚ := c.boxes_.box_size

/-- The accessor `PF_Chart::GetReversalboxes`: the reversal count handed to the
current column by the constructor. -/
def PF_Chart.GetReversalboxes (c : PF_Chart) : Int := c.current_column_.reversal_boxes_

/-- The accessor `PF_Chart::GetBoxType`. -/
def PF_Chart.GetBoxType (c : PF_Chart) : BoxType := c.boxes_.box_type

/-- The accessor `PF_Chart::GetBoxScale`. -/
def PF_Chart.GetBoxScale (c : PF_Chart) : ColumnScale := c.boxes_.box_scale

/-- The comparison of two column vectors, element by element with
`PF_Column::operator==`. -/
def columnsEq : List PF_Column → List PF_Column → Bool
  | [], [] => true
  | a :: as, b :: bs => PF_Column.eq a b && columnsEq as bs
  | _, _ => false

/-- The comparison `PF_Chart::operator==`. -/
def PF_Chart.eq (lhs rhs : PF_Chart) : Bool :=
  if lhs.symbol_ ≠ rhs.symbol_ then false
  else if lhs.GetBoxSize ≠ rhs.GetBoxSize then false
  else if lhs.GetReversalboxes ≠ rhs.GetReversalboxes then false
  else if lhs.y_min_ ≠ rhs.y_min_ then false
  else if lhs.y_max_ ≠ rhs.y_max_ then false
  else if lhs.current_direction_ ≠ rhs.current_direction_ then false
  else if lhs.GetBoxType ≠ rhs.GetBoxType then false
  else if lhs.GetBoxScale ≠ rhs.GetBoxScale then false
  else if columnsEq lhs.columns_ rhs.columns_ = false then false
  else if PF_Column.eq lhs.current_column_ rhs.current_column_ = false then false
  else true

/-- The method `PF_Chart::AddValue`: the chart after the call and the status
returned. `none` when a column call ran out of fuel, or when a reversal came
without a successor (`new_col.value()` would throw). -/
def PF_Chart.AddValue (fuel : Nat) (c : PF_Chart) (new_value : ℚ) (the_time : tpt) :
    Option (PF_Chart × Status) :=
  match c.current_column_.AddValue fuel new_value the_time with
  | none => none
  | some (col, status, new_col) =>
    if status = Status.e_accepted then
      let y_max := if col.top_ > c.y_max_ then col.top_ else c.y_max_
      let y_min := if col.bottom_ < c.y_min_ then col.bottom_ else c.y_min_
      some ({ c with current_column_ := col, y_max_ := y_max, y_min_ := y_min,
                     last_change_date_ := the_time,
                     current_direction_ := col.direction_ }, status)
    else if status = Status.e_reversal then
      match new_col with
      | none => none
      | some successor =>
        match successor.AddValue fuel new_value the_time with
        | none => none
        | some (current, status2, _) =>
          some ({ c with columns_ := c.columns_ ++ [col], current_column_ := current,
                         last_change_date_ := the_time,
                         current_direction_ := current.direction_ }, status2)
    else
      some ({ c with current_column_ := col, current_direction_ := col.direction_ }, status)

/-- Feed a sequence of observations `(price, time)` to a chart, one
`PF_Chart::AddValue` call each, in order. -/
def PF_Chart.feed (fuel : Nat) : PF_Chart → List (ℚ × tpt) → Option PF_Chart
  | c, [] => some c
  | c, (price, time) :: rest =>
    match c.AddValue fuel price time with
    | none => none
    | some (c1, _) => PF_Chart.feed fuel c1 rest

/-- The accessor `PF_Chart::GetNumberOfColumns`. -/
def PF_Chart.GetNumberOfColumns (c : PF_Chart) : Nat := c.columns_.length + 1

/-! ## Snapshots -/

/-- The failures of loading a snapshot: the `std::invalid_argument` thrown for an enumerated
string that is not recognised, the failure of parsing a decimal string, and the
`Json::LogicError` that jsoncpp throws from a read `new_data[member].asInt64()` (or `asInt`,
`asString`, `asBool`) whose value cannot be converted. -/
inductive SnapshotError where
  | invalidDirection (value : String)
  | invalidBoxType (value : String)
  | invalidColumnScale (value : String)
  | malformedDecimal (value : String)
  | notConvertible (member : String)
  deriving DecidableEq, Repr

/-- Modelled from the spec: the string conversions of `DDecQuad` (DDecQuad.h is not among
the sources), "to_string(a), from_string(s)" where "parse from string fails with
MalformedDecimal". `ExponentOf` is the decimal exponent of the number a string denotes. -/
structure DecimalStrings where
  ToStr : ℚ → String
  FromStr : String → Option ℚ
  ExponentOf : String → Int

/-- The construction `DDecQuad{string}` of a decimal from a snapshot string. -/
def DecimalStrings.parse (D : DecimalStrings) (s : String) : Except SnapshotError ℚ :=
  match D.FromStr s with
  | some q => Except.ok q
  | none => Except.error (SnapshotError.malformedDecimal s)

/-- The members of the JSON value that `PF_Column::ToJSON` writes and
`PF_Column::FromJSON` reads, each as the read of `FromJSON` returns it
(`new_data[member].asInt64()` for `start_at` and `last_entry`, `asInt` for `reversal_boxes`,
`asBool` for `had_reversal`, `asString` for the others): `some` with the converted value, or
`none` when the read throws, as jsoncpp does for a value that the accessor cannot convert (an
array where an integer, a boolean or a string is read, say). -/
structure ColumnJSON where
  start_at : Option Int
  last_entry : Option Int
  box_size : Option String
  reversal_boxes : Option Int
  bottom : Option String
  top : Option String
  direction : Option String
  box_type : Option String
  column_scale : Option String
  had_reversal : Option Bool
  deriving DecidableEq, Repr

/-- The value that the read of the member `member` returns, or the failure of the read. -/
def readMember {α : Type} (member : String) : Option α → Except SnapshotError α
  | some value => Except.ok value
  | none => Except.error (SnapshotError.notConvertible member)

/-- The strings written for a direction by `ToJSON`. -/
def Direction.toJSON : Direction → String
  | Direction.e_unknown => "unknown"
  | Direction.e_down => "down"
  | Direction.e_up => "up"

/-- The strings written for a box type by `PF_Column::ToJSON`. -/
def BoxType.toJSON : BoxType → String
  | BoxType.e_integral => "integral"
  | BoxType.e_fractional => "fractional"

/-- The strings written for a column scale by `PF_Column::ToJSON`. -/
def ColumnScale.toJSON : ColumnScale → String
  | ColumnScale.e_linear => "linear"
  | ColumnScale.e_percent => "percent"

/-- The direction branch of `FromJSON`, with its `throw`. -/
def Direction.fromJSON (direction : String) : Except SnapshotError Direction :=
  if direction = "up" then Except.ok Direction.e_up
  else if direction = "down" then Except.ok Direction.e_down
  else if direction = "unknown" then Except.ok Direction.e_unknown
  else Except.error (SnapshotError.invalidDirection direction)

/-- The box type branch of `PF_Column::FromJSON`, with its `throw`. -/
def BoxType.fromJSON (box_type : String) : Except SnapshotError BoxType :=
  if box_type = "integral" then Except.ok BoxType.e_integral
  else if box_type = "fractional" then Except.ok BoxType.e_fractional
  else Except.error (SnapshotError.invalidBoxType box_type)

/-- The column scale branch of `PF_Column::FromJSON`, with its `throw`. -/
def ColumnScale.fromJSON (column_scale : String) : Except SnapshotError ColumnScale :=
  if column_scale = "linear" then Except.ok ColumnScale.e_linear
  else if column_scale = "percent" then Except.ok ColumnScale.e_percent
  else Except.error (SnapshotError.invalidColumnScale column_scale)

/-- The method `PF_Column::ToJSON`: every member is written with a value that its accessor
converts. -/
def PF_Column.ToJSON (D : DecimalStrings) (c : PF_Column) : ColumnJSON :=
  { start_at := some c.time_span_.1,
    last_entry := some c.time_span_.2,
    box_size := some (D.ToStr c.box_size_),
    reversal_boxes := some c.reversal_boxes_,
    bottom := some (D.ToStr c.bottom_),
    top := some (D.ToStr c.top_),
    direction := some c.direction_.toJSON,
    box_type := some c.box_type_.toJSON,
    column_scale := some c.column_scale_.toJSON,
    had_reversal := some c.had_reversal_ }

/-- The method `PF_Column::FromJSON`, in the order of its statements: `start_at`,
`last_entry`, `box_size`, `reversal_boxes`, `bottom`, `top`, `direction`, `box_type`,
`column_scale`, `had_reversal`. The result is the column `c` with the members read from the
snapshot, or the first failure: of a read, of the construction of a decimal from a string,
or of an enumerated string. The percent members are not assigned. -/
def PF_Column.FromJSON (D : DecimalStrings) (c : PF_Column) (new_data : ColumnJSON) :
    Except SnapshotError PF_Column :=
  match readMember "start_at" new_data.start_at with
  | Except.error e => Except.error e
  | Except.ok start_at =>
  match readMember "last_entry" new_data.last_entry with
  | Except.error e => Except.error e
  | Except.ok last_entry =>
  match readMember "box_size" new_data.box_size with
  | Except.error e => Except.error e
  | Except.ok box_size_string =>
  match D.parse box_size_string with
  | Except.error e => Except.error e
  | Except.ok box_size =>
  match readMember "reversal_boxes" new_data.reversal_boxes with
  | Except.error e => Except.error e
  | Except.ok reversal_boxes =>
  match readMember "bottom" new_data.bottom with
  | Except.error e => Except.error e
  | Except.ok bottom_string =>
  match D.parse bottom_string with
  | Except.error e => Except.error e
  | Except.ok bottom =>
  match readMember "top" new_data.top with
  | Except.error e => Except.error e
  | Except.ok top_string =>
  match D.parse top_string with
  | Except.error e => Except.error e
  | Except.ok top =>
  match readMember "direction" new_data.direction with
  | Except.error e => Except.error e
  | Except.ok direction_string =>
  match Direction.fromJSON direction_string with
  | Except.error e => Except.error e
  | Except.ok direction =>
  match readMember "box_type" new_data.box_type with
  | Except.error e => Except.error e
  | Except.ok box_type_string =>
  match BoxType.fromJSON box_type_string with
  | Except.error e => Except.error e
  | Except.ok box_type =>
  match readMember "column_scale" new_data.column_scale with
  | Except.error e => Except.error e
  | Except.ok column_scale_string =>
  match ColumnScale.fromJSON column_scale_string with
  | Except.error e => Except.error e
  | Except.ok column_scale =>
  match readMember "had_reversal" new_data.had_reversal with
  | Except.error e => Except.error e
  | Except.ok had_reversal =>
    Except.ok { c with
      time_span_ := (start_at, last_entry),
      box_size_ := box_size,
      box_size_exponent_ := D.ExponentOf box_size_string,
      reversal_boxes_ := reversal_boxes,
      bottom_ := bottom,
      top_ := top,
      direction_ := direction,
      box_type_ := box_type,
      column_scale_ := column_scale,
      had_reversal_ := had_reversal }

/-- Modelled from the spec: a default-constructed `PF_Column` (the member initialisers are
in PF_Column.h, which is not among the sources): direction "initial unknown", top and bottom
at the "sentinel −1", no reversal, every other member zero. -/
def PF_Column.blank : PF_Column :=
  { box_size_ := 0, box_size_exponent_ := 0, reversal_boxes_ := 0,
    box_type_ := BoxType.e_integral, column_scale_ := ColumnScale.e_linear,
    direction_ := Direction.e_unknown, top_ := -1, bottom_ := -1, had_reversal_ := false,
    time_span_ := (0, 0), percent_box_increment_up_ := 0, percent_exponent_ := 0,
    percent_box_increment_down_ := 0, reversal_factor_up_ := 0, reversal_factor_down_ := 0 }

/-- The constructor `PF_Column::PF_Column(const Json::Value&)`. -/
def PF_Column.ofJSON (D : DecimalStrings) (new_data : ColumnJSON) :
    Except SnapshotError PF_Column :=
  PF_Column.blank.FromJSON D new_data

/-- Modelled from the spec: the "Boxes snapshot" (Boxes.cpp is not among the sources), with
the box size as a decimal string and the two enumerations as the strings of the column
snapshot. -/
structure BoxesJSON where
  box_size : String
  box_type : String
  box_scale : String
  deriving DecidableEq, Repr

/-- Modelled from the spec: `Boxes::ToJSON` (Boxes.cpp is not among the sources). -/
def Boxes.ToJSON (D : DecimalStrings) (b : Boxes) : BoxesJSON :=
  { box_size := D.ToStr b.box_size,
    box_type := b.box_type.toJSON,
    box_scale := b.box_scale.toJSON }

/-- Modelled from the spec: the assignment of a "Boxes snapshot" to `boxes_` (Boxes.cpp is
not among the sources), with the failures of the column snapshot. -/
def Boxes.FromJSON (D : DecimalStrings) (new_data : BoxesJSON) : Except SnapshotError Boxes :=
  match D.parse new_data.box_size with
  | Except.error e => Except.error e
  | Except.ok box_size =>
    match BoxType.fromJSON new_data.box_type with
    | Except.error e => Except.error e
    | Except.ok box_type =>
      match ColumnScale.fromJSON new_data.box_scale with
      | Except.error e => Except.error e
      | Except.ok box_scale =>
        Except.ok { box_size := box_size,
                    box_size_exponent := D.ExponentOf new_data.box_size,
                    box_type := box_type, box_scale := box_scale }

/-- The members of the JSON value that `PF_Chart::ToJSON` writes and `PF_Chart::FromJSON`
reads. -/
structure ChartJSON where
  symbol : String
  boxes : BoxesJSON
  first_date : Int
  last_change_date : Int
  last_check_date : Int
  y_min : String
  y_max : String
  current_direction : String
  columns : List ColumnJSON
  current_column : ColumnJSON
  deriving DecidableEq, Repr

/-- The method `PF_Chart::ToJSON`. -/
def PF_Chart.ToJSON (D : DecimalStrings) (c : PF_Chart) : ChartJSON :=
  { symbol := c.symbol_,
    boxes := c.boxes_.ToJSON D,
    first_date := c.first_date_,
    last_change_date := c.last_change_date_,
    last_check_date := c.last_checked_date_,
    y_min := D.ToStr c.y_min_,
    y_max := D.ToStr c.y_max_,
    current_direction := c.current_direction_.toJSON,
    columns := c.columns_.map (PF_Column.ToJSON D),
    current_column := c.current_column_.ToJSON D }

/-- The loop of `PF_Chart::FromJSON` that constructs one column from each element of the
JSON array and appends it, stopping at the first failure. -/
def loadColumns (D : DecimalStrings) : List ColumnJSON → Except SnapshotError (List PF_Column)
  | [] => Except.ok []
  | next_val :: rest =>
    match PF_Column.ofJSON D next_val with
    | Except.error e => Except.error e
    | Except.ok col =>
      match loadColumns D rest with
      | Except.error e => Except.error e
      | Except.ok cols => Except.ok (col :: cols)

/-- The method `PF_Chart::FromJSON`, in the order of its assignments: the chart `c` with the
members read from the snapshot, or the first failure. -/
def PF_Chart.FromJSON (D : DecimalStrings) (c : PF_Chart) (new_data : ChartJSON) :
    Except SnapshotError PF_Chart :=
  match Boxes.FromJSON D new_data.boxes with
  | Except.error e => Except.error e
  | Except.ok boxes =>
    match D.parse new_data.y_min with
    | Except.error e => Except.error e
    | Except.ok y_min =>
      match D.parse new_data.y_max with
      | Except.error e => Except.error e
      | Except.ok y_max =>
        match Direction.fromJSON new_data.current_direction with
        | Except.error e => Except.error e
        | Except.ok current_direction =>
          match loadColumns D new_data.columns with
          | Except.error e => Except.error e
          | Except.ok columns =>
            match PF_Column.ofJSON D new_data.current_column with
            | Except.error e => Except.error e
            | Except.ok current_column =>
              Except.ok { c with
                symbol_ := new_data.symbol,
                boxes_ := boxes,
                first_date_ := new_data.first_date,
                last_change_date_ := new_data.last_change_date,
                last_checked_date_ := new_data.last_check_date,
                y_min_ := y_min,
                y_max_ := y_max,
                current_direction_ := current_direction,
                columns_ := columns,
                current_column_ := current_column }

/-- A decimal string conversion that round-trips: a rational is written as a run of the
character `1` whose length is the code of the rational. -/
def unaryDecimalStrings : DecimalStrings :=
  { ToStr := fun q => String.mk (List.replicate (Encodable.encode q) '1'),
    FromStr := fun s => Encodable.decode s.length,
    ExponentOf := fun _ => 0 }

/-! ## Average true range -/

/-- The enumeration `UseAdjusted`: `e_Yes` is the enumerator PF_Chart.cpp names, `e_No`
stands for the other value, which takes the second loop. -/
inductive UseAdjusted where
  | e_Yes
  | e_No
  deriving DecidableEq, Repr

/-- An element of the JSON array that `ComputeATR` reads: the strings that `asString()`
gives for the six members the function looks up. -/
structure OHLCRow where
  high : String
  low : String
  close : String
  adjHigh : String
  adjLow : String
  adjClose : String
  deriving DecidableEq, Repr

/-- The ways in which a call of `ComputeATR` ends without a value: the `BOOST_ASSERT_MSG` on
the number of rows, a decimal string that does not parse, a read of an element that the
array does not have (jsoncpp hands out a null value there; the embedding stops at the read
and records the index), and the division by a zero count. -/
inductive ATRError where
  | insufficientData
  | malformedDecimal (value : String)
  | rowOutOfRange (index : Nat)
  | domainError
  deriving DecidableEq, Repr

/-- Equality of two results of `ComputeATR`, a value or a failure, can be decided. -/
instance decEqATRResult : DecidableEq (Except ATRError ℚ)
  | Except.ok x, Except.ok y =>
    if h : x = y then isTrue (congrArg Except.ok h)
    else isFalse (fun e => h (Except.ok.inj e))
  | Except.error x, Except.error y =>
    if h : x = y then isTrue (congrArg Except.error h)
    else isFalse (fun e => h (Except.error.inj e))
  | Except.ok _, Except.error _ => isFalse (fun e => Except.noConfusion e)
  | Except.error _, Except.ok _ => isFalse (fun e => Except.noConfusion e)

/-- The construction `DDecQuad{string}` of a decimal from a member of a row. -/
def DecimalStrings.read (D : DecimalStrings) (s : String) : Except ATRError ℚ :=
  match D.FromStr s with
  | some q => Except.ok q
  | none => Except.error (ATRError.malformedDecimal s)

/-- The body of the `for` loops of `ComputeATR` at index `i`, with the three members the
loop reads (`adjHigh`, `adjLow`, `adjClose` in the first loop, `high`, `low`, `close` in the
second): the new value of `total`. -/
def ComputeATR.body (D : DecimalStrings) (highOf lowOf closeOf : OHLCRow → String)
    (the_data : List OHLCRow) (i : Nat) (total : ℚ) : Except ATRError ℚ :=
  match the_data[i]? with
  | none => Except.error (ATRError.rowOutOfRange i)
  | some row =>
    match D.read (highOf row) with
    | Except.error e => Except.error e
    | Except.ok high =>
      match D.read (lowOf row) with
      | Except.error e => Except.error e
      | Except.ok low =>
        match the_data[i + 1]? with
        | none => Except.error (ATRError.rowOutOfRange (i + 1))
        | some prev =>
          match D.read (closeOf prev) with
          | Except.error e => Except.error e
          | Except.ok prev_close =>
            let high_minus_low := high - low
            let high_minus_prev_close := |high - prev_close|
            let low_minus_prev_close := |low - prev_close|
            let max := Max.max high_minus_low (Max.max high_minus_prev_close low_minus_prev_close)
            Except.ok (total + max)

/-- The loop `for (int i = 0; i < how_many_days; ++i)` of `ComputeATR` from the index `i`
on, with the number of passes that remain: the final value of `total`. -/
def ComputeATR.loop (D : DecimalStrings) (highOf lowOf closeOf : OHLCRow → String)
    (the_data : List OHLCRow) : Nat → Nat → ℚ → Except ATRError ℚ
  | 0, _, total => Except.ok total
  | remaining + 1, i, total =>
    match ComputeATR.body D highOf lowOf closeOf the_data i total with
    | Except.error e => Except.error e
    | Except.ok total2 => ComputeATR.loop D highOf lowOf closeOf the_data remaining (i + 1) total2

/-- Modelled from the spec: the division of a decimal by an integer count, `operator/=` of
`DDecQuad` (DDecQuad.h is not among the sources), where "division by zero fails with
DomainError". -/
def divideByCount (total : ℚ) (count : Int) : Except ATRError ℚ :=
  if count = 0 then Except.error ATRError.domainError
  else Except.ok (total / (count : ℚ))

/-- The function `ComputeATR`. The size of the JSON array is an `unsigned int`, so the
comparison of the assertion converts the `int32_t` count to `unsigned int`: the count modulo
2^32. `total` starts at zero; the loop runs `how_many_days` times, not at all for a count
below one; `total /= how_many_days` ends the call. -/
def ComputeATR (D : DecimalStrings) (symbol : String) (the_data : List OHLCRow)
    (how_many_days : Int) (use_adjusted : UseAdjusted) : Except ATRError ℚ :=
  if ¬ ((the_data.length : Int) > how_many_days % 2 ^ 32) then
    Except.error ATRError.insufficientData
  else
    match (if use_adjusted = UseAdjusted.e_Yes
      then ComputeATR.loop D OHLCRow.adjHigh OHLCRow.adjLow OHLCRow.adjClose the_data
        how_many_days.toNat 0 0
      else ComputeATR.loop D OHLCRow.high OHLCRow.low OHLCRow.close the_data
        how_many_days.toNat 0 0) with
    | Except.error e => Except.error e
    | Except.ok total => divideByCount total how_many_days

/-! ## Indexing a chart -/

/-- The operator `PF_Chart::operator[]` of PF_Chart.h: the closed column at the position
`which` when the position is below the number of closed columns, the current column at any
other position. PF_Chart.cpp holds the current column by value, so the `*current_column_` of
the header is read as that value. -/
def PF_Chart.operatorIndex (c : PF_Chart) (which : Nat) : PF_Column :=
  if h : which < c.columns_.length then c.columns_.get ⟨which, h⟩ else c.current_column_

/-! ## Predicates used to state the properties -/

/-- The box-adjusted price `possible_value` that `PF_Column::AddValue` computes on the
linear scale: the price truncated to an integer for integral boxes, the price itself
otherwise. -/
def PF_Column.possibleValue (c : PF_Column) (new_value : ℚ) : ℚ :=
  if c.box_type_ = BoxType.e_integral then (ToIntTruncated new_value : ℚ) else new_value

/-- Two columns carry the same configuration. -/
def SameConfig (a b : PF_Column) : Prop :=
  b.box_size_ = a.box_size_ ∧ b.box_size_exponent_ = a.box_size_exponent_ ∧
  b.reversal_boxes_ = a.reversal_boxes_ ∧ b.box_type_ = a.box_type_ ∧
  b.column_scale_ = a.column_scale_

/-- What one `PF_Column::AddValue` call at time `t` can do to a column `c`, on either
scale: `r` is the column after the call with the status and the successor. -/
structure ColStep (c : PF_Column) (t : tpt) (r : PF_Column × AddResult) : Prop where
  config : SameConfig c r.1
  ignored : r.2.1 = Status.e_ignored → r.1 = c ∧ r.2.2 = none
  accepted : r.2.1 = Status.e_accepted → r.2.2 = none ∧
    ((r.1.had_reversal_ = c.had_reversal_ ∧
        (c.direction_ ≠ Direction.e_unknown → r.1.direction_ = c.direction_)) ∨
     (r.1.had_reversal_ = true ∧ c.reversal_boxes_ = 1 ∧ r.1.direction_ ≠ Direction.e_unknown))
  reversal : r.2.1 = Status.e_reversal →
    r.1 = { c with time_span_ := (c.time_span_.1, t) } ∧
    ∃ s, r.2.2 = some s ∧ SameConfig c s ∧ s.had_reversal_ = false ∧ s.time_span_ = (t, t) ∧
      ((c.direction_ = Direction.e_up ∧ s.direction_ = Direction.e_down) ∨
       (c.direction_ = Direction.e_down ∧ s.direction_ = Direction.e_up))

/-- Linear-scale alignment: `top − bottom` is a natural multiple of the box size. -/
def LinInv (c : PF_Column) : Prop :=
  ∃ n : ℕ, c.top_ - c.bottom_ = (n : ℚ) * c.box_size_

/-- A successor column `s` lies on the far side of the box-adjusted price `v`: a down
column has its bottom at or above `v`, an up column its top at or below `v`. -/
def Placed (s : PF_Column) (v : ℚ) : Prop :=
  (s.direction_ = Direction.e_down ∧ v ≤ s.bottom_) ∨
  (s.direction_ = Direction.e_up ∧ s.top_ ≤ v)

/-- The cases in which a linear-scale successor `s` accepts the price that is fed to it
again: it sits at the sentinel (so the call starts the column), or the box-adjusted price
is at least one box beyond its bottom (down) or top (up). -/
def RefeedAccepts (s : PF_Column) (price : ℚ) : Prop :=
  (s.top_ = -1 ∧ s.bottom_ = -1) ∨
  (s.direction_ = Direction.e_down ∧ s.possibleValue price ≤ s.bottom_ - s.box_size_) ∨
  (s.direction_ = Direction.e_up ∧ s.top_ + s.box_size_ ≤ s.possibleValue price)

/-- A linear-scale column of box size `b` and reversal count `r` that is aligned. -/
def LinCol (b : ℚ) (r : Int) (col : PF_Column) : Prop :=
  col.column_scale_ = ColumnScale.e_linear ∧ col.box_size_ = b ∧ col.reversal_boxes_ = r ∧
  LinInv col

/-- Every column of the chart, closed or current, is an aligned linear-scale column of box
size `b` and reversal count `r`. -/
def LinChart (b : ℚ) (r : Int) (c : PF_Chart) : Prop :=
  (∀ col ∈ c.columns_, LinCol b r col) ∧ LinCol b r c.current_column_

/-- Two directions are opposite: one is up and the other is down. -/
def Opposite (d1 d2 : Direction) : Prop :=
  (d1 = Direction.e_up ∧ d2 = Direction.e_down) ∨ (d1 = Direction.e_down ∧ d2 = Direction.e_up)

/-- The later column `b` of two neighbours has the direction opposite to the earlier column
`a`, unless `b` reversed in place. -/
def Alternates (a b : PF_Column) : Prop :=
  b.had_reversal_ = false → Opposite a.direction_ b.direction_

/-- A column of reversal count `r` whose `had_reversal_` flag is only set when `r = 1`. -/
def StepBackOnlyOneBox (r : Int) (col : PF_Column) : Prop :=
  col.reversal_boxes_ = r ∧ (col.had_reversal_ = true → r = 1)

/-- The invariant behind direction alternation: all columns have reversal count `r`, the
in-place flag is only set for `r = 1`, neighbours among the closed columns alternate, and the
current column alternates with the last closed column. -/
def DirChart (r : Int) (c : PF_Chart) : Prop :=
  (∀ col ∈ c.columns_, StepBackOnlyOneBox r col) ∧ StepBackOnlyOneBox r c.current_column_ ∧
  List.Chain' Alternates c.columns_ ∧
  (∀ last ∈ c.columns_.getLast?, Alternates last c.current_column_)

/-- A column with its time span set to zero: what `PF_Column::operator==` can see, and the
configuration. -/
def PF_Column.eraseTime (c : PF_Column) : PF_Column :=
  { c with time_span_ := (0, 0) }

/-- The result of an `AddValue` call with the time spans of its columns set to zero. -/
def eraseResult (r : PF_Column × AddResult) : PF_Column × AddResult :=
  (r.1.eraseTime, r.2.1, r.2.2.map PF_Column.eraseTime)

/-- A chart with every date and time span set to zero. -/
def PF_Chart.eraseTime (c : PF_Chart) : PF_Chart :=
  { c with columns_ := c.columns_.map PF_Column.eraseTime,
           current_column_ := c.current_column_.eraseTime,
           first_date_ := 0, last_change_date_ := 0, last_checked_date_ := 0 }

/-! ## Worked charts -/

/-- A fresh chart on the linear scale with integral boxes, box size 3 and three reversal
boxes. -/
def freshBox3 : PF_Chart :=
  PF_Chart.new "B3" 3 0 3 BoxType.e_integral ColumnScale.e_linear

/-- The chart `freshBox3` after the prices 8 and 20: one up column from 6 to 18. -/
def chartUp : PF_Chart :=
  (freshBox3.feed 0 [(8, 1), (20, 2)]).getD freshBox3

/-- The current column of `chartUp` as the price 9 at time 3 leaves it: closed, with the
time of the call as the end of its time span. -/
def closedUp : PF_Column :=
  { chartUp.current_column_ with time_span_ := (1, 3) }

/-- The successor that the current column of `chartUp` returns for the price 9 at time 3:
a down column from 15 to 9. -/
def successorDown : PF_Column :=
  closedUp.MakeReversalColumn Direction.e_down 9 3

/-- The chart `chartUp` after the price 9 at time 3. -/
def chartDown : PF_Chart :=
  { chartUp with columns_ := [closedUp], current_column_ := successorDown,
                 last_change_date_ := 3, current_direction_ := Direction.e_down }

/-- The chart `freshBox3` after the prices 8, 20 and 9 at other times than in
`chartDown`. -/
def chartDownLater : PF_Chart :=
  (freshBox3.feed 0 [(8, 100), (20, 250), (9, 777)]).getD freshBox3

/-- The chart `freshBox3` after the prices 8, 20, 3 and 13: two closed columns. -/
def chartTwoClosed : PF_Chart :=
  (freshBox3.feed 0 [(8, 1), (20, 2), (3, 3), (13, 4)]).getD freshBox3

/-- A fresh chart on the linear scale with integral boxes, box size 3 and one reversal
box. -/
def freshOneBox : PF_Chart :=
  PF_Chart.new "R1" 3 0 1 BoxType.e_integral ColumnScale.e_linear

/-- The chart `freshOneBox` after the prices 8, 9, 6, 9 and 6: the second column reversed in
place before it was closed. -/
def chartOneBox : PF_Chart :=
  (freshOneBox.feed 0 [(8, 1), (9, 2), (6, 3), (9, 4), (6, 5)]).getD freshOneBox

/-- A fresh chart on the linear scale with integral boxes, box size 1 and three reversal
boxes (the chart of scenarios S1, S3 and S5). -/
def freshBox1 : PF_Chart :=
  PF_Chart.new "S1" 1 0 3 BoxType.e_integral ColumnScale.e_linear

/-- The chart `freshOneBox` after the prices 8 and 9: one up column from 6 to 9, one box
above its first box. -/
def chartOneBoxUp : PF_Chart :=
  (freshOneBox.feed 0 [(8, 1), (9, 2)]).getD freshOneBox

/-- The chart `freshOneBox` after the prices 8, 3 and 6: the current column is an up column
that holds the single box 6. -/
def chartSingleBox : PF_Chart :=
  (freshOneBox.feed 0 [(8, 1), (3, 2), (6, 3)]).getD freshOneBox

/-- A fresh chart on the percent scale with box size 0.04 (exponent −2) and three reversal
boxes (the chart of scenario S6). -/
def freshPercent : PF_Chart :=
  PF_Chart.new "S6" (1 / 25) (-2) 3 BoxType.e_fractional ColumnScale.e_percent

/-- The chart `freshPercent` after the prices 100, 104 and 108.16: one up column from 100 to
108.16. -/
def chartPercentUp : PF_Chart :=
  (freshPercent.feed 8 [(100, 1), (104, 2), (2704 / 25, 3)]).getD freshPercent

/-- The current column of `freshPercent` after the prices 100 and 3: a down column from 100
to 3.8. -/
def columnPercentDown : PF_Column :=
  ((freshPercent.feed 8 [(100, 1), (3, 2)]).getD freshPercent).current_column_

/-- The column `columnPercentDown` as `PF_Column::PF_Column(const Json::Value&)` restores it
from its own snapshot with the unary decimal strings: the members of the snapshot are back,
the percent members are those of a default-constructed column. -/
def restoredPercentDown : PF_Column :=
  { columnPercentDown with
    box_size_exponent_ := 0, percent_box_increment_up_ := 0, percent_exponent_ := 0,
    percent_box_increment_down_ := 0, reversal_factor_up_ := 0, reversal_factor_down_ := 0 }

/-- A column snapshot whose enumerated strings are valid and whose member `start_at` holds a
value that `asInt64` cannot convert (a JSON array or a string that is no number, say). -/
def snapshotStartNotConvertible : ColumnJSON :=
  { start_at := none, last_entry := some 2, box_size := some "3", reversal_boxes := some 3,
    bottom := some "6", top := some "18", direction := some "up",
    box_type := some "integral", column_scale := some "linear", had_reversal := some false }

/-- The column that `PF_Column::FromJSON` makes of the target `c0` from the snapshot of `col`
when decimal strings round-trip: the members the snapshot carries are those of `col`, the
percent members are still those of `c0`. -/
def PF_Column.restoredInto (D : DecimalStrings) (c0 col : PF_Column) : PF_Column :=
  { c0 with
    time_span_ := col.time_span_,
    box_size_ := col.box_size_,
    box_size_exponent_ := D.ExponentOf (D.ToStr col.box_size_),
    reversal_boxes_ := col.reversal_boxes_,
    bottom_ := col.bottom_,
    top_ := col.top_,
    direction_ := col.direction_,
    box_type_ := col.box_type_,
    column_scale_ := col.column_scale_,
    had_reversal_ := col.had_reversal_ }

/-- A percent-scale column of the given box size (exponent −2) with three reversal boxes
after its first price 100: direction unknown, top and bottom 100. -/
def columnPercentStart (box_size : ℚ) : PF_Column :=
  { (PF_Column.new box_size (-2) 3 BoxType.e_fractional ColumnScale.e_percent
      Direction.e_unknown 100 100) with time_span_ := (1, 1) }

/-! ## Predicates and worked examples for the later properties -/

/-- The opposite of a direction: up for down and down for up; unknown stays. -/
def Direction.opposite : Direction → Direction
  | Direction.e_up => Direction.e_down
  | Direction.e_down => Direction.e_up
  | Direction.e_unknown => Direction.e_unknown

/-- The mirror image of a column: top and bottom change places and sign, the direction is
the opposite one, every other member is kept. -/
def PF_Column.mirror (c : PF_Column) : PF_Column :=
  { c with top_ := -c.bottom_, bottom_ := -c.top_, direction_ := c.direction_.opposite }

/-- The mirror image of the result of an `AddValue` call: the column and the successor are
mirrored, the status is kept. -/
def mirrorResult (r : PF_Column × AddResult) : PF_Column × AddResult :=
  (r.1.mirror, r.2.1, r.2.2.map PF_Column.mirror)

/-- A column whose top and bottom coincide while its direction is unknown. -/
def UnknownFlat (col : PF_Column) : Prop :=
  col.direction_ = Direction.e_unknown → col.top_ = col.bottom_

/-- Every column of the chart, closed or current, has top = bottom while its direction is
unknown. -/
def FlatChart (c : PF_Chart) : Prop :=
  (∀ col ∈ c.columns_, UnknownFlat col) ∧ UnknownFlat c.current_column_

/-- The geometric relation of the percent scale in the words of the specification:
"rescale(bottom × up_factor^k, percent_exponent) = top for some integer k ≥ 0", with the up
factor and the exponent the column carries. -/
def PercentGeometric (c : PF_Column) : Prop :=
  ∃ k : ℕ, Rescale (c.bottom_ * c.percent_box_increment_up_ ^ k) c.percent_exponent_ = c.top_

/-- The preconditions under which the loops of the percent scale come to an end for a column
and a price: the price is positive, the top is positive unless the column is empty, the up
increment is above one and the down increment is in the interval from zero to one, one
excluded. -/
def PercentLoopsEnd (c : PF_Column) (price : ℚ) : Prop :=
  0 < price ∧ ((c.top_ = -1 ∧ c.bottom_ = -1) ∨ 0 < c.top_) ∧
  1 < c.percent_box_increment_up_ ∧
  0 ≤ c.percent_box_increment_down_ ∧ c.percent_box_increment_down_ < 1

/-- The member of a row that holds the high for a value of `use_adjusted`. -/
def UseAdjusted.highOf : UseAdjusted → OHLCRow → String
  | UseAdjusted.e_Yes => OHLCRow.adjHigh
  | UseAdjusted.e_No => OHLCRow.high

/-- The member of a row that holds the low for a value of `use_adjusted`. -/
def UseAdjusted.lowOf : UseAdjusted → OHLCRow → String
  | UseAdjusted.e_Yes => OHLCRow.adjLow
  | UseAdjusted.e_No => OHLCRow.low

/-- The member of a row that holds the close for a value of `use_adjusted`. -/
def UseAdjusted.closeOf : UseAdjusted → OHLCRow → String
  | UseAdjusted.e_Yes => OHLCRow.adjClose
  | UseAdjusted.e_No => OHLCRow.close

/-- The true range of row `i` in the words of the specification:
"max(high_i − low_i, |high_i − close_{i+1}|, |low_i − close_{i+1}|)". -/
def specTrueRange (high low close : Nat → ℚ) (i : Nat) : ℚ :=
  max (max (high i - low i) |high i - close (i + 1)|) |low i - close (i + 1)|

/-- The average true range in the words of the specification: "the arithmetic mean of the
first n_days true ranges". -/
def specATR (high low close : Nat → ℚ) (n : Nat) : ℚ :=
  ((List.range n).map (specTrueRange high low close)).sum / (n : ℚ)

/-- The rows `i ≤ n` of the data hold, in the members chosen by `use_adjusted`, decimal
strings for the highs and lows of the rows below `n` and for the closes of the rows from 1
to `n`. -/
def RowsDenote (D : DecimalStrings) (use_adjusted : UseAdjusted) (the_data : List OHLCRow)
    (n : Nat) (high low close : Nat → ℚ) : Prop :=
  ∀ i, i < n →
    (∃ row, the_data[i]? = some row ∧
      D.FromStr (use_adjusted.highOf row) = some (high i) ∧
      D.FromStr (use_adjusted.lowOf row) = some (low i)) ∧
    (∃ prev, the_data[i + 1]? = some prev ∧
      D.FromStr (use_adjusted.closeOf prev) = some (close (i + 1)))

/-- A decimal string conversion for worked examples: a string denotes its length, a
number is written as a run of the character `1`. -/
def lengthDecimalStrings : DecimalStrings :=
  { ToStr := fun q => String.mk (List.replicate q.num.toNat '1'),
    FromStr := fun s => some (s.length : ℚ),
    ExponentOf := fun _ => 0 }

/-- Three rows, most recent first, read with `lengthDecimalStrings`: highs 7, 6, 9, lows
3, 2, 1 and closes 5, 4, 8; the adjusted members are 4, 2, 1 / 2, 1, 0 / 3, 0, 1. -/
def atrRows : List OHLCRow :=
  [ { high := "1111111", low := "111", close := "11111",
      adjHigh := "1111", adjLow := "11", adjClose := "111" },
    { high := "111111", low := "11", close := "1111",
      adjHigh := "11", adjLow := "1", adjClose := "" },
    { high := "111111111", low := "1", close := "11111111",
      adjHigh := "1", adjLow := "", adjClose := "1" } ]

/-- The highs of `atrRows`. -/
def atrHigh : Nat → ℚ
  | 0 => 7
  | 1 => 6
  | _ => 9

/-- The lows of `atrRows`. -/
def atrLow : Nat → ℚ
  | 0 => 3
  | 1 => 2
  | _ => 1

/-- The closes of `atrRows`. -/
def atrClose : Nat → ℚ
  | 0 => 5
  | 1 => 4
  | _ => 8

/-- A fresh chart on the percent scale with box size 0.04 (exponent −2) and one reversal
box. -/
def freshPercentOneBox : PF_Chart :=
  PF_Chart.new "P1" (1 / 25) (-2) 1 BoxType.e_fractional ColumnScale.e_percent

/-- The current column of `freshPercentOneBox` after the prices 50 and 1.9: a down column
from 50 to 1.9. -/
def columnPercentDownOneBox : PF_Column :=
  ((freshPercentOneBox.feed 8 [(50, 1), (19 / 10, 2)]).getD freshPercentOneBox).current_column_

/-- The current column of `freshPercent` after the prices 0.13 and 0.004: a down column
from 0.13 to 0.005. -/
def columnPercentDownSmall : PF_Column :=
  ((freshPercent.feed 8 [(13 / 100, 1), (1 / 250, 2)]).getD freshPercent).current_column_

/-- The chart `freshPercent` after the price 100: the current column has no direction yet,
top and bottom are 100. -/
def chartPercentStart : PF_Chart :=
  (freshPercent.feed 8 [(100, 1)]).getD freshPercent

/-! ## Predicates and worked examples for in-place reversals and successors -/

/-- Every closed column of the chart has a direction. -/
def KnownClosed (c : PF_Chart) : Prop :=
  ∀ col ∈ c.columns_, col.direction_ = Direction.e_up ∨ col.direction_ = Direction.e_down

/-- The chart `freshPercentOneBox` after the prices 50, 1.9 and 2: the down column from 50 to
1.9 is closed, the current column is its up successor. -/
def chartPercentTwoColumns : PF_Chart :=
  (freshPercentOneBox.feed 8 [(50, 1), (19 / 10, 2), (2, 3)]).getD freshPercentOneBox

/-- The chart `freshBox3` after the prices 8, 20 and 23: one up column from 6 to 21. -/
def chartUpHigher : PF_Chart :=
  (freshBox3.feed 0 [(8, 1), (20, 2), (23, 3)]).getD freshBox3

/-! ## Moves whose count of boxes an `int` holds -/

/-- An integer that an `int` of 32 bits holds: from −2^31 to 2^31 − 1. -/
def FitsInt32 (n : Int) : Prop :=
  -2 ^ 31 ≤ n ∧ n < 2 ^ 31

/-- Whether an `int` holds an integer can be decided. -/
instance decFitsInt32 (n : Int) : Decidable (FitsInt32 n) :=
  inferInstanceAs (Decidable (-2 ^ 31 ≤ n ∧ n < 2 ^ 31))

/-- The box-adjusted price `v` lies fewer than 2^31 boxes from the top and from the bottom
of the column: either count of boxes that a linear-scale call computes, from the top or from
the bottom, is held by `int how_many_boxes` unchanged. -/
def PF_Column.spanFits (c : PF_Column) (v : ℚ) : Prop :=
  FitsInt32 (ToIntTruncated ((v - c.top_) / c.box_size_)) ∧
  FitsInt32 (ToIntTruncated ((v - c.bottom_) / c.box_size_))

/-- Whether a box-adjusted price lies fewer than 2^31 boxes from both bounds can be
decided. -/
instance PF_Column.decSpanFits (c : PF_Column) (v : ℚ) : Decidable (c.spanFits v) :=
  inferInstanceAs (Decidable (_ ∧ _))

/-- The price, once box-adjusted, lies fewer than 2^31 boxes from the top and from the
bottom of the column. -/
def PF_Column.moveFits (c : PF_Column) (price : ℚ) : Prop :=
  c.spanFits (c.possibleValue price)

/-- Whether a price lies fewer than 2^31 boxes from both bounds can be decided. -/
instance PF_Column.decMoveFits (c : PF_Column) (price : ℚ) : Decidable (c.moveFits price) :=
  inferInstanceAs (Decidable (c.spanFits (c.possibleValue price)))

/-- Along the feed of the observations, every price lies fewer than 2^31 boxes from the
top and from the bottom of the column that is the current one when the price arrives. -/
def PF_Chart.feedFits (fuel : Nat) : PF_Chart → List (ℚ × tpt) → Prop
  | _, [] => True
  | c, (price, time) :: rest =>
    c.current_column_.moveFits price ∧
    match c.AddValue fuel price time with
    | none => True
    | some (c1, _) => PF_Chart.feedFits fuel c1 rest

/-- Whether every price of a feed lies fewer than 2^31 boxes from the bounds of its current
column can be decided, by running the feed. -/
instance PF_Chart.decFeedFits (fuel : Nat) :
    (c : PF_Chart) → (obs : List (ℚ × tpt)) → Decidable (PF_Chart.feedFits fuel c obs)
  | _, [] => isTrue trivial
  | c, (price, time) :: rest =>
    match h : c.AddValue fuel price time with
    | none =>
      decidable_of_iff (c.current_column_.moveFits price)
        (by simp only [PF_Chart.feedFits, h, and_true])
    | some (c1, _) =>
      have := PF_Chart.decFeedFits fuel c1 rest
      decidable_of_iff (c.current_column_.moveFits price ∧ PF_Chart.feedFits fuel c1 rest)
        (by simp only [PF_Chart.feedFits, h])

/-! ## Further worked charts of the linear scale -/

/-- The chart `freshBox1` (box size 1, three reversal boxes) after the prices 10 and 13: one
up column with top 13. -/
def chartBox1Up : PF_Chart :=
  (freshBox1.feed 0 [(10, 1), (13, 2)]).getD freshBox1

/-- The chart `freshBox3` after the prices 8, 3000000000 and 9000000000: one up column from
6 to 9000000000, reached by two moves of fewer than 2^31 boxes each. -/
def chartUpFar : PF_Chart :=
  (freshBox3.feed 0 [(8, 1), (3000000000, 2), (9000000000, 3)]).getD freshBox3

/-! ## A worked chart of the percent scale whose re-feed does not end -/

/-- The chart `freshPercent` after the prices 0.13 and 0.0001: one down column from 0.13
whose bottom, rescaled to three decimals, is 0. -/
def chartPercentDownZero : PF_Chart :=
  (freshPercent.feed 8 [(13 / 100, 1), (1 / 10000, 2)]).getD freshPercent

/-- The successor that the current column of `chartPercentDownZero` returns for the price 0.5
at time 3: an up column with top and bottom 0. -/
def successorPercentZero : PF_Column :=
  ((chartPercentDownZero.current_column_.AddValue 0 (1 / 2) 3).bind
    (fun r => r.2.2)).getD chartPercentDownZero.current_column_

/-- The chart `freshPercentOneBox` after the prices 50 and 1.9: one down column from 50 to
1.9. -/
def chartPercentDownOneBox : PF_Chart :=
  (freshPercentOneBox.feed 8 [(50, 1), (19 / 10, 2)]).getD freshPercentOneBox

/-- The current column of `chartPercentDownOneBox` as the price 2.1 at time 3 leaves it:
closed, with the time of the call as the end of its time span. -/
def closedPercentDown : PF_Column :=
  { chartPercentDownOneBox.current_column_ with time_span_ := (1, 3) }

/-- The successor that the current column of `chartPercentDownOneBox` returns for the price
2.1 at time 3: an up column with top 1.976 and bottom 1.98. -/
def successorPercentUp : PF_Column :=
  ((chartPercentDownOneBox.current_column_.AddValue 0 (21 / 10) 3).bind
    (fun r => r.2.2)).getD chartPercentDownOneBox.current_column_

/-! ## Column steps -/

theorem PF_Column.new_fields (b : ℚ) (e r : Int) (bt : BoxType) (sc : ColumnScale) (d : Direction)
    (top bottom : ℚ) :
    (PF_Column.new b e r bt sc d top bottom).box_size_ = b ∧
    (PF_Column.new b e r bt sc d top bottom).box_size_exponent_ = e ∧
    (PF_Column.new b e r bt sc d top bottom).reversal_boxes_ = r ∧
    (PF_Column.new b e r bt sc d top bottom).box_type_ = bt ∧
    (PF_Column.new b e r bt sc d top bottom).column_scale_ = sc ∧
    (PF_Column.new b e r bt sc d top bottom).direction_ = d ∧
    (PF_Column.new b e r bt sc d top bottom).top_ = top ∧
    (PF_Column.new b e r bt sc d top bottom).bottom_ = bottom ∧
    (PF_Column.new b e r bt sc d top bottom).had_reversal_ = false := by
  unfold PF_Column.new
  split_ifs <;> simp

theorem PF_Column.MakeReversalColumn_fields (c : PF_Column) (d : Direction) (v : ℚ) (t : tpt) :
    SameConfig c (c.MakeReversalColumn d v t) ∧
    (c.MakeReversalColumn d v t).direction_ = d ∧
    (c.MakeReversalColumn d v t).had_reversal_ = false ∧
    (c.MakeReversalColumn d v t).time_span_ = (t, t) ∧
    (c.MakeReversalColumn d v t).top_ = (if d = Direction.e_down then c.top_ - c.box_size_ else v) ∧
    (c.MakeReversalColumn d v t).bottom_
      = (if d = Direction.e_down then v else c.bottom_ + c.box_size_) := by
  unfold PF_Column.MakeReversalColumn SameConfig
  obtain ⟨h1, h2, h3, h4, h5, h6, h7, h8, h9⟩ :=
    PF_Column.new_fields c.box_size_ c.box_size_exponent_ c.reversal_boxes_
      c.box_type_ c.column_scale_ d
      (if d = Direction.e_down then c.top_ - c.box_size_ else v)
      (if d = Direction.e_down then v else c.bottom_ + c.box_size_)
  exact ⟨⟨h1, h2, h3, h4, h5⟩, h6, h9, rfl, h7, h8⟩

theorem PF_Column.MakeReversalColumnPercent_fields (c : PF_Column) (d : Direction) (v : ℚ)
    (t : tpt) :
    SameConfig c (c.MakeReversalColumnPercent d v t) ∧
    (c.MakeReversalColumnPercent d v t).direction_ = d ∧
    (c.MakeReversalColumnPercent d v t).had_reversal_ = false ∧
    (c.MakeReversalColumnPercent d v t).time_span_ = (t, t) := by
  unfold PF_Column.MakeReversalColumnPercent SameConfig
  obtain ⟨h1, h2, h3, h4, h5, h6, _, _, h9⟩ :=
    PF_Column.new_fields c.box_size_ c.box_size_exponent_ c.reversal_boxes_
      c.box_type_ c.column_scale_ d
      (if d = Direction.e_down
        then Rescale (c.top_ * c.percent_box_increment_down_) c.box_size_exponent_ else v)
      (if d = Direction.e_down
        then v else Rescale (c.bottom_ * c.percent_box_increment_up_) c.box_size_exponent_)
  exact ⟨⟨h1, h2, h3, h4, h5⟩, h6, h9, rfl⟩

theorem PF_Column.StartColumn_step (c : PF_Column) (v : ℚ) (t : tpt) :
    ColStep c t (c.StartColumn v t) := by
  unfold PF_Column.StartColumn
  constructor <;> simp [SameConfig]

theorem PF_Column.StartColumnPercent_step (c : PF_Column) (v : ℚ) (t : tpt) :
    ColStep c t (c.StartColumnPercent v t) := by
  unfold PF_Column.StartColumnPercent
  constructor <;> simp [SameConfig]

theorem PF_Column.TryToFindDirection_step (c : PF_Column) (v : ℚ) (t : tpt)
    (hd : c.direction_ = Direction.e_unknown) : ColStep c t (c.TryToFindDirection v t) := by
  unfold PF_Column.TryToFindDirection
  split_ifs <;> constructor <;> simp [SameConfig, hd]

theorem PF_Column.TryToExtendUp_step (c : PF_Column) (v : ℚ) (t : tpt)
    (hd : c.direction_ = Direction.e_up) : ColStep c t (c.TryToExtendUp v t) := by
  have hm := fun d w =>
    PF_Column.MakeReversalColumn_fields { c with time_span_ := (c.time_span_.1, t) } d w t
  unfold PF_Column.TryToExtendUp
  split_ifs with h1 h2 h3 h4
  · constructor <;> simp [SameConfig, hd]
  · refine ⟨by simp [SameConfig], by simp, by simp, fun _ => ⟨rfl, _, rfl, ?_⟩⟩
    obtain ⟨a1, a2, a3, a4, _, _⟩ := hm Direction.e_down (c.top_ - c.box_size_)
    exact ⟨a1, a3, a4, Or.inl ⟨hd, a2⟩⟩
  · constructor <;> simp [SameConfig, hd, h3]
  · refine ⟨by simp [SameConfig], by simp, by simp, fun _ => ⟨rfl, _, rfl, ?_⟩⟩
    obtain ⟨a1, a2, a3, a4, _, _⟩ :=
      hm Direction.e_down (c.top_ - c.box_size_ * c.reversal_boxes_)
    exact ⟨a1, a3, a4, Or.inl ⟨hd, a2⟩⟩
  · constructor <;> simp [SameConfig, hd]

theorem PF_Column.TryToExtendDown_step (c : PF_Column) (v : ℚ) (t : tpt)
    (hd : c.direction_ = Direction.e_down) : ColStep c t (c.TryToExtendDown v t) := by
  have hm := fun d w =>
    PF_Column.MakeReversalColumn_fields { c with time_span_ := (c.time_span_.1, t) } d w t
  unfold PF_Column.TryToExtendDown
  split_ifs with h1 h2 h3 h4
  · constructor <;> simp [SameConfig, hd]
  · refine ⟨by simp [SameConfig], by simp, by simp, fun _ => ⟨rfl, _, rfl, ?_⟩⟩
    obtain ⟨a1, a2, a3, a4, _, _⟩ := hm Direction.e_up (c.bottom_ + c.box_size_)
    exact ⟨a1, a3, a4, Or.inr ⟨hd, a2⟩⟩
  · constructor <;> simp [SameConfig, hd, h3]
  · refine ⟨by simp [SameConfig], by simp, by simp, fun _ => ⟨rfl, _, rfl, ?_⟩⟩
    obtain ⟨a1, a2, a3, a4, _, _⟩ :=
      hm Direction.e_up (c.bottom_ + c.box_size_ * c.reversal_boxes_)
    exact ⟨a1, a3, a4, Or.inr ⟨hd, a2⟩⟩
  · constructor <;> simp [SameConfig, hd]

theorem PF_Column.TryToFindDirectionPercent_step (fuel : Nat) (c : PF_Column) (v : ℚ) (t : tpt)
    (r : PF_Column × AddResult) (hd : c.direction_ = Direction.e_unknown)
    (h : c.TryToFindDirectionPercent fuel v t = some r) : ColStep c t r := by
  unfold PF_Column.TryToFindDirectionPercent at h
  split_ifs at h
  · split at h
    · simp at h
    · simp only [Option.some.injEq] at h
      subst h
      constructor <;> simp [SameConfig, hd]
  · split at h
    · simp at h
    · simp only [Option.some.injEq] at h
      subst h
      constructor <;> simp [SameConfig, hd]
  · simp only [Option.some.injEq] at h
    subst h
    constructor <;> simp [SameConfig, hd]

theorem PF_Column.TryToExtendUpPercent_step (fuel : Nat) (c : PF_Column) (v : ℚ) (t : tpt)
    (r : PF_Column × AddResult) (hd : c.direction_ = Direction.e_up)
    (h : c.TryToExtendUpPercent fuel v t = some r) : ColStep c t r := by
  have hm := fun d w =>
    PF_Column.MakeReversalColumnPercent_fields { c with time_span_ := (c.time_span_.1, t) } d w t
  unfold PF_Column.TryToExtendUpPercent at h
  split_ifs at h with h1 h2 h3 h4
  · split at h
    · simp at h
    · simp only [Option.some.injEq] at h
      subst h
      constructor <;> simp [SameConfig, hd]
  · simp only [Option.some.injEq] at h
    subst h
    refine ⟨by simp [SameConfig], by simp, by simp, fun _ => ⟨rfl, _, rfl, ?_⟩⟩
    obtain ⟨a1, a2, a3, a4⟩ := hm Direction.e_down
      (Rescale (c.top_ * c.percent_box_increment_down_) c.percent_exponent_)
    exact ⟨a1, a3, a4, Or.inl ⟨hd, a2⟩⟩
  · split at h
    · simp at h
    · simp only [Option.some.injEq] at h
      subst h
      constructor <;> simp [SameConfig, hd, h3]
  · simp only [Option.some.injEq] at h
    subst h
    refine ⟨by simp [SameConfig], by simp, by simp, fun _ => ⟨rfl, _, rfl, ?_⟩⟩
    obtain ⟨a1, a2, a3, a4⟩ := hm Direction.e_down
      (Rescale (c.top_ * c.reversal_factor_down_) c.percent_exponent_)
    exact ⟨a1, a3, a4, Or.inl ⟨hd, a2⟩⟩
  · simp only [Option.some.injEq] at h
    subst h
    constructor <;> simp [SameConfig, hd]

theorem PF_Column.TryToExtendDownPercent_step (fuel : Nat) (c : PF_Column) (v : ℚ) (t : tpt)
    (r : PF_Column × AddResult) (hd : c.direction_ = Direction.e_down)
    (h : c.TryToExtendDownPercent fuel v t = some r) : ColStep c t r := by
  have hm := fun d w =>
    PF_Column.MakeReversalColumnPercent_fields { c with time_span_ := (c.time_span_.1, t) } d w t
  unfold PF_Column.TryToExtendDownPercent at h
  split_ifs at h with h1 h2 h3 h4
  · split at h
    · simp at h
    · simp only [Option.some.injEq] at h
      subst h
      constructor <;> simp [SameConfig, hd]
  · simp only [Option.some.injEq] at h
    subst h
    refine ⟨by simp [SameConfig], by simp, by simp, fun _ => ⟨rfl, _, rfl, ?_⟩⟩
    obtain ⟨a1, a2, a3, a4⟩ := hm Direction.e_up
      (Rescale (c.bottom_ * c.percent_box_increment_up_) c.percent_exponent_)
    exact ⟨a1, a3, a4, Or.inr ⟨hd, a2⟩⟩
  · split at h
    · simp at h
    · simp only [Option.some.injEq] at h
      subst h
      constructor <;> simp [SameConfig, hd, h3]
  · simp only [Option.some.injEq] at h
    subst h
    refine ⟨by simp [SameConfig], by simp, by simp, fun _ => ⟨rfl, _, rfl, ?_⟩⟩
    obtain ⟨a1, a2, a3, a4⟩ := hm Direction.e_up
      (Rescale (c.bottom_ * c.reversal_factor_up_) c.percent_exponent_)
    exact ⟨a1, a3, a4, Or.inr ⟨hd, a2⟩⟩
  · simp only [Option.some.injEq] at h
    subst h
    constructor <;> simp [SameConfig, hd]

theorem Direction.down_of_ne {d : Direction} (h1 : d ≠ Direction.e_unknown)
    (h2 : d ≠ Direction.e_up) : d = Direction.e_down := by
  cases d <;> simp_all

theorem PF_Column.AddValue_linear_eq (fuel : Nat) (c : PF_Column) (p : ℚ) (t : tpt)
    (hlin : c.column_scale_ ≠ ColumnScale.e_percent) :
    c.AddValue fuel p t = some (
      if c.top_ = -1 ∧ c.bottom_ = -1 then c.StartColumn p t
      else if c.direction_ = Direction.e_unknown then
        c.TryToFindDirection (c.possibleValue p) t
      else if c.direction_ = Direction.e_up then c.TryToExtendUp (c.possibleValue p) t
      else c.TryToExtendDown (c.possibleValue p) t) := by
  unfold PF_Column.AddValue PF_Column.possibleValue
  rw [if_neg hlin]
  by_cases h2 : c.top_ = -1 ∧ c.bottom_ = -1
  · rw [if_pos h2, if_pos h2]
  · rw [if_neg h2, if_neg h2]
    by_cases h3 : c.direction_ = Direction.e_unknown
    · simp only [if_pos h3]
    · simp only [if_neg h3]
      by_cases h4 : c.direction_ = Direction.e_up
      · simp only [if_pos h4]
      · simp only [if_neg h4]

theorem PF_Column.AddValue_step (fuel : Nat) (c : PF_Column) (p : ℚ) (t : tpt)
    (r : PF_Column × AddResult) (h : c.AddValue fuel p t = some r) : ColStep c t r := by
  by_cases h1 : c.column_scale_ = ColumnScale.e_percent
  · unfold PF_Column.AddValue at h
    rw [if_pos h1] at h
    unfold PF_Column.AddValuePercent at h
    split_ifs at h with k2 k3 k4
    · simp only [Option.some.injEq] at h
      exact h ▸ c.StartColumnPercent_step p t
    · exact c.TryToFindDirectionPercent_step fuel p t r k3 h
    · exact c.TryToExtendUpPercent_step fuel p t r k4 h
    · exact c.TryToExtendDownPercent_step fuel p t r (Direction.down_of_ne k3 k4) h
  · rw [c.AddValue_linear_eq fuel p t h1] at h
    simp only [Option.some.injEq] at h
    subst h
    split_ifs with h2 h3 h4
    · exact c.StartColumn_step p t
    · exact c.TryToFindDirection_step _ t h3
    · exact c.TryToExtendUp_step _ t h4
    · exact c.TryToExtendDown_step _ t (Direction.down_of_ne h3 h4)


theorem PF_Chart.AddValue_of_accepted (fuel : Nat) (c : PF_Chart) (p : ℚ) (t : tpt)
    (col : PF_Column) (new_col : Option PF_Column)
    (h : c.current_column_.AddValue fuel p t = some (col, Status.e_accepted, new_col)) :
    c.AddValue fuel p t = some ({ c with
      current_column_ := col,
      y_max_ := if col.top_ > c.y_max_ then col.top_ else c.y_max_,
      y_min_ := if col.bottom_ < c.y_min_ then col.bottom_ else c.y_min_,
      last_change_date_ := t,
      current_direction_ := col.direction_ }, Status.e_accepted) := by
  unfold PF_Chart.AddValue
  rw [h]
  simp

theorem PF_Chart.AddValue_of_ignored (fuel : Nat) (c : PF_Chart) (p : ℚ) (t : tpt)
    (col : PF_Column) (new_col : Option PF_Column)
    (h : c.current_column_.AddValue fuel p t = some (col, Status.e_ignored, new_col)) :
    c.AddValue fuel p t = some ({ c with
      current_column_ := col, current_direction_ := col.direction_ }, Status.e_ignored) := by
  unfold PF_Chart.AddValue
  rw [h]
  simp

theorem PF_Chart.AddValue_of_reversal (fuel : Nat) (c : PF_Chart) (p : ℚ) (t : tpt)
    (col successor : PF_Column)
    (h : c.current_column_.AddValue fuel p t = some (col, Status.e_reversal, some successor)) :
    c.AddValue fuel p t = (successor.AddValue fuel p t).map (fun r => ({ c with
      columns_ := c.columns_ ++ [col], current_column_ := r.1,
      last_change_date_ := t,
      current_direction_ := r.1.direction_ }, r.2.1)) := by
  unfold PF_Chart.AddValue
  rw [h]
  simp only [reduceCtorEq, if_false, if_true]
  cases hs : successor.AddValue fuel p t with
  | none => rfl
  | some r => rfl

theorem PF_Column.AddValue_linear_isSome (fuel : Nat) (c : PF_Column) (p : ℚ) (t : tpt)
    (hlin : c.column_scale_ = ColumnScale.e_linear) :
    ∃ r, c.AddValue fuel p t = some r := by
  rw [c.AddValue_linear_eq fuel p t (by simp [hlin])]
  exact ⟨_, rfl⟩


/-! ## Linear scale: alignment of columns -/

theorem ToIntTruncated_nonneg {x : ℚ} (h : 0 ≤ x) : 0 ≤ ToIntTruncated x := by
  unfold ToIntTruncated
  rw [if_pos h]
  exact Int.floor_nonneg.mpr h

theorem ToIntTruncated_nonpos {x : ℚ} (h : x ≤ 0) : ToIntTruncated x ≤ 0 := by
  unfold ToIntTruncated
  split_ifs with h0
  · have : x = 0 := le_antisymm h h0
    simp [this]
  · have : 0 ≤ ⌊-x⌋ := Int.floor_nonneg.mpr (by linarith)
    omega

theorem ToIntTruncated_pos {x : ℚ} (h : 1 ≤ x) : 1 ≤ ToIntTruncated x := by
  unfold ToIntTruncated
  rw [if_pos (by linarith)]
  exact Int.le_floor.mpr (by simpa using h)

theorem ToIntTruncated_neg {x : ℚ} (h : x ≤ -1) : ToIntTruncated x ≤ -1 := by
  unfold ToIntTruncated
  rw [if_neg (by linarith)]
  have : 1 ≤ ⌊-x⌋ := Int.le_floor.mpr (by simp; linarith)
  omega

theorem toInt32_of_fits {n : Int} (h : FitsInt32 n) : toInt32 n = n := by
  obtain ⟨h1, h2⟩ := h
  unfold toInt32
  rw [Int.emod_eq_of_lt (by omega) (by omega)]
  omega

theorem toInt32_fits (n : Int) : FitsInt32 (toInt32 n) := by
  unfold toInt32 FitsInt32
  have h1 := Int.emod_nonneg (n + 2 ^ 31) (by norm_num : (2 ^ 32 : Int) ≠ 0)
  have h2 := Int.emod_lt_of_pos (n + 2 ^ 31) (by norm_num : (0 : Int) < 2 ^ 32)
  constructor <;> omega

theorem LinInv.add_top {c : PF_Column} {k : Int} (h : LinInv c) (hk : 0 ≤ k) (top : ℚ)
    (htop : top = c.top_ + (k : ℚ) * c.box_size_) (c1 : PF_Column)
    (h1 : c1.top_ = top) (h2 : c1.bottom_ = c.bottom_) (h3 : c1.box_size_ = c.box_size_) :
    LinInv c1 := by
  obtain ⟨n, hn⟩ := h
  refine ⟨n + k.toNat, ?_⟩
  have hk2 : ((k.toNat : ℕ) : ℚ) = (k : ℚ) := by
    rw [← Int.cast_natCast, Int.toNat_of_nonneg hk]
  rw [h1, h2, h3, htop]
  push_cast
  rw [hk2]
  linarith

theorem LinInv.add_bottom {c : PF_Column} {k : Int} (h : LinInv c) (hk : k ≤ 0) (bottom : ℚ)
    (hbot : bottom = c.bottom_ + (k : ℚ) * c.box_size_) (c1 : PF_Column)
    (h1 : c1.bottom_ = bottom) (h2 : c1.top_ = c.top_) (h3 : c1.box_size_ = c.box_size_) :
    LinInv c1 := by
  obtain ⟨n, hn⟩ := h
  refine ⟨n + (-k).toNat, ?_⟩
  have hk2 : (((-k).toNat : ℕ) : ℚ) = -(k : ℚ) := by
    rw [← Int.cast_natCast, Int.toNat_of_nonneg (by omega)]
    push_cast
    ring
  rw [h1, h2, h3, hbot]
  push_cast
  rw [hk2]
  linarith

theorem div_ge_one {a b : ℚ} (hb : 0 < b) (h : b ≤ a) : 1 ≤ a / b := by
  rw [le_div_iff₀ hb]; linarith

theorem div_le_neg_one {a b : ℚ} (hb : 0 < b) (h : a ≤ -b) : a / b ≤ -1 := by
  rw [div_le_iff₀ hb]; linarith

theorem div_nonpos_of {a b : ℚ} (hb : 0 < b) (h : a ≤ 0) : a / b ≤ 0 :=
  div_nonpos_of_nonpos_of_nonneg h hb.le

theorem div_nonneg_of {a b : ℚ} (hb : 0 < b) (h : 0 ≤ a) : 0 ≤ a / b :=
  div_nonneg h hb.le


theorem PF_Column.StartColumn_lin (c : PF_Column) (v : ℚ) (t : tpt) :
    LinInv (c.StartColumn v t).1 ∧ (c.StartColumn v t).2.2 = none := by
  unfold PF_Column.StartColumn
  exact ⟨⟨0, by simp⟩, rfl⟩

theorem PF_Column.TryToFindDirection_lin (c : PF_Column) (v : ℚ) (t : tpt)
    (hb : 0 < c.box_size_) :
    (LinInv c → c.spanFits v → LinInv (c.TryToFindDirection v t).1) ∧
    (c.TryToFindDirection v t).2.2 = none := by
  unfold PF_Column.TryToFindDirection
  split_ifs with h1 h2
  · refine ⟨fun hinv hf => hinv.add_top (le_of_le_of_eq
      (ToIntTruncated_nonneg (div_nonneg_of hb ?_)) (toInt32_of_fits hf.1).symm) _ rfl _ rfl rfl rfl, rfl⟩
    linarith
  · refine ⟨fun hinv hf => hinv.add_bottom (le_of_eq_of_le (toInt32_of_fits hf.2)
      (ToIntTruncated_nonpos (div_nonpos_of hb ?_))) _ rfl _ rfl rfl rfl, rfl⟩
    linarith
  · exact ⟨fun hinv _ => hinv, rfl⟩

theorem PF_Column.TryToExtendUp_lin (c : PF_Column) (v : ℚ) (t : tpt)
    (hb : 0 < c.box_size_) (hr : 1 ≤ c.reversal_boxes_) :
    (LinInv c → c.spanFits v → LinInv (c.TryToExtendUp v t).1) ∧
    ∀ s, (c.TryToExtendUp v t).2.2 = some s →
      LinInv s ∧ s.direction_ = Direction.e_down ∧ v ≤ s.bottom_ := by
  have hm := fun w =>
    PF_Column.MakeReversalColumn_fields { c with time_span_ := (c.time_span_.1, t) }
      Direction.e_down w t
  unfold PF_Column.TryToExtendUp
  split_ifs with h1 h2 h3 h4
  · refine ⟨fun hinv hf => hinv.add_top (le_of_le_of_eq
      (ToIntTruncated_nonneg (div_nonneg_of hb ?_)) (toInt32_of_fits hf.1).symm) _ rfl _ rfl rfl rfl, by simp⟩
    linarith
  · refine ⟨fun hinv _ => hinv, ?_⟩
    intro s hs
    simp only [Option.some.injEq] at hs
    subst hs
    obtain ⟨a1, a2, -, -, a5, a6⟩ := hm (c.top_ - c.box_size_)
    simp only [if_true] at a5 a6
    refine ⟨⟨0, ?_⟩, a2, ?_⟩
    · rw [a5, a6]; simp
    · rw [a6]
      rw [h3] at h2
      simpa using h2
  · refine ⟨fun hinv hf => hinv.add_bottom (le_of_eq_of_le (toInt32_of_fits hf.2)
      (ToIntTruncated_nonpos (div_nonpos_of hb ?_))) _ rfl _ rfl rfl rfl, by simp⟩
    rw [h3] at h2
    push_neg at h4
    simp only [Int.cast_one, mul_one] at h2
    linarith
  · refine ⟨fun hinv _ => hinv, ?_⟩
    intro s hs
    simp only [Option.some.injEq] at hs
    subst hs
    obtain ⟨a1, a2, -, -, a5, a6⟩ := hm (c.top_ - c.box_size_ * c.reversal_boxes_)
    simp only [if_true] at a5 a6
    refine ⟨⟨(c.reversal_boxes_ - 1).toNat, ?_⟩, a2, ?_⟩
    · rw [a5, a6, a1.1, ← Int.cast_natCast, Int.toNat_of_nonneg (by omega)]
      push_cast
      ring
    · rw [a6]
      exact h2
  · exact ⟨fun hinv _ => hinv, by simp⟩

theorem PF_Column.TryToExtendDown_lin (c : PF_Column) (v : ℚ) (t : tpt)
    (hb : 0 < c.box_size_) (hr : 1 ≤ c.reversal_boxes_) :
    (LinInv c → c.spanFits v → LinInv (c.TryToExtendDown v t).1) ∧
    ∀ s, (c.TryToExtendDown v t).2.2 = some s →
      LinInv s ∧ s.direction_ = Direction.e_up ∧ s.top_ ≤ v := by
  have hm := fun w =>
    PF_Column.MakeReversalColumn_fields { c with time_span_ := (c.time_span_.1, t) }
      Direction.e_up w t
  unfold PF_Column.TryToExtendDown
  split_ifs with h1 h2 h3 h4
  · refine ⟨fun hinv hf => hinv.add_bottom (le_of_eq_of_le (toInt32_of_fits hf.2)
      (ToIntTruncated_nonpos (div_nonpos_of hb ?_))) _ rfl _ rfl rfl rfl, by simp⟩
    linarith
  · refine ⟨fun hinv _ => hinv, ?_⟩
    intro s hs
    simp only [Option.some.injEq] at hs
    subst hs
    obtain ⟨a1, a2, -, -, a5, a6⟩ := hm (c.bottom_ + c.box_size_)
    simp only [reduceCtorEq, if_false] at a5 a6
    refine ⟨⟨0, ?_⟩, a2, ?_⟩
    · rw [a5, a6]; simp
    · rw [a5]
      rw [h3] at h2
      simpa using h2
  · refine ⟨fun hinv hf => hinv.add_top (le_of_le_of_eq
      (ToIntTruncated_nonneg (div_nonneg_of hb ?_)) (toInt32_of_fits hf.1).symm) _ rfl _ rfl rfl rfl, by simp⟩
    rw [h3] at h2
    push_neg at h4
    simp only [Int.cast_one, mul_one] at h2
    linarith
  · refine ⟨fun hinv _ => hinv, ?_⟩
    intro s hs
    simp only [Option.some.injEq] at hs
    subst hs
    obtain ⟨a1, a2, -, -, a5, a6⟩ := hm (c.bottom_ + c.box_size_ * c.reversal_boxes_)
    simp only [reduceCtorEq, if_false] at a5 a6
    refine ⟨⟨(c.reversal_boxes_ - 1).toNat, ?_⟩, a2, ?_⟩
    · rw [a5, a6, a1.1, ← Int.cast_natCast, Int.toNat_of_nonneg (by omega)]
      push_cast
      ring
    · rw [a5]
      exact h2
  · exact ⟨fun hinv _ => hinv, by simp⟩

/-- One linear-scale `AddValue` call returns, keeps the column aligned when the price lies
fewer than 2^31 boxes from its bounds, and a successor is aligned and placed on the far side
of the price. -/
theorem PF_Column.AddValue_lin (fuel : Nat) (c : PF_Column) (p : ℚ) (t : tpt)
    (hlin : c.column_scale_ = ColumnScale.e_linear)
    (hb : 0 < c.box_size_) (hr : 1 ≤ c.reversal_boxes_) :
    ∃ r, c.AddValue fuel p t = some r ∧ (LinInv c → c.moveFits p → LinInv r.1) ∧
      ∀ s, r.2.2 = some s → LinInv s ∧ Placed s (c.possibleValue p) := by
  rw [c.AddValue_linear_eq fuel p t (by simp [hlin])]
  refine ⟨_, rfl, ?_⟩
  split_ifs with h2 h3 h4
  · obtain ⟨a, b⟩ := c.StartColumn_lin p t
    exact ⟨fun _ _ => a, fun s hs => by rw [b] at hs; simp at hs⟩
  · obtain ⟨a, b⟩ := c.TryToFindDirection_lin (c.possibleValue p) t hb
    exact ⟨a, fun s hs => by rw [b] at hs; simp at hs⟩
  · obtain ⟨a, b⟩ := c.TryToExtendUp_lin (c.possibleValue p) t hb hr
    exact ⟨a, fun s hs => ⟨(b s hs).1, Or.inl (b s hs).2⟩⟩
  · obtain ⟨a, b⟩ := c.TryToExtendDown_lin (c.possibleValue p) t hb hr
    exact ⟨a, fun s hs => ⟨(b s hs).1, Or.inr (b s hs).2⟩⟩

/-! ## Moves whose count of boxes an `int` holds -/

theorem PF_Column.AddValue_placed (fuel : Nat) (s : PF_Column) (p : ℚ) (t : tpt)
    (hlin : s.column_scale_ = ColumnScale.e_linear)
    (hb : 0 < s.box_size_) (hr : 1 ≤ s.reversal_boxes_)
    (hpl : Placed s (s.possibleValue p)) :
    ∃ cur st, s.AddValue fuel p t = some (cur, st, none) ∧
      (st = Status.e_accepted ∨ st = Status.e_ignored) ∧
      (st = Status.e_accepted ↔ RefeedAccepts s p) := by
  rw [s.AddValue_linear_eq fuel p t (by simp [hlin])]
  have hrb : 0 < s.box_size_ * (s.reversal_boxes_ : ℚ) :=
    mul_pos hb (by exact_mod_cast (by omega : 0 < s.reversal_boxes_))
  unfold RefeedAccepts
  by_cases h2 : s.top_ = -1 ∧ s.bottom_ = -1
  · rw [if_pos h2]
    exact ⟨_, _, rfl, Or.inl rfl, by simp [h2]⟩
  · rw [if_neg h2]
    rcases hpl with ⟨hd, hv⟩ | ⟨hd, hv⟩
    · rw [if_neg (by simp [hd]), if_neg (by simp [hd])]
      unfold PF_Column.TryToExtendDown
      by_cases h3 : s.possibleValue p ≤ s.bottom_ - s.box_size_
      · rw [if_pos h3]
        exact ⟨_, _, rfl, Or.inl rfl, by simp [hd, h3]⟩
      · rw [if_neg h3, if_neg (by linarith)]
        exact ⟨_, _, rfl, Or.inr rfl, by simp [hd, h3, h2]⟩
    · rw [if_neg (by simp [hd]), if_pos hd]
      unfold PF_Column.TryToExtendUp
      by_cases h3 : s.possibleValue p ≥ s.top_ + s.box_size_
      · rw [if_pos h3]
        exact ⟨_, _, rfl, Or.inl rfl, by simp [hd, h3]⟩
      · rw [if_neg h3, if_neg (by linarith)]
        refine ⟨_, _, rfl, Or.inr rfl, ?_⟩
        simp only [reduceCtorEq, false_iff, not_or, not_and]
        exact ⟨fun a b => h2 ⟨a, b⟩, by simp [hd], fun _ => h3⟩

theorem PF_Column.possibleValue_congr {a b : PF_Column} (h : SameConfig a b) (p : ℚ) :
    b.possibleValue p = a.possibleValue p := by
  unfold PF_Column.possibleValue
  rw [h.2.2.2.1]

/-- C2 (amended): on the linear scale the call that feeds the price again to the successor is
accepted or ignored, never a reversal -/
theorem C2_refeed_accepted_or_ignored (fuel : Nat) (c : PF_Chart) (price : ℚ) (time : tpt)
    (col successor : PF_Column)
    (hlin : c.current_column_.column_scale_ = ColumnScale.e_linear)
    (hb : 0 < c.current_column_.box_size_) (hr : 1 ≤ c.current_column_.reversal_boxes_)
    (h : c.current_column_.AddValue fuel price time
      = some (col, Status.e_reversal, some successor)) :
    ∃ current status, successor.AddValue fuel price time = some (current, status, none) ∧
      (∃ c1, c.AddValue fuel price time = some (c1, status) ∧ c1.current_column_ = current) ∧
      (status = Status.e_accepted ∨ status = Status.e_ignored) ∧
      (status = Status.e_accepted ↔ RefeedAccepts successor price) := by
  obtain ⟨r, hr1, -, hsucc⟩ := c.current_column_.AddValue_lin fuel price time hlin hb hr
  rw [h] at hr1
  simp only [Option.some.injEq] at hr1
  subst hr1
  obtain ⟨-, hpl⟩ := hsucc successor rfl
  obtain ⟨-, s, hs, hcfg, -⟩ := (c.current_column_.AddValue_step fuel price time _ h).reversal rfl
  simp only [Option.some.injEq] at hs
  subst hs
  rw [← PF_Column.possibleValue_congr hcfg] at hpl
  obtain ⟨cur, st, h1, h2, h3⟩ := successor.AddValue_placed fuel price time
    (hcfg.2.2.2.2.trans hlin) (hcfg.1 ▸ hb) (hcfg.2.2.1 ▸ hr) hpl
  have h5 := c.AddValue_of_reversal fuel price time col successor h
  rw [h1] at h5
  exact ⟨cur, st, h1, ⟨_, h5, rfl⟩, h2, h3⟩


/-! ## Linear scale: charts reached from a fresh chart -/

/-- A call of `PF_Chart::AddValue` on a chart whose current column is on the linear scale
returns, and the current column is on the linear scale afterwards. -/
theorem PF_Chart.AddValue_linear_total (fuel : Nat) (c : PF_Chart) (p : ℚ) (t : tpt)
    (hlin : c.current_column_.column_scale_ = ColumnScale.e_linear) :
    ∃ c1 s, c.AddValue fuel p t = some (c1, s) ∧
      c1.current_column_.column_scale_ = ColumnScale.e_linear := by
  obtain ⟨⟨col, status, new_col⟩, h⟩ : ∃ r, c.current_column_.AddValue fuel p t = some r :=
    ⟨_, c.current_column_.AddValue_linear_eq fuel p t (by simp [hlin])⟩
  have hstep := c.current_column_.AddValue_step fuel p t _ h
  have hcol : col.column_scale_ = ColumnScale.e_linear := hstep.config.2.2.2.2.trans hlin
  cases status with
  | e_accepted => exact ⟨_, _, c.AddValue_of_accepted fuel p t col new_col h, hcol⟩
  | e_ignored => exact ⟨_, _, c.AddValue_of_ignored fuel p t col new_col h, hcol⟩
  | e_reversal =>
    obtain ⟨-, s, hs, hcfg, -⟩ := hstep.reversal rfl
    simp only at hs
    subst hs
    have hs1 : s.column_scale_ = ColumnScale.e_linear := hcfg.2.2.2.2.trans hlin
    obtain ⟨r2, h2⟩ : ∃ r, s.AddValue fuel p t = some r :=
      ⟨_, s.AddValue_linear_eq fuel p t (by simp [hs1])⟩
    have hstep2 := s.AddValue_step fuel p t _ h2
    have h5 := c.AddValue_of_reversal fuel p t col s h
    rw [h2] at h5
    exact ⟨_, _, h5, hstep2.config.2.2.2.2.trans hs1⟩

/-- The feed of any observations to a chart whose current column is on the linear scale
returns. -/
theorem PF_Chart.feed_linear_total (fuel : Nat) (obs : List (ℚ × tpt)) :
    ∀ c : PF_Chart, c.current_column_.column_scale_ = ColumnScale.e_linear →
      ∃ c1, c.feed fuel obs = some c1 := by
  induction obs with
  | nil => exact fun c _ => ⟨c, rfl⟩
  | cons o rest ih =>
    intro c hc
    obtain ⟨p, t⟩ := o
    obtain ⟨c1, s, h1, hc1⟩ := c.AddValue_linear_total fuel p t hc
    obtain ⟨c2, h2⟩ := ih c1 hc1
    refine ⟨c2, ?_⟩
    simp only [PF_Chart.feed, h1]
    exact h2

theorem PF_Chart.new_linChart (symbol : String) (b : ℚ) (e r : Int) (bt : BoxType) :
    LinChart b r (PF_Chart.new symbol b e r bt ColumnScale.e_linear) := by
  obtain ⟨h1, -, h3, -, h5, -, h7, h8, -⟩ :=
    PF_Column.new_fields b e r bt ColumnScale.e_linear Direction.e_unknown (-1) (-1)
  refine ⟨by simp [PF_Chart.new], h5, h1, h3, 0, ?_⟩
  show (PF_Column.new b e r bt ColumnScale.e_linear Direction.e_unknown (-1) (-1)).top_
    - (PF_Column.new b e r bt ColumnScale.e_linear Direction.e_unknown (-1) (-1)).bottom_ = _
  rw [h7, h8]
  simp

theorem ToIntTruncated_natCast (n : ℕ) : ToIntTruncated (n : ℚ) = n := by
  unfold ToIntTruncated
  rw [if_pos (Nat.cast_nonneg n)]
  exact Int.floor_natCast n

theorem StepBackOnlyOneBox.step_flag {r : Int} {c : PF_Column} {t : tpt} {res : PF_Column × AddResult}
    (h : StepBackOnlyOneBox r c) (hs : ColStep c t res) :
    StepBackOnlyOneBox r res.1 ∧ ∀ s, res.2.2 = some s → StepBackOnlyOneBox r s := by
  obtain ⟨col, status, new_col⟩ := res
  obtain ⟨h1, h2⟩ := h
  have hcfg := hs.config
  refine ⟨⟨hcfg.2.2.1.trans h1, ?_⟩, ?_⟩
  · cases status with
    | e_accepted =>
      rcases (hs.accepted rfl).2 with ⟨a, -⟩ | ⟨-, a, -⟩
      · intro hx
        exact h2 (a ▸ hx)
      · exact fun _ => h1 ▸ a
    | e_ignored =>
      rw [(hs.ignored rfl).1]
      exact h2
    | e_reversal =>
      rw [(hs.reversal rfl).1]
      exact h2
  · intro s hsome
    cases status with
    | e_accepted =>
      rw [(hs.accepted rfl).1] at hsome
      simp at hsome
    | e_ignored =>
      rw [(hs.ignored rfl).2] at hsome
      simp at hsome
    | e_reversal =>
      obtain ⟨-, s1, hs1, hcfg1, hhr, -⟩ := hs.reversal rfl
      rw [hs1] at hsome
      simp only [Option.some.injEq] at hsome
      subst hsome
      exact ⟨hcfg1.2.2.1.trans h1, fun hx => by rw [hhr] at hx; simp at hx⟩

theorem Alternates.step_alternates {last c : PF_Column} {t : tpt} {res : PF_Column × AddResult}
    (h : Alternates last c) (hs : ColStep c t res) : Alternates last res.1 := by
  obtain ⟨col, status, new_col⟩ := res
  intro hfalse
  cases status with
  | e_accepted =>
    rcases (hs.accepted rfl).2 with ⟨a, b⟩ | ⟨a, -⟩
    · simp only at a b hfalse
      have hopp := h (a ▸ hfalse)
      have hk : c.direction_ ≠ Direction.e_unknown := by
        rcases hopp with ⟨-, x⟩ | ⟨-, x⟩ <;> simp [x]
      show Opposite last.direction_ col.direction_
      rw [b hk]
      exact hopp
    · simp only at a hfalse
      rw [a] at hfalse
      simp at hfalse
  | e_ignored =>
    have := (hs.ignored rfl).1
    simp only at this hfalse
    subst this
    exact h hfalse
  | e_reversal =>
    have := (hs.reversal rfl).1
    simp only at this hfalse
    subst this
    exact h hfalse

theorem PF_Chart.AddValue_dirChart (fuel : Nat) (r : Int) (c c1 : PF_Chart) (p : ℚ) (t : tpt)
    (s : Status) (hc : DirChart r c) (h : c.AddValue fuel p t = some (c1, s)) :
    DirChart r c1 := by
  obtain ⟨hcols, hcur, hchain, hlast⟩ := hc
  cases hcol : c.current_column_.AddValue fuel p t with
  | none => simp [PF_Chart.AddValue, hcol] at h
  | some res =>
    obtain ⟨col, status, new_col⟩ := res
    have hstep := c.current_column_.AddValue_step fuel p t _ hcol
    obtain ⟨hsb, hsbs⟩ := hcur.step_flag hstep
    cases status with
    | e_accepted =>
      rw [c.AddValue_of_accepted fuel p t col new_col hcol] at h
      simp only [Option.some.injEq, Prod.mk.injEq] at h
      rw [← h.1]
      exact ⟨hcols, hsb, hchain, fun last hl => (hlast last hl).step_alternates hstep⟩
    | e_ignored =>
      rw [c.AddValue_of_ignored fuel p t col new_col hcol] at h
      simp only [Option.some.injEq, Prod.mk.injEq] at h
      rw [← h.1]
      exact ⟨hcols, hsb, hchain, fun last hl => (hlast last hl).step_alternates hstep⟩
    | e_reversal =>
      obtain ⟨hcoleq, s1, hs1, hcfg1, hhr, -, hdir⟩ := hstep.reversal rfl
      simp only at hs1 hcoleq
      subst hs1
      rw [c.AddValue_of_reversal fuel p t col s1 hcol] at h
      cases hs2 : s1.AddValue fuel p t with
      | none => simp [hs2] at h
      | some res2 =>
        rw [hs2] at h
        simp only [Option.map_some', Option.some.injEq, Prod.mk.injEq] at h
        rw [← h.1]
        have hstep2 := s1.AddValue_step fuel p t _ hs2
        have hs1sb := hsbs s1 rfl
        have halt0 : Alternates col s1 := by
          intro _
          rw [hcoleq]
          exact hdir
        refine ⟨?_, (hs1sb.step_flag hstep2).1, ?_, ?_⟩
        · intro x hx
          simp only [List.mem_append, List.mem_singleton] at hx
          rcases hx with hx | hx
          · exact hcols x hx
          · exact hx ▸ hsb
        · rw [List.chain'_append]
          refine ⟨hchain, List.chain'_singleton _, ?_⟩
          intro x hx y hy
          simp only [List.head?_cons, Option.mem_def, Option.some.injEq] at hy
          subst hy
          have := (hlast x hx).step_alternates hstep
          exact this
        · intro last hl
          simp only [List.getLast?_concat, Option.mem_def, Option.some.injEq] at hl
          subst hl
          exact halt0.step_alternates hstep2

theorem PF_Chart.feed_dirChart (fuel : Nat) (r : Int) (obs : List (ℚ × tpt)) :
    ∀ c c1 : PF_Chart, DirChart r c → c.feed fuel obs = some c1 → DirChart r c1 := by
  induction obs with
  | nil =>
    intro c c1 hc h
    simp only [PF_Chart.feed, Option.some.injEq] at h
    exact h ▸ hc
  | cons o rest ih =>
    intro c c1 hc h
    obtain ⟨p, t⟩ := o
    simp only [PF_Chart.feed] at h
    cases h1 : c.AddValue fuel p t with
    | none => simp [h1] at h
    | some res =>
      obtain ⟨c2, s⟩ := res
      rw [h1] at h
      exact ih c2 c1 (c.AddValue_dirChart fuel r c2 p t s hc h1) h

theorem PF_Chart.new_dirChart (symbol : String) (b : ℚ) (e r : Int) (bt : BoxType)
    (sc : ColumnScale) : DirChart r (PF_Chart.new symbol b e r bt sc) := by
  obtain ⟨-, -, h3, -, -, -, -, -, h9⟩ :=
    PF_Column.new_fields b e r bt sc Direction.e_unknown (-1) (-1)
  refine ⟨by simp [PF_Chart.new], ⟨h3, fun hx => ?_⟩, by simp [PF_Chart.new],
    by simp [PF_Chart.new]⟩
  have h9b : (PF_Chart.new symbol b e r bt sc).current_column_.had_reversal_ = false := h9
  rw [h9b] at hx
  simp at hx

theorem chain_getElem?_succ {α : Type} {R : α → α → Prop} :
    ∀ (l : List α), l.Chain' R → ∀ (i : Nat) (a b : α),
      l[i]? = some a → l[i + 1]? = some b → R a b := by
  intro l
  induction l with
  | nil => intro _ i a b h; simp at h
  | cons x xs ih =>
    intro hch i a b ha hb
    cases xs with
    | nil => simp at hb
    | cons y ys =>
      rw [List.chain'_cons] at hch
      cases i with
      | zero =>
        simp only [List.getElem?_cons_zero, Option.some.injEq, zero_add,
          List.getElem?_cons_succ] at ha hb
        exact ha ▸ hb ▸ hch.1
      | succ j =>
        simp only [List.getElem?_cons_succ] at ha hb
        exact ih hch.2 j a b ha (by simpa using hb)

/-- C7: in a chart reached from a fresh chart, on either scale, a closed or current column
with `had_reversal_` set has reversal count 1 -/
theorem C7_had_reversal_implies_one_box (fuel : Nat) (symbol : String) (box_size : ℚ)
    (box_size_exponent reversal_boxes : Int) (box_type : BoxType) (box_scale : ColumnScale)
    (obs : List (ℚ × tpt)) (c : PF_Chart)
    (h : (PF_Chart.new symbol box_size box_size_exponent reversal_boxes box_type
        box_scale).feed fuel obs = some c) :
    (∀ col ∈ c.columns_, col.had_reversal_ = true → col.reversal_boxes_ = 1) ∧
    (c.current_column_.had_reversal_ = true → c.current_column_.reversal_boxes_ = 1) := by
  obtain ⟨hcols, hcur, -, -⟩ := PF_Chart.feed_dirChart fuel reversal_boxes obs _ c
    (PF_Chart.new_dirChart symbol box_size box_size_exponent reversal_boxes box_type box_scale) h
  refine ⟨fun col hcol hx => ?_, fun hx => ?_⟩
  · obtain ⟨a, b⟩ := hcols col hcol
    rw [a]
    exact b hx
  · rw [hcur.1]
    exact hcur.2 hx

/-- C6 (amended): two adjacent closed columns have opposite directions whenever the later
one did not reverse in place, and always when the reversal count is not 1 -/
theorem C6_direction_alternation_unless_step_back (fuel : Nat) (symbol : String)
    (box_size : ℚ) (box_size_exponent reversal_boxes : Int) (box_type : BoxType)
    (box_scale : ColumnScale) (obs : List (ℚ × tpt)) (c : PF_Chart)
    (h : (PF_Chart.new symbol box_size box_size_exponent reversal_boxes box_type
        box_scale).feed fuel obs = some c) :
    ∀ (i : Nat) (a b : PF_Column), c.columns_[i]? = some a → c.columns_[i + 1]? = some b →
      (b.had_reversal_ = false ∨ reversal_boxes ≠ 1) →
      (a.direction_ = Direction.e_up ∧ b.direction_ = Direction.e_down) ∨
      (a.direction_ = Direction.e_down ∧ b.direction_ = Direction.e_up) := by
  obtain ⟨hcols, -, hchain, -⟩ := PF_Chart.feed_dirChart fuel reversal_boxes obs _ c
    (PF_Chart.new_dirChart symbol box_size box_size_exponent reversal_boxes box_type box_scale) h
  intro i a b ha hb hor
  have halt : Alternates a b := chain_getElem?_succ _ hchain i a b ha hb
  apply halt
  rcases hor with hor | hor
  · exact hor
  · have hmem : b ∈ c.columns_ := List.getElem?_mem hb
    cases hbr : b.had_reversal_ with
    | false => rfl
    | true => exact absurd ((hcols b hmem).2 hbr) hor


/-! ## Independence of the time stamps -/


theorem PF_Column.MakeReversalColumn_eraseTime (c : PF_Column) (d : Direction) (v : ℚ)
    (t t2 : tpt) (tt : tpt × tpt) :
    (PF_Column.MakeReversalColumn { c with time_span_ := tt } d v t).eraseTime
      = (c.eraseTime.MakeReversalColumn d v t2).eraseTime := rfl

theorem PF_Column.MakeReversalColumnPercent_eraseTime (c : PF_Column) (d : Direction) (v : ℚ)
    (t t2 : tpt) (tt : tpt × tpt) :
    (PF_Column.MakeReversalColumnPercent { c with time_span_ := tt } d v t).eraseTime
      = (c.eraseTime.MakeReversalColumnPercent d v t2).eraseTime := rfl

theorem PF_Column.StartColumn_eraseTime (c : PF_Column) (v : ℚ) (t t2 : tpt) :
    eraseResult (c.StartColumn v t) = eraseResult (c.eraseTime.StartColumn v t2) := rfl

theorem PF_Column.StartColumnPercent_eraseTime (c : PF_Column) (v : ℚ) (t t2 : tpt) :
    eraseResult (c.StartColumnPercent v t) = eraseResult (c.eraseTime.StartColumnPercent v t2) :=
  rfl

theorem PF_Column.TryToFindDirection_eraseTime (c : PF_Column) (v : ℚ) (t t2 : tpt) :
    eraseResult (c.TryToFindDirection v t) = eraseResult (c.eraseTime.TryToFindDirection v t2) := by
  unfold PF_Column.TryToFindDirection
  simp only [PF_Column.eraseTime]
  split_ifs <;> rfl

theorem PF_Column.TryToExtendUp_eraseTime (c : PF_Column) (v : ℚ) (t t2 : tpt) :
    eraseResult (c.TryToExtendUp v t) = eraseResult (c.eraseTime.TryToExtendUp v t2) := by
  unfold PF_Column.TryToExtendUp
  simp only [PF_Column.eraseTime]
  split_ifs <;> rfl

theorem PF_Column.TryToExtendDown_eraseTime (c : PF_Column) (v : ℚ) (t t2 : tpt) :
    eraseResult (c.TryToExtendDown v t) = eraseResult (c.eraseTime.TryToExtendDown v t2) := by
  unfold PF_Column.TryToExtendDown
  simp only [PF_Column.eraseTime]
  split_ifs <;> rfl

theorem PF_Column.TryToFindDirectionPercent_eraseTime (fuel : Nat) (c : PF_Column) (v : ℚ)
    (t t2 : tpt) :
    (c.TryToFindDirectionPercent fuel v t).map eraseResult
      = (c.eraseTime.TryToFindDirectionPercent fuel v t2).map eraseResult := by
  unfold PF_Column.TryToFindDirectionPercent
  simp only [PF_Column.eraseTime]
  split_ifs
  · cases percentLoopUp fuel v c.top_ c.percent_box_increment_up_ <;> rfl
  · cases percentLoopDown fuel v c.bottom_ c.percent_box_increment_down_ <;> rfl
  · rfl

theorem PF_Column.TryToExtendUpPercent_eraseTime (fuel : Nat) (c : PF_Column) (v : ℚ)
    (t t2 : tpt) :
    (c.TryToExtendUpPercent fuel v t).map eraseResult
      = (c.eraseTime.TryToExtendUpPercent fuel v t2).map eraseResult := by
  unfold PF_Column.TryToExtendUpPercent
  simp only [PF_Column.eraseTime]
  split_ifs
  · cases percentLoopUp fuel v c.top_ c.percent_box_increment_up_ <;> rfl
  · rfl
  · cases percentLoopDown fuel v c.bottom_ c.percent_box_increment_down_ <;> rfl
  · rfl
  · rfl

theorem PF_Column.TryToExtendDownPercent_eraseTime (fuel : Nat) (c : PF_Column) (v : ℚ)
    (t t2 : tpt) :
    (c.TryToExtendDownPercent fuel v t).map eraseResult
      = (c.eraseTime.TryToExtendDownPercent fuel v t2).map eraseResult := by
  unfold PF_Column.TryToExtendDownPercent
  simp only [PF_Column.eraseTime]
  split_ifs
  · cases percentLoopDown fuel v c.bottom_ c.percent_box_increment_down_ <;> rfl
  · rfl
  · cases percentLoopUp fuel v c.top_ c.percent_box_increment_up_ <;> rfl
  · rfl
  · rfl

/-- The status of an `AddValue` call and, up to time spans, its columns do not depend on the
time of the call nor on the time span of the column. -/
theorem PF_Column.AddValue_eraseTime (fuel : Nat) (c : PF_Column) (p : ℚ) (t t2 : tpt) :
    (c.AddValue fuel p t).map eraseResult = (c.eraseTime.AddValue fuel p t2).map eraseResult := by
  by_cases h1 : c.column_scale_ = ColumnScale.e_percent
  · have h1b : c.eraseTime.column_scale_ = ColumnScale.e_percent := h1
    unfold PF_Column.AddValue
    rw [if_pos h1, if_pos h1b]
    unfold PF_Column.AddValuePercent
    by_cases h2 : c.top_ = -1 ∧ c.bottom_ = -1
    · have h2b : c.eraseTime.top_ = -1 ∧ c.eraseTime.bottom_ = -1 := h2
      rw [if_pos h2, if_pos h2b]
      rfl
    · have h2b : ¬ (c.eraseTime.top_ = -1 ∧ c.eraseTime.bottom_ = -1) := h2
      rw [if_neg h2, if_neg h2b]
      by_cases h3 : c.direction_ = Direction.e_unknown
      · have h3b : c.eraseTime.direction_ = Direction.e_unknown := h3
        rw [if_pos h3, if_pos h3b]
        exact c.TryToFindDirectionPercent_eraseTime fuel p t t2
      · have h3b : ¬ c.eraseTime.direction_ = Direction.e_unknown := h3
        rw [if_neg h3, if_neg h3b]
        by_cases h4 : c.direction_ = Direction.e_up
        · have h4b : c.eraseTime.direction_ = Direction.e_up := h4
          rw [if_pos h4, if_pos h4b]
          exact c.TryToExtendUpPercent_eraseTime fuel p t t2
        · have h4b : ¬ c.eraseTime.direction_ = Direction.e_up := h4
          rw [if_neg h4, if_neg h4b]
          exact c.TryToExtendDownPercent_eraseTime fuel p t t2
  · have h1b : c.eraseTime.column_scale_ ≠ ColumnScale.e_percent := h1
    rw [c.AddValue_linear_eq fuel p t h1, c.eraseTime.AddValue_linear_eq fuel p t2 h1b]
    simp only [Option.map_some', Option.some.injEq]
    have hp : c.eraseTime.possibleValue p = c.possibleValue p := rfl
    rw [hp]
    by_cases h2 : c.top_ = -1 ∧ c.bottom_ = -1
    · have h2b : c.eraseTime.top_ = -1 ∧ c.eraseTime.bottom_ = -1 := h2
      rw [if_pos h2, if_pos h2b]
      rfl
    · have h2b : ¬ (c.eraseTime.top_ = -1 ∧ c.eraseTime.bottom_ = -1) := h2
      rw [if_neg h2, if_neg h2b]
      by_cases h3 : c.direction_ = Direction.e_unknown
      · have h3b : c.eraseTime.direction_ = Direction.e_unknown := h3
        rw [if_pos h3, if_pos h3b]
        exact c.TryToFindDirection_eraseTime _ t t2
      · have h3b : ¬ c.eraseTime.direction_ = Direction.e_unknown := h3
        rw [if_neg h3, if_neg h3b]
        by_cases h4 : c.direction_ = Direction.e_up
        · have h4b : c.eraseTime.direction_ = Direction.e_up := h4
          rw [if_pos h4, if_pos h4b]
          exact c.TryToExtendUp_eraseTime _ t t2
        · have h4b : ¬ c.eraseTime.direction_ = Direction.e_up := h4
          rw [if_neg h4, if_neg h4b]
          exact c.TryToExtendDown_eraseTime _ t t2


theorem PF_Column.eraseTime_idem (c : PF_Column) : c.eraseTime.eraseTime = c.eraseTime := rfl

theorem PF_Column.AddValue_eraseTime_congr (fuel : Nat) (a b : PF_Column) (p : ℚ) (t t2 : tpt)
    (h : a.eraseTime = b.eraseTime) :
    (a.AddValue fuel p t).map eraseResult = (b.AddValue fuel p t2).map eraseResult := by
  rw [a.AddValue_eraseTime fuel p t 0, b.AddValue_eraseTime fuel p t2 0, h]

theorem PF_Chart.eraseTime_eq_iff (c d : PF_Chart) : c.eraseTime = d.eraseTime ↔
    c.boxes_ = d.boxes_ ∧
    c.columns_.map PF_Column.eraseTime = d.columns_.map PF_Column.eraseTime ∧
    c.current_column_.eraseTime = d.current_column_.eraseTime ∧ c.symbol_ = d.symbol_ ∧
    c.y_min_ = d.y_min_ ∧ c.y_max_ = d.y_max_ ∧ c.current_direction_ = d.current_direction_ := by
  unfold PF_Chart.eraseTime
  rw [PF_Chart.mk.injEq]
  simp

theorem PF_Column.eraseTime_fields {a b : PF_Column} (h : a.eraseTime = b.eraseTime) :
    a.top_ = b.top_ ∧ a.bottom_ = b.bottom_ ∧ a.direction_ = b.direction_ ∧
    a.box_size_ = b.box_size_ ∧ a.reversal_boxes_ = b.reversal_boxes_ ∧
    a.column_scale_ = b.column_scale_ ∧ a.had_reversal_ = b.had_reversal_ := by
  have e1 : a.eraseTime.top_ = b.eraseTime.top_ := by rw [h]
  have e2 : a.eraseTime.bottom_ = b.eraseTime.bottom_ := by rw [h]
  have e3 : a.eraseTime.direction_ = b.eraseTime.direction_ := by rw [h]
  have e4 : a.eraseTime.box_size_ = b.eraseTime.box_size_ := by rw [h]
  have e5 : a.eraseTime.reversal_boxes_ = b.eraseTime.reversal_boxes_ := by rw [h]
  have e6 : a.eraseTime.column_scale_ = b.eraseTime.column_scale_ := by rw [h]
  have e7 : a.eraseTime.had_reversal_ = b.eraseTime.had_reversal_ := by rw [h]
  exact ⟨e1, e2, e3, e4, e5, e6, e7⟩

/-- Up to dates and time spans, the chart after `PF_Chart::AddValue` and the status returned
do not depend on the time of the call nor on the dates already stored. -/
theorem PF_Chart.AddValue_chart_eraseTime_congr (fuel : Nat) (c d : PF_Chart) (p : ℚ) (t t2 : tpt)
    (h : c.eraseTime = d.eraseTime) :
    (c.AddValue fuel p t).map (fun r => (r.1.eraseTime, r.2))
      = (d.AddValue fuel p t2).map (fun r => (r.1.eraseTime, r.2)) := by
  obtain ⟨g1, g2, g3, g4, g5, g6, g7⟩ := (PF_Chart.eraseTime_eq_iff c d).mp h
  have hcol := PF_Column.AddValue_eraseTime_congr fuel _ _ p t t2 g3
  cases ha : c.current_column_.AddValue fuel p t with
  | none =>
    rw [ha] at hcol
    cases hb : d.current_column_.AddValue fuel p t2 with
    | none => simp [PF_Chart.AddValue, ha, hb]
    | some rb => rw [hb] at hcol; simp at hcol
  | some ra =>
    rw [ha] at hcol
    cases hb : d.current_column_.AddValue fuel p t2 with
    | none => rw [hb] at hcol; simp at hcol
    | some rb =>
      rw [hb] at hcol
      obtain ⟨cola, sta, nca⟩ := ra
      obtain ⟨colb, stb, ncb⟩ := rb
      simp only [Option.map_some', Option.some.injEq, eraseResult, Prod.mk.injEq] at hcol
      obtain ⟨e1, e2, e3⟩ := hcol
      subst e2
      obtain ⟨f1, f2, f3, -⟩ := PF_Column.eraseTime_fields e1
      cases sta with
      | e_accepted =>
        rw [c.AddValue_of_accepted fuel p t cola nca ha,
          d.AddValue_of_accepted fuel p t2 colb ncb hb]
        simp only [Option.map_some', Option.some.injEq, Prod.mk.injEq, and_true]
        rw [PF_Chart.eraseTime_eq_iff]
        simp only [g1, g2, e1, g4, g5, g6, f1, f2, f3, and_self]
      | e_ignored =>
        rw [c.AddValue_of_ignored fuel p t cola nca ha,
          d.AddValue_of_ignored fuel p t2 colb ncb hb]
        simp only [Option.map_some', Option.some.injEq, Prod.mk.injEq, and_true]
        rw [PF_Chart.eraseTime_eq_iff]
        simp only [g1, g2, e1, g4, g5, g6, f3, and_self]
      | e_reversal =>
        obtain ⟨-, sa, hsa, -⟩ :=
          (c.current_column_.AddValue_step fuel p t _ ha).reversal rfl
        obtain ⟨-, sb, hsb, -⟩ :=
          (d.current_column_.AddValue_step fuel p t2 _ hb).reversal rfl
        simp only at hsa hsb
        subst hsa
        subst hsb
        simp only [Option.map_some', Option.some.injEq] at e3
        have hs := PF_Column.AddValue_eraseTime_congr fuel sa sb p t t2 e3
        rw [c.AddValue_of_reversal fuel p t cola sa ha,
          d.AddValue_of_reversal fuel p t2 colb sb hb]
        cases hxa : sa.AddValue fuel p t with
        | none =>
          rw [hxa] at hs
          cases hxb : sb.AddValue fuel p t2 with
          | none => rfl
          | some xb => rw [hxb] at hs; simp at hs
        | some xa =>
          rw [hxa] at hs
          cases hxb : sb.AddValue fuel p t2 with
          | none => rw [hxb] at hs; simp at hs
          | some xb =>
            rw [hxb] at hs
            simp only [Option.map_some', Option.some.injEq, eraseResult, Prod.mk.injEq] at hs
            obtain ⟨k1, k2, -⟩ := hs
            obtain ⟨-, -, k3, -⟩ := PF_Column.eraseTime_fields k1
            simp only [Option.map_some', Option.some.injEq, Prod.mk.injEq]
            refine ⟨?_, k2⟩
            rw [PF_Chart.eraseTime_eq_iff]
            simp only [g1, g2, e1, k1, g4, g5, g6, k3, List.map_append, List.map_cons,
              List.map_nil, and_self]

theorem PF_Chart.feed_eraseTime_congr (fuel : Nat) :
    ∀ (obs1 obs2 : List (ℚ × tpt)) (c d : PF_Chart),
      obs1.map Prod.fst = obs2.map Prod.fst → c.eraseTime = d.eraseTime →
      (c.feed fuel obs1).map PF_Chart.eraseTime = (d.feed fuel obs2).map PF_Chart.eraseTime := by
  intro obs1
  induction obs1 with
  | nil =>
    intro obs2 c d ho h
    cases obs2 with
    | nil => simp [PF_Chart.feed, h]
    | cons o rest => simp at ho
  | cons o1 rest1 ih =>
    intro obs2 c d ho h
    cases obs2 with
    | nil => simp at ho
    | cons o2 rest2 =>
      obtain ⟨p1, t1⟩ := o1
      obtain ⟨p2, t2⟩ := o2
      simp only [List.map_cons, List.cons.injEq] at ho
      obtain ⟨hp, hrest⟩ := ho
      subst hp
      have hstep := PF_Chart.AddValue_chart_eraseTime_congr fuel c d p1 t1 t2 h
      simp only [PF_Chart.feed]
      cases ha : c.AddValue fuel p1 t1 with
      | none =>
        rw [ha] at hstep
        cases hb : d.AddValue fuel p1 t2 with
        | none => rfl
        | some rb => rw [hb] at hstep; simp at hstep
      | some ra =>
        rw [ha] at hstep
        cases hb : d.AddValue fuel p1 t2 with
        | none => rw [hb] at hstep; simp at hstep
        | some rb =>
          rw [hb] at hstep
          simp only [Option.map_some', Option.some.injEq, Prod.mk.injEq] at hstep
          exact ih rest2 ra.1 rb.1 hrest hstep.1


theorem percentLoopUp_mono (v inc : ℚ) : ∀ (f f2 : Nat) (top x : ℚ),
    percentLoopUp f v top inc = some x → f ≤ f2 → percentLoopUp f2 v top inc = some x := by
  intro f
  induction f with
  | zero => intro f2 top x h; simp [percentLoopUp] at h
  | succ n ih =>
    intro f2 top x h hle
    cases f2 with
    | zero => omega
    | succ m =>
      unfold percentLoopUp at h ⊢
      split_ifs at h ⊢ with hc
      · exact ih m _ x h (by omega)
      · exact h

theorem percentLoopDown_mono (v inc : ℚ) : ∀ (f f2 : Nat) (bottom x : ℚ),
    percentLoopDown f v bottom inc = some x → f ≤ f2 →
      percentLoopDown f2 v bottom inc = some x := by
  intro f
  induction f with
  | zero => intro f2 bottom x h; simp [percentLoopDown] at h
  | succ n ih =>
    intro f2 bottom x h hle
    cases f2 with
    | zero => omega
    | succ m =>
      unfold percentLoopDown at h ⊢
      split_ifs at h ⊢ with hc
      · exact ih m _ x h (by omega)
      · exact h

theorem PF_Column.TryToFindDirectionPercent_mono (f f2 : Nat) (c : PF_Column) (v : ℚ) (t : tpt)
    (r : PF_Column × AddResult) (h : c.TryToFindDirectionPercent f v t = some r) (hle : f ≤ f2) :
    c.TryToFindDirectionPercent f2 v t = some r := by
  unfold PF_Column.TryToFindDirectionPercent at h ⊢
  split_ifs at h ⊢
  · cases hx : percentLoopUp f v c.top_ c.percent_box_increment_up_ with
    | none => simp [hx] at h
    | some x => rw [hx] at h; rw [percentLoopUp_mono _ _ f f2 _ x hx hle]; exact h
  · cases hx : percentLoopDown f v c.bottom_ c.percent_box_increment_down_ with
    | none => simp [hx] at h
    | some x => rw [hx] at h; rw [percentLoopDown_mono _ _ f f2 _ x hx hle]; exact h
  · exact h

theorem PF_Column.TryToExtendUpPercent_mono (f f2 : Nat) (c : PF_Column) (v : ℚ) (t : tpt)
    (r : PF_Column × AddResult) (h : c.TryToExtendUpPercent f v t = some r) (hle : f ≤ f2) :
    c.TryToExtendUpPercent f2 v t = some r := by
  unfold PF_Column.TryToExtendUpPercent at h ⊢
  split_ifs at h ⊢
  · cases hx : percentLoopUp f v c.top_ c.percent_box_increment_up_ with
    | none => simp [hx] at h
    | some x => rw [hx] at h; rw [percentLoopUp_mono _ _ f f2 _ x hx hle]; exact h
  · exact h
  · cases hx : percentLoopDown f v c.bottom_ c.percent_box_increment_down_ with
    | none => simp [hx] at h
    | some x => rw [hx] at h; rw [percentLoopDown_mono _ _ f f2 _ x hx hle]; exact h
  · exact h
  · exact h

theorem PF_Column.TryToExtendDownPercent_mono (f f2 : Nat) (c : PF_Column) (v : ℚ) (t : tpt)
    (r : PF_Column × AddResult) (h : c.TryToExtendDownPercent f v t = some r) (hle : f ≤ f2) :
    c.TryToExtendDownPercent f2 v t = some r := by
  unfold PF_Column.TryToExtendDownPercent at h ⊢
  split_ifs at h ⊢
  · cases hx : percentLoopDown f v c.bottom_ c.percent_box_increment_down_ with
    | none => simp [hx] at h
    | some x => rw [hx] at h; rw [percentLoopDown_mono _ _ f f2 _ x hx hle]; exact h
  · exact h
  · cases hx : percentLoopUp f v c.top_ c.percent_box_increment_up_ with
    | none => simp [hx] at h
    | some x => rw [hx] at h; rw [percentLoopUp_mono _ _ f f2 _ x hx hle]; exact h
  · exact h
  · exact h

/-- More fuel does not change a result that was reached. -/
theorem PF_Column.AddValue_mono (f f2 : Nat) (c : PF_Column) (p : ℚ) (t : tpt)
    (r : PF_Column × AddResult) (h : c.AddValue f p t = some r) (hle : f ≤ f2) :
    c.AddValue f2 p t = some r := by
  by_cases h1 : c.column_scale_ = ColumnScale.e_percent
  · unfold PF_Column.AddValue at h ⊢
    rw [if_pos h1] at h ⊢
    unfold PF_Column.AddValuePercent at h ⊢
    split_ifs at h ⊢
    · exact h
    · exact c.TryToFindDirectionPercent_mono f f2 p t r h hle
    · exact c.TryToExtendUpPercent_mono f f2 p t r h hle
    · exact c.TryToExtendDownPercent_mono f f2 p t r h hle
  · rw [c.AddValue_linear_eq f p t h1] at h
    rw [c.AddValue_linear_eq f2 p t h1]
    exact h

theorem PF_Chart.AddValue_chart_mono (f f2 : Nat) (c : PF_Chart) (p : ℚ) (t : tpt)
    (r : PF_Chart × Status) (h : c.AddValue f p t = some r) (hle : f ≤ f2) :
    c.AddValue f2 p t = some r := by
  cases ha : c.current_column_.AddValue f p t with
  | none => simp [PF_Chart.AddValue, ha] at h
  | some ra =>
    obtain ⟨col, st, nc⟩ := ra
    have ha2 := c.current_column_.AddValue_mono f f2 p t _ ha hle
    cases st with
    | e_accepted =>
      rw [c.AddValue_of_accepted f p t col nc ha] at h
      rw [c.AddValue_of_accepted f2 p t col nc ha2]
      exact h
    | e_ignored =>
      rw [c.AddValue_of_ignored f p t col nc ha] at h
      rw [c.AddValue_of_ignored f2 p t col nc ha2]
      exact h
    | e_reversal =>
      obtain ⟨-, s, hs, -⟩ := (c.current_column_.AddValue_step f p t _ ha).reversal rfl
      simp only at hs
      subst hs
      rw [c.AddValue_of_reversal f p t col s ha] at h
      rw [c.AddValue_of_reversal f2 p t col s ha2]
      cases hx : s.AddValue f p t with
      | none => simp [hx] at h
      | some x =>
        rw [hx] at h
        rw [s.AddValue_mono f f2 p t x hx hle]
        exact h

theorem PF_Chart.feed_mono (f f2 : Nat) (hle : f ≤ f2) : ∀ (obs : List (ℚ × tpt)) (c c1 : PF_Chart),
    c.feed f obs = some c1 → c.feed f2 obs = some c1 := by
  intro obs
  induction obs with
  | nil => intro c c1 h; exact h
  | cons o rest ih =>
    intro c c1 h
    obtain ⟨p, t⟩ := o
    simp only [PF_Chart.feed] at h ⊢
    cases ha : c.AddValue f p t with
    | none => simp [ha] at h
    | some ra =>
      rw [ha] at h
      rw [c.AddValue_chart_mono f f2 p t ra ha hle]
      exact ih ra.1 c1 h

theorem PF_Column.eq_of_eraseTime {a b : PF_Column} (h : a.eraseTime = b.eraseTime) :
    PF_Column.eq a b = true := by
  obtain ⟨h1, h2, h3, h4, h5, h6, h7⟩ := PF_Column.eraseTime_fields h
  simp [PF_Column.eq, h1, h2, h3, h4, h5, h6, h7]

theorem columnsEq_of_eraseTime : ∀ (l1 l2 : List PF_Column),
    l1.map PF_Column.eraseTime = l2.map PF_Column.eraseTime → columnsEq l1 l2 = true := by
  intro l1
  induction l1 with
  | nil =>
    intro l2 h
    cases l2 with
    | nil => rfl
    | cons b bs => simp at h
  | cons a as ih =>
    intro l2 h
    cases l2 with
    | nil => simp at h
    | cons b bs =>
      simp only [List.map_cons, List.cons.injEq] at h
      simp [columnsEq, PF_Column.eq_of_eraseTime h.1, ih bs h.2]

theorem PF_Chart.eq_chart_of_eraseTime {c d : PF_Chart} (h : c.eraseTime = d.eraseTime) :
    PF_Chart.eq c d = true := by
  obtain ⟨g1, g2, g3, g4, g5, g6, g7⟩ := (PF_Chart.eraseTime_eq_iff c d).mp h
  obtain ⟨-, -, -, -, f5, -⟩ := PF_Column.eraseTime_fields g3
  simp [PF_Chart.eq, PF_Chart.GetBoxSize, PF_Chart.GetReversalboxes, PF_Chart.GetBoxType,
    PF_Chart.GetBoxScale, g1, g4, g5, g6, g7, f5, columnsEq_of_eraseTime _ _ g2,
    PF_Column.eq_of_eraseTime g3]

/-- C9: two fresh charts of the same configuration that are fed the same prices, with any
time stamps, compare equal under `PF_Chart::operator==` -/
theorem C9_replay_determinism_ignores_time (fuel1 fuel2 : Nat) (symbol : String)
    (box_size : ℚ) (box_size_exponent reversal_boxes : Int) (box_type : BoxType)
    (box_scale : ColumnScale) (obs1 obs2 : List (ℚ × tpt)) (c1 c2 : PF_Chart)
    (hprices : obs1.map Prod.fst = obs2.map Prod.fst)
    (h1 : (PF_Chart.new symbol box_size box_size_exponent reversal_boxes box_type
        box_scale).feed fuel1 obs1 = some c1)
    (h2 : (PF_Chart.new symbol box_size box_size_exponent reversal_boxes box_type
        box_scale).feed fuel2 obs2 = some c2) :
    PF_Chart.eq c1 c2 = true := by
  have k1 := PF_Chart.feed_mono fuel1 (max fuel1 fuel2) (le_max_left _ _) obs1 _ c1 h1
  have k2 := PF_Chart.feed_mono fuel2 (max fuel1 fuel2) (le_max_right _ _) obs2 _ c2 h2
  have key := PF_Chart.feed_eraseTime_congr (max fuel1 fuel2) obs1 obs2 _ _ hprices
    (rfl : (PF_Chart.new symbol box_size box_size_exponent reversal_boxes box_type
      box_scale).eraseTime = _)
  rw [k1, k2] at key
  simp only [Option.map_some', Option.some.injEq] at key
  exact PF_Chart.eq_chart_of_eraseTime key

theorem PF_Column.AddValue_ignored_again (fuel : Nat) (a col : PF_Column) (p : ℚ) (t t2 : tpt)
    (n : Option PF_Column) (h : a.AddValue fuel p t = some (col, Status.e_ignored, n)) :
    col = a ∧ a.AddValue fuel p t2 = some (a, Status.e_ignored, none) := by
  have h1 := (a.AddValue_step fuel p t _ h).ignored rfl
  have hc := PF_Column.AddValue_eraseTime_congr fuel a a p t t2 rfl
  rw [h] at hc
  cases hx : a.AddValue fuel p t2 with
  | none => rw [hx] at hc; simp at hc
  | some x =>
    rw [hx] at hc
    obtain ⟨col2, st2, n2⟩ := x
    simp only [Option.map_some', Option.some.injEq, eraseResult, Prod.mk.injEq] at hc
    obtain ⟨-, hst, -⟩ := hc
    subst hst
    have h2 := (a.AddValue_step fuel p t2 _ hx).ignored rfl
    simp only at h1 h2
    rw [h2.1, h2.2]
    exact ⟨h1.1, rfl⟩

/-- C8: when `PF_Chart::AddValue` returns ignored, the same price fed again at any time is
ignored again and leaves every member of the chart unchanged -/
theorem C8_ignored_idempotence (fuel : Nat) (c c1 : PF_Chart) (price : ℚ) (time time2 : tpt)
    (h : c.AddValue fuel price time = some (c1, Status.e_ignored)) :
    c1.AddValue fuel price time2 = some (c1, Status.e_ignored) := by
  cases ha : c.current_column_.AddValue fuel price time with
  | none => simp [PF_Chart.AddValue, ha] at h
  | some ra =>
    obtain ⟨col, st, nc⟩ := ra
    cases st with
    | e_accepted =>
      rw [c.AddValue_of_accepted fuel price time col nc ha] at h
      simp at h
    | e_ignored =>
      rw [c.AddValue_of_ignored fuel price time col nc ha] at h
      simp only [Option.some.injEq, Prod.mk.injEq, and_true] at h
      obtain ⟨hcol, hagain⟩ := PF_Column.AddValue_ignored_again fuel _ col price time time2 nc ha
      subst hcol
      have hcur : c1.current_column_ = c.current_column_ := by rw [← h]
      have h3 := c1.AddValue_of_ignored fuel price time2 c.current_column_ none
        (by rw [hcur]; exact hagain)
      rw [h3, ← h]
    | e_reversal =>
      obtain ⟨-, s, hs, -⟩ := (c.current_column_.AddValue_step fuel price time _ ha).reversal rfl
      simp only at hs
      subst hs
      rw [c.AddValue_of_reversal fuel price time col s ha] at h
      cases hx : s.AddValue fuel price time with
      | none => simp [hx] at h
      | some x =>
        obtain ⟨cur, st2, n2⟩ := x
        rw [hx] at h
        simp only [Option.map_some', Option.some.injEq, Prod.mk.injEq] at h
        obtain ⟨hc1, hst⟩ := h
        subst hst
        obtain ⟨hcur, hagain⟩ := PF_Column.AddValue_ignored_again fuel s cur price time time2 n2 hx
        subst hcur
        have hcur1 : c1.current_column_ = cur := by rw [← hc1]
        have h3 := c1.AddValue_of_ignored fuel price time2 cur none
          (by rw [hcur1]; exact hagain)
        rw [h3, ← hc1]


/-! ## Snapshots -/


theorem Direction.fromJSON_toJSON_direction (d : Direction) : Direction.fromJSON d.toJSON = Except.ok d := by
  cases d <;> rfl

theorem BoxType.fromJSON_toJSON_boxType (b : BoxType) : BoxType.fromJSON b.toJSON = Except.ok b := by
  cases b <;> rfl

theorem ColumnScale.fromJSON_toJSON_scale (s : ColumnScale) :
    ColumnScale.fromJSON s.toJSON = Except.ok s := by
  cases s <;> rfl

theorem DecimalStrings.parse_ToStr (D : DecimalStrings)
    (hD : ∀ q, D.FromStr (D.ToStr q) = some q) (q : ℚ) : D.parse (D.ToStr q) = Except.ok q := by
  unfold DecimalStrings.parse
  rw [hD]

theorem PF_Column.FromJSON_ToJSON (D : DecimalStrings)
    (hD : ∀ q, D.FromStr (D.ToStr q) = some q) (c0 col : PF_Column) :
    ∃ col1, c0.FromJSON D (col.ToJSON D) = Except.ok col1 ∧ PF_Column.eq col1 col = true := by
  unfold PF_Column.FromJSON PF_Column.ToJSON
  simp only [readMember, D.parse_ToStr hD, Direction.fromJSON_toJSON_direction,
    BoxType.fromJSON_toJSON_boxType, ColumnScale.fromJSON_toJSON_scale]
  exact ⟨_, rfl, by simp [PF_Column.eq]⟩

theorem loadColumns_ToJSON (D : DecimalStrings) (hD : ∀ q, D.FromStr (D.ToStr q) = some q) :
    ∀ cols : List PF_Column, ∃ cols1,
      loadColumns D (cols.map (PF_Column.ToJSON D)) = Except.ok cols1 ∧
      columnsEq cols1 cols = true := by
  intro cols
  induction cols with
  | nil => exact ⟨[], rfl, rfl⟩
  | cons col rest ih =>
    obtain ⟨cols1, h1, h2⟩ := ih
    obtain ⟨col1, k1, k2⟩ := PF_Column.FromJSON_ToJSON D hD PF_Column.blank col
    refine ⟨col1 :: cols1, ?_, by simp [columnsEq, k2, h2]⟩
    simp only [List.map_cons, loadColumns, PF_Column.ofJSON, k1, h1]

theorem Boxes.FromJSON_ToJSON_boxes (D : DecimalStrings) (hD : ∀ q, D.FromStr (D.ToStr q) = some q)
    (b : Boxes) : ∃ b1, Boxes.FromJSON D (b.ToJSON D) = Except.ok b1 ∧
      b1.box_size = b.box_size ∧ b1.box_type = b.box_type ∧ b1.box_scale = b.box_scale := by
  unfold Boxes.FromJSON Boxes.ToJSON
  simp only [D.parse_ToStr hD, BoxType.fromJSON_toJSON_boxType, ColumnScale.fromJSON_toJSON_scale]
  exact ⟨_, rfl, rfl, rfl, rfl⟩

theorem unaryDecimalStrings_round_trip (q : ℚ) :
    unaryDecimalStrings.FromStr (unaryDecimalStrings.ToStr q) = some q := by
  show Encodable.decode (List.replicate (Encodable.encode q) '1').length = some q
  rw [List.length_replicate, Encodable.encodek]

/-- C10: a chart loaded from its own snapshot compares equal to the chart, and so does a
column loaded from its own snapshot, when decimal strings round-trip -/
theorem C10_snapshot_round_trip (D : DecimalStrings)
    (hD : ∀ q, D.FromStr (D.ToStr q) = some q) (c0 c : PF_Chart) :
    (∃ c1, c0.FromJSON D (c.ToJSON D) = Except.ok c1 ∧ PF_Chart.eq c1 c = true) ∧
    (∀ col0 col : PF_Column, ∃ col1,
      col0.FromJSON D (col.ToJSON D) = Except.ok col1 ∧ PF_Column.eq col1 col = true) := by
  refine ⟨?_, fun col0 col => PF_Column.FromJSON_ToJSON D hD col0 col⟩
  obtain ⟨b1, hb, hb1, hb2, hb3⟩ := Boxes.FromJSON_ToJSON_boxes D hD c.boxes_
  obtain ⟨cols1, hc, hc1⟩ := loadColumns_ToJSON D hD c.columns_
  obtain ⟨cur1, hk, hk1⟩ := PF_Column.FromJSON_ToJSON D hD PF_Column.blank c.current_column_
  have hr : cur1.reversal_boxes_ = c.current_column_.reversal_boxes_ := by
    simp only [PF_Column.eq, Bool.and_eq_true, decide_eq_true_eq] at hk1
    exact hk1.1.1.1.1.1.2.symm
  unfold PF_Chart.FromJSON PF_Chart.ToJSON
  simp only [hb, D.parse_ToStr hD, Direction.fromJSON_toJSON_direction, hc, PF_Column.ofJSON, hk]
  refine ⟨_, rfl, ?_⟩
  simp [PF_Chart.eq, PF_Chart.GetBoxSize, PF_Chart.GetReversalboxes, PF_Chart.GetBoxType,
    PF_Chart.GetBoxScale, hb1, hb2, hb3, hc1, hk1, hr]


/-! ## The properties at worked charts -/

/-- C2 fails at `chartUp` (reached from a fresh chart of box size 3 with three reversal boxes
by the prices 8 and 20) with the price 9: the up column with top 18 reports a reversal, the
successor from 15 down to 9 ignores the price, and `PF_Chart::AddValue` returns ignored. -/
theorem C2_counterexample :
    freshBox3.feed 0 [(8, 1), (20, 2)] = some chartUp ∧
    0 < chartUp.current_column_.box_size_ ∧ 1 ≤ chartUp.current_column_.reversal_boxes_ ∧
    chartUp.current_column_.AddValue 0 9 3
      = some (closedUp, Status.e_reversal, some successorDown) ∧
    successorDown.AddValue 0 9 3 = some (successorDown, Status.e_ignored, none) ∧
    chartUp.AddValue 0 9 3 = some (chartDown, Status.e_ignored) := by
  decide!

/-- C2 (amended) at `chartUp` with the price 9 at time 3. -/
theorem C2_refeed_accepted_or_ignored_witness :
    chartUp.current_column_.column_scale_ = ColumnScale.e_linear ∧
    0 < chartUp.current_column_.box_size_ ∧ 1 ≤ chartUp.current_column_.reversal_boxes_ ∧
    chartUp.current_column_.AddValue 0 9 3
      = some (closedUp, Status.e_reversal, some successorDown) ∧
    ∃ current status, successorDown.AddValue 0 9 3 = some (current, status, none) ∧
      (∃ c1, chartUp.AddValue 0 9 3 = some (c1, status) ∧ c1.current_column_ = current) ∧
      (status = Status.e_accepted ∨ status = Status.e_ignored) ∧
      (status = Status.e_accepted ↔ RefeedAccepts successorDown 9) :=
  ⟨by decide!, by decide!, by decide!, by decide!,
    C2_refeed_accepted_or_ignored 0 chartUp 9 3 closedUp successorDown
      (by decide!) (by decide!) (by decide!) (by decide!)⟩

/-- C3 fails after the prices 8, 20 and 3 on a fresh chart of box size 3 with three reversal
boxes: the reversal leaves `y_min_` at 6 while the new current column reaches down to 3; and
after the price 13 that column is closed with `y_min_` still 6. -/
theorem C3_extrema_stale_after_reversal :
    (freshBox3.feed 0 [(8, 1), (20, 2), (3, 3)]).map
        (fun c => (c.y_min_, c.current_column_.bottom_,
          decide (c.y_min_ ≤ c.current_column_.bottom_)))
      = some (6, 3, false) ∧
    (freshBox3.feed 0 [(8, 1), (20, 2), (3, 3), (13, 4)]).map
        (fun c => (c.y_min_, c.columns_.map PF_Column.bottom_,
          decide (∀ col ∈ c.columns_, c.y_min_ ≤ col.bottom_)))
      = some (6, [6, 3], false) := by
  decide!

/-- C6 fails with one reversal box: after the prices 8, 9, 6, 9 and 6 on a fresh chart of box
size 3 the two closed columns are both up, the second one having reversed in place. -/
theorem C6_counterexample :
    (1 : Int) ≤ freshOneBox.GetReversalboxes ∧
    (freshOneBox.feed 0 [(8, 1), (9, 2), (6, 3), (9, 4), (6, 5)]).map
        (fun c => c.columns_.map
          (fun col => (col.direction_, col.bottom_, col.top_, col.had_reversal_)))
      = some [(Direction.e_up, 6, 9, false), (Direction.e_up, 6, 9, true)] := by
  decide!

/-- C6 (amended) at `chartTwoClosed`, whose two closed columns are up and down. -/
theorem C6_direction_alternation_unless_step_back_witness :
    (PF_Chart.new "B3" 3 0 3 BoxType.e_integral ColumnScale.e_linear).feed 0
        [(8, 1), (20, 2), (3, 3), (13, 4)] = some chartTwoClosed ∧
    ∀ (i : Nat) (a b : PF_Column),
      chartTwoClosed.columns_[i]? = some a → chartTwoClosed.columns_[i + 1]? = some b →
      (b.had_reversal_ = false ∨ (3 : Int) ≠ 1) →
      (a.direction_ = Direction.e_up ∧ b.direction_ = Direction.e_down) ∨
      (a.direction_ = Direction.e_down ∧ b.direction_ = Direction.e_up) :=
  ⟨by decide!,
    C6_direction_alternation_unless_step_back 0 "B3" 3 0 3 BoxType.e_integral
      ColumnScale.e_linear [(8, 1), (20, 2), (3, 3), (13, 4)] chartTwoClosed (by decide!)⟩

/-- C7 at `chartOneBox`, whose second closed column reversed in place. -/
theorem C7_had_reversal_implies_one_box_witness :
    (PF_Chart.new "R1" 3 0 1 BoxType.e_integral ColumnScale.e_linear).feed 0
        [(8, 1), (9, 2), (6, 3), (9, 4), (6, 5)] = some chartOneBox ∧
    (∀ col ∈ chartOneBox.columns_, col.had_reversal_ = true → col.reversal_boxes_ = 1) ∧
    (chartOneBox.current_column_.had_reversal_ = true →
      chartOneBox.current_column_.reversal_boxes_ = 1) :=
  ⟨by decide!,
    C7_had_reversal_implies_one_box 0 "R1" 3 0 1 BoxType.e_integral ColumnScale.e_linear
      [(8, 1), (9, 2), (6, 3), (9, 4), (6, 5)] chartOneBox (by decide!)⟩

/-- C8 at `chartUp`: the price 9 at time 3 is ignored by the chart (after a reversal), and
the same price at time 9 is ignored again and changes nothing. -/
theorem C8_ignored_idempotence_witness :
    chartUp.AddValue 0 9 3 = some (chartDown, Status.e_ignored) ∧
    chartDown.AddValue 0 9 9 = some (chartDown, Status.e_ignored) :=
  ⟨by decide!, C8_ignored_idempotence 0 chartUp chartDown 9 3 9 (by decide!)⟩

/-- C9 at the prices 8, 20 and 9 fed at two different sequences of times. -/
theorem C9_replay_determinism_ignores_time_witness :
    ([(8, 1), (20, 2), (9, 3)] : List (ℚ × tpt)).map Prod.fst
      = ([(8, 100), (20, 250), (9, 777)] : List (ℚ × tpt)).map Prod.fst ∧
    (PF_Chart.new "B3" 3 0 3 BoxType.e_integral ColumnScale.e_linear).feed 0
        [(8, 1), (20, 2), (9, 3)] = some chartDown ∧
    (PF_Chart.new "B3" 3 0 3 BoxType.e_integral ColumnScale.e_linear).feed 0
        [(8, 100), (20, 250), (9, 777)] = some chartDownLater ∧
    PF_Chart.eq chartDown chartDownLater = true :=
  ⟨by decide!, by decide!, by decide!,
    C9_replay_determinism_ignores_time 0 0 "B3" 3 0 3 BoxType.e_integral ColumnScale.e_linear
      [(8, 1), (20, 2), (9, 3)] [(8, 100), (20, 250), (9, 777)] chartDown chartDownLater
      (by decide!) (by decide!) (by decide!)⟩

/-- C10 at `chartDown` with the unary decimal strings, loading into a fresh chart. -/
theorem C10_snapshot_round_trip_witness :
    (∀ q, unaryDecimalStrings.FromStr (unaryDecimalStrings.ToStr q) = some q) ∧
    (∃ c1, freshBox3.FromJSON unaryDecimalStrings (chartDown.ToJSON unaryDecimalStrings)
        = Except.ok c1 ∧ PF_Chart.eq c1 chartDown = true) ∧
    (∀ col0 col : PF_Column, ∃ col1,
      col0.FromJSON unaryDecimalStrings (col.ToJSON unaryDecimalStrings) = Except.ok col1 ∧
      PF_Column.eq col1 col = true) :=
  ⟨unaryDecimalStrings_round_trip,
    C10_snapshot_round_trip unaryDecimalStrings unaryDecimalStrings_round_trip freshBox3
      chartDown⟩

/-! ## Linear scale: decisions of a single call -/


theorem ToIntTruncated_bounds_of_nonneg {x : ℚ} (h : 0 ≤ x) :
    (ToIntTruncated x : ℚ) ≤ x ∧ x < (ToIntTruncated x : ℚ) + 1 := by
  unfold ToIntTruncated
  rw [if_pos h]
  exact ⟨Int.floor_le x, Int.lt_floor_add_one x⟩

theorem ToIntTruncated_bounds_of_nonpos {x : ℚ} (h : x ≤ 0) :
    x ≤ (ToIntTruncated x : ℚ) ∧ (ToIntTruncated x : ℚ) < x + 1 := by
  unfold ToIntTruncated
  split_ifs with h0
  · have hx : x = 0 := le_antisymm h h0
    subst hx
    simp
  · have h1 := Int.floor_le (-x)
    have h2 := Int.lt_floor_add_one (-x)
    push_cast
    constructor <;> linarith

/-- Advancing the top by `ToIntTruncated ((v − top) / box)` boxes lands on the highest box
that is not above `v`. -/
theorem advance_top_bounds {v top box : ℚ} (hb : 0 < box) (hv : top + box ≤ v) :
    1 ≤ ToIntTruncated ((v - top) / box) ∧
    top + (ToIntTruncated ((v - top) / box) : ℚ) * box ≤ v ∧
    v < top + (ToIntTruncated ((v - top) / box) : ℚ) * box + box := by
  have hq : 1 ≤ (v - top) / box := div_ge_one hb (by linarith)
  obtain ⟨h1, h2⟩ := ToIntTruncated_bounds_of_nonneg (by linarith : 0 ≤ (v - top) / box)
  refine ⟨ToIntTruncated_pos hq, ?_, ?_⟩
  · have := mul_le_mul_of_nonneg_right h1 hb.le
    rw [div_mul_cancel₀ _ hb.ne'] at this
    linarith
  · have := mul_lt_mul_of_pos_right h2 hb
    rw [div_mul_cancel₀ _ hb.ne'] at this
    linarith

/-- Lowering the bottom by `ToIntTruncated ((v − bottom) / box)` boxes lands on the lowest box
that is not below `v`. -/
theorem lower_bottom_bounds {v bottom box : ℚ} (hb : 0 < box) (hv : v ≤ bottom - box) :
    ToIntTruncated ((v - bottom) / box) ≤ -1 ∧
    v ≤ bottom + (ToIntTruncated ((v - bottom) / box) : ℚ) * box ∧
    bottom + (ToIntTruncated ((v - bottom) / box) : ℚ) * box - box < v := by
  have hq : (v - bottom) / box ≤ -1 := div_le_neg_one hb (by linarith)
  obtain ⟨h1, h2⟩ := ToIntTruncated_bounds_of_nonpos (by linarith : (v - bottom) / box ≤ 0)
  refine ⟨ToIntTruncated_neg hq, ?_, ?_⟩
  · have := mul_le_mul_of_nonneg_right h1 hb.le
    rw [div_mul_cancel₀ _ hb.ne'] at this
    linarith
  · have := mul_lt_mul_of_pos_right h2 hb
    rw [add_mul, div_mul_cancel₀ _ hb.ne'] at this
    linarith

theorem PF_Column.AddValue_up_eq (fuel : Nat) (c : PF_Column) (p : ℚ) (t : tpt)
    (hlin : c.column_scale_ = ColumnScale.e_linear)
    (hne : ¬ (c.top_ = -1 ∧ c.bottom_ = -1)) (hd : c.direction_ = Direction.e_up) :
    c.AddValue fuel p t = some (c.TryToExtendUp (c.possibleValue p) t) := by
  rw [c.AddValue_linear_eq fuel p t (by simp [hlin]), if_neg hne, if_neg (by simp [hd]), if_pos hd]

theorem PF_Column.AddValue_down_eq (fuel : Nat) (c : PF_Column) (p : ℚ) (t : tpt)
    (hlin : c.column_scale_ = ColumnScale.e_linear)
    (hne : ¬ (c.top_ = -1 ∧ c.bottom_ = -1)) (hd : c.direction_ = Direction.e_down) :
    c.AddValue fuel p t = some (c.TryToExtendDown (c.possibleValue p) t) := by
  rw [c.AddValue_linear_eq fuel p t (by simp [hlin]), if_neg hne, if_neg (by simp [hd]),
    if_neg (by simp [hd])]

theorem PF_Column.AddValue_unknown_eq (fuel : Nat) (c : PF_Column) (p : ℚ) (t : tpt)
    (hlin : c.column_scale_ = ColumnScale.e_linear)
    (hne : ¬ (c.top_ = -1 ∧ c.bottom_ = -1)) (hd : c.direction_ = Direction.e_unknown) :
    c.AddValue fuel p t = some (c.TryToFindDirection (c.possibleValue p) t) := by
  rw [c.AddValue_linear_eq fuel p t (by simp [hlin]), if_neg hne, if_pos hd]

/-- C19 (amended): on the linear scale a non-empty up or unknown column fed a box-adjusted
price at least one box above its top, and so few boxes above it that `int how_many_boxes`
holds their count (at most 2^31 − 1), accepts it, keeps its bottom and moves its top to the
highest box not above the price -/
theorem C19_gap_advance_of_nonempty_column (fuel : Nat) (c : PF_Column) (price : ℚ) (time : tpt)
    (hlin : c.column_scale_ = ColumnScale.e_linear) (hb : 0 < c.box_size_)
    (hne : ¬ (c.top_ = -1 ∧ c.bottom_ = -1))
    (hd : c.direction_ = Direction.e_up ∨ c.direction_ = Direction.e_unknown)
    (hv : c.possibleValue price ≥ c.top_ + c.box_size_)
    (hf : FitsInt32 (ToIntTruncated ((c.possibleValue price - c.top_) / c.box_size_))) :
    ∃ col, c.AddValue fuel price time = some (col, Status.e_accepted, none) ∧
      col.bottom_ = c.bottom_ ∧ col.direction_ = Direction.e_up ∧
      (∃ k : Int, 1 ≤ k ∧ col.top_ = c.top_ + (k : ℚ) * c.box_size_) ∧
      col.top_ ≤ c.possibleValue price ∧ c.possibleValue price < col.top_ + c.box_size_ ∧
      (c.possibleValue price = c.top_ + c.box_size_ → col.top_ = c.top_ + c.box_size_) := by
  obtain ⟨k1, k2, k3⟩ := advance_top_bounds hb hv
  have hlast : c.possibleValue price = c.top_ + c.box_size_ →
      c.top_ + (ToIntTruncated ((c.possibleValue price - c.top_) / c.box_size_) : ℚ)
        * c.box_size_ = c.top_ + c.box_size_ := by
    intro he
    have hk : ToIntTruncated ((c.possibleValue price - c.top_) / c.box_size_) = 1 := by
      rw [he, add_sub_cancel_left, div_self hb.ne']
      have := ToIntTruncated_natCast 1
      simpa using this
    rw [hk]
    simp
  rcases hd with hd | hd
  · rw [c.AddValue_up_eq fuel price time hlin hne hd]
    unfold PF_Column.TryToExtendUp
    rw [if_pos hv, toInt32_of_fits hf]
    exact ⟨_, rfl, rfl, hd, ⟨_, k1, rfl⟩, k2, k3, hlast⟩
  · rw [c.AddValue_unknown_eq fuel price time hlin hne hd]
    unfold PF_Column.TryToFindDirection
    rw [if_pos hv, toInt32_of_fits hf]
    exact ⟨_, rfl, rfl, rfl, ⟨_, k1, rfl⟩, k2, k3, hlast⟩

/-- C20: on the linear scale a non-empty up column ignores a box-adjusted price, unchanged,
exactly when the price lies strictly between the reversal threshold and one box above the
top, and with two or more reversal boxes it reports a reversal exactly at or below the
threshold -/
theorem C20_up_column_decision_boundaries (fuel : Nat) (c : PF_Column) (price : ℚ) (time : tpt)
    (hlin : c.column_scale_ = ColumnScale.e_linear) (hb : 0 < c.box_size_)
    (hr : 1 ≤ c.reversal_boxes_) (hne : ¬ (c.top_ = -1 ∧ c.bottom_ = -1))
    (hd : c.direction_ = Direction.e_up) :
    ∃ col status successor, c.AddValue fuel price time = some (col, status, successor) ∧
      ((status = Status.e_ignored ∧ col = c) ↔
        (c.top_ - (c.reversal_boxes_ : ℚ) * c.box_size_ < c.possibleValue price ∧
          c.possibleValue price < c.top_ + c.box_size_)) ∧
      (status = Status.e_ignored → col = c ∧ successor = none) ∧
      (2 ≤ c.reversal_boxes_ →
        (status = Status.e_reversal ↔
          c.possibleValue price ≤ c.top_ - (c.reversal_boxes_ : ℚ) * c.box_size_)) := by
  rw [c.AddValue_up_eq fuel price time hlin hne hd]
  have hrb : 0 < c.box_size_ * (c.reversal_boxes_ : ℚ) :=
    mul_pos hb (by exact_mod_cast (by omega : 0 < c.reversal_boxes_))
  unfold PF_Column.TryToExtendUp
  by_cases h1 : c.possibleValue price ≥ c.top_ + c.box_size_
  · rw [if_pos h1]
    refine ⟨_, _, _, rfl, ?_, by simp, fun _ => ?_⟩
    · constructor
      · rintro ⟨h, -⟩
        simp at h
      · rintro ⟨-, h⟩
        linarith
    · constructor
      · intro h
        simp at h
      · intro h
        linarith
  · rw [if_neg h1]
    by_cases h2 : c.possibleValue price ≤ c.top_ - c.box_size_ * (c.reversal_boxes_ : ℚ)
    · rw [if_pos h2]
      by_cases h3 : c.reversal_boxes_ = 1
      · rw [if_pos h3]
        by_cases h4 : c.bottom_ ≤ c.top_ - c.box_size_
        · rw [if_pos h4]
          refine ⟨_, _, _, rfl, ?_, by simp, fun h => by omega⟩
          constructor
          · rintro ⟨h, -⟩
            simp at h
          · rintro ⟨h, -⟩
            linarith
        · rw [if_neg h4]
          refine ⟨_, _, _, rfl, ?_, by simp, fun h => by omega⟩
          constructor
          · rintro ⟨h, -⟩
            simp at h
          · rintro ⟨h, -⟩
            linarith
      · rw [if_neg h3]
        refine ⟨_, _, _, rfl, ?_, by simp, fun _ => ?_⟩
        · constructor
          · rintro ⟨h, -⟩
            simp at h
          · rintro ⟨h, -⟩
            linarith
        · constructor
          · intro _
            linarith
          · intro _
            rfl
    · rw [if_neg h2]
      refine ⟨_, _, _, rfl, ?_, by simp, fun _ => ?_⟩
      · constructor
        · intro _
          push_neg at h1 h2
          exact ⟨by linarith, h1⟩
        · intro _
          exact ⟨rfl, rfl⟩
      · constructor
        · intro h
          simp at h
        · intro h
          exact absurd (by linarith) h2


/-- C18 (amended): on the linear scale the successor returned by an up column that reports
a reversal is a down column whose top is one box below the parent's top and whose bottom is
the reversal threshold -/
theorem C18_successor_seeding_linear (fuel : Nat) (c col : PF_Column) (price : ℚ) (time : tpt)
    (new_col : Option PF_Column)
    (hlin : c.column_scale_ = ColumnScale.e_linear) (hd : c.direction_ = Direction.e_up)
    (h : c.AddValue fuel price time = some (col, Status.e_reversal, new_col)) :
    ∃ s, new_col = some s ∧ s.direction_ = Direction.e_down ∧
      s.top_ = c.top_ - c.box_size_ ∧
      s.bottom_ = (if c.reversal_boxes_ = 1 then c.top_ - c.box_size_
        else c.top_ - c.box_size_ * (c.reversal_boxes_ : ℚ)) ∧
      s.time_span_ = (time, time) := by
  have hm := fun w =>
    PF_Column.MakeReversalColumn_fields { c with time_span_ := (c.time_span_.1, time) }
      Direction.e_down w time
  by_cases hne : c.top_ = -1 ∧ c.bottom_ = -1
  · rw [c.AddValue_linear_eq fuel price time (by simp [hlin]), if_pos hne] at h
    simp [PF_Column.StartColumn] at h
  · rw [c.AddValue_up_eq fuel price time hlin hne hd] at h
    unfold PF_Column.TryToExtendUp at h
    split_ifs at h with h1 h2 h3 h4
    · simp at h
    · simp only [Option.some.injEq, Prod.mk.injEq, true_and] at h
      obtain ⟨-, a2, -, a4, a5, a6⟩ := hm (c.top_ - c.box_size_)
      simp only [if_true] at a5 a6
      exact ⟨_, h.2.symm, a2, a5, by rw [if_pos h3]; exact a6, a4⟩
    · simp at h
    · simp only [Option.some.injEq, Prod.mk.injEq, true_and] at h
      obtain ⟨-, a2, -, a4, a5, a6⟩ := hm (c.top_ - c.box_size_ * (c.reversal_boxes_ : ℚ))
      simp only [if_true] at a5 a6
      exact ⟨_, h.2.symm, a2, a5, by rw [if_neg h3]; exact a6, a4⟩
    · simp at h

/-- C16 (amended): with one reversal box a non-empty up column that holds a single box
(`top − bottom` less than the box size) reverses in place when the box-adjusted price is at
least one box below its top -/
theorem C16_one_step_back_in_place (fuel : Nat) (c : PF_Chart) (price : ℚ) (time : tpt)
    (hlin : c.current_column_.column_scale_ = ColumnScale.e_linear)
    (hb : 0 < c.current_column_.box_size_)
    (hr : c.current_column_.reversal_boxes_ = 1)
    (hd : c.current_column_.direction_ = Direction.e_up)
    (hne : ¬ (c.current_column_.top_ = -1 ∧ c.current_column_.bottom_ = -1))
    (hone : c.current_column_.top_ - c.current_column_.bottom_ < c.current_column_.box_size_)
    (hv : c.current_column_.possibleValue price
      ≤ c.current_column_.top_ - c.current_column_.box_size_) :
    ∃ c1, c.AddValue fuel price time = some (c1, Status.e_accepted) ∧
      c1.columns_ = c.columns_ ∧ c1.GetNumberOfColumns = c.GetNumberOfColumns ∧
      c1.current_column_.direction_ = Direction.e_down ∧
      c1.current_column_.had_reversal_ = true ∧
      c1.current_column_.top_ = c.current_column_.top_ := by
  have hcol := c.current_column_.AddValue_up_eq fuel price time hlin hne hd
  unfold PF_Column.TryToExtendUp at hcol
  rw [if_neg (by linarith), if_pos (by rw [hr]; simpa using hv), if_pos hr,
    if_neg (by linarith)] at hcol
  exact ⟨_, c.AddValue_of_accepted fuel price time _ _ hcol, rfl, rfl, rfl, rfl, rfl⟩

/-- C14 (amended): on the linear scale with two or more reversal boxes, an up column fed a
box-adjusted price between 0 and the reversal threshold, and so few boxes below the threshold
that `int how_many_boxes` holds their count (at most 2^31), is closed unchanged and a down
column one box below its top, reaching down to the lowest box not below the price, becomes
current -/
theorem C14_reversal_starts_down_column (fuel : Nat) (c : PF_Chart) (price : ℚ) (time : tpt)
    (hlin : c.current_column_.column_scale_ = ColumnScale.e_linear)
    (hb : 0 < c.current_column_.box_size_)
    (hr : 2 ≤ c.current_column_.reversal_boxes_)
    (hd : c.current_column_.direction_ = Direction.e_up)
    (hv0 : 0 ≤ c.current_column_.possibleValue price)
    (hv : c.current_column_.possibleValue price
      ≤ c.current_column_.top_
        - (c.current_column_.reversal_boxes_ : ℚ) * c.current_column_.box_size_)
    (hf : FitsInt32 (ToIntTruncated ((c.current_column_.possibleValue price
      - (c.current_column_.top_
        - c.current_column_.box_size_ * (c.current_column_.reversal_boxes_ : ℚ)))
      / c.current_column_.box_size_))) :
    ∃ c1 status closed, c.AddValue fuel price time = some (c1, status) ∧
      c1.GetNumberOfColumns = c.GetNumberOfColumns + 1 ∧
      c1.columns_ = c.columns_ ++ [closed] ∧
      closed.top_ = c.current_column_.top_ ∧ closed.bottom_ = c.current_column_.bottom_ ∧
      closed.direction_ = Direction.e_up ∧
      c1.current_column_.direction_ = Direction.e_down ∧
      c1.current_column_.top_ = c.current_column_.top_ - c.current_column_.box_size_ ∧
      (∃ k : Int, c.current_column_.reversal_boxes_ ≤ k ∧
        c1.current_column_.bottom_
          = c.current_column_.top_ - (k : ℚ) * c.current_column_.box_size_) ∧
      c.current_column_.possibleValue price ≤ c1.current_column_.bottom_ ∧
      (∀ j : Int, c.current_column_.reversal_boxes_ ≤ j →
        c.current_column_.possibleValue price
          ≤ c.current_column_.top_ - (j : ℚ) * c.current_column_.box_size_ →
        c1.current_column_.bottom_
          ≤ c.current_column_.top_ - (j : ℚ) * c.current_column_.box_size_) := by
  set cur := c.current_column_ with hcur
  set v := cur.possibleValue price with hvdef
  have hr2 : (2 : ℚ) ≤ (cur.reversal_boxes_ : ℚ) := by exact_mod_cast hr
  have hrb : 2 * cur.box_size_ ≤ (cur.reversal_boxes_ : ℚ) * cur.box_size_ :=
    mul_le_mul_of_nonneg_right hr2 hb.le
  have hne : ¬ (cur.top_ = -1 ∧ cur.bottom_ = -1) := by
    rintro ⟨h1, -⟩
    linarith
  have hcol := cur.AddValue_up_eq fuel price time hlin hne hd
  unfold PF_Column.TryToExtendUp at hcol
  rw [if_neg (by rw [← hvdef]; linarith),
    if_pos (by rw [← hvdef, mul_comm]; exact hv), if_neg (by omega)] at hcol
  obtain ⟨a1, a2, -, -, a5, a6⟩ :=
    PF_Column.MakeReversalColumn_fields { cur with time_span_ := (cur.time_span_.1, time) }
      Direction.e_down (cur.top_ - cur.box_size_ * (cur.reversal_boxes_ : ℚ)) time
  simp only [if_true] at a5 a6
  set s := PF_Column.MakeReversalColumn { cur with time_span_ := (cur.time_span_.1, time) }
      Direction.e_down (cur.top_ - cur.box_size_ * (cur.reversal_boxes_ : ℚ)) time with hsdef
  have hsbox : s.box_size_ = cur.box_size_ := a1.1
  have hsr : s.reversal_boxes_ = cur.reversal_boxes_ := a1.2.2.1
  have hslin : s.column_scale_ = ColumnScale.e_linear := a1.2.2.2.2.trans hlin
  have hsv : s.possibleValue price = v := PF_Column.possibleValue_congr a1 price
  have hsne : ¬ (s.top_ = -1 ∧ s.bottom_ = -1) := by
    rintro ⟨h1, h2⟩
    rw [a5] at h1
    rw [a6] at h2
    have e1 : cur.top_ - cur.box_size_ = cur.top_ - cur.box_size_ * (cur.reversal_boxes_ : ℚ) :=
      h1.trans h2.symm
    nlinarith
  have hs := s.AddValue_down_eq fuel price time hslin hsne a2
  have hchart := c.AddValue_of_reversal fuel price time _ s hcol
  rw [hs] at hchart
  unfold PF_Column.TryToExtendDown at hchart
  rw [hsv, hsbox, hsr, a6] at hchart
  by_cases h3 : v ≤ cur.top_ - cur.box_size_ * (cur.reversal_boxes_ : ℚ) - cur.box_size_
  · rw [if_pos h3, toInt32_of_fits hf] at hchart
    obtain ⟨k1, k2, k3⟩ := lower_bottom_bounds hb h3
    set m := ToIntTruncated
      ((v - (cur.top_ - cur.box_size_ * (cur.reversal_boxes_ : ℚ))) / cur.box_size_) with hm
    refine ⟨_, _, _, hchart, ?_, rfl, rfl, rfl, hd, a2, a5,
      ⟨cur.reversal_boxes_ - m, by omega, ?_⟩, k2, ?_⟩
    · simp [PF_Chart.GetNumberOfColumns]
    · show cur.top_ - cur.box_size_ * (cur.reversal_boxes_ : ℚ) + (m : ℚ) * cur.box_size_ = _
      push_cast
      ring
    · intro j hj hjv
      show cur.top_ - cur.box_size_ * (cur.reversal_boxes_ : ℚ) + (m : ℚ) * cur.box_size_ ≤ _
      have hlt : (j : ℚ) < (cur.reversal_boxes_ : ℚ) - (m : ℚ) + 1 := by
        by_contra hcon
        push_neg at hcon
        have := mul_le_mul_of_nonneg_right hcon hb.le
        nlinarith
      have hle : j ≤ cur.reversal_boxes_ - m := by
        have : (j : ℚ) < ((cur.reversal_boxes_ - m + 1 : Int) : ℚ) := by
          push_cast
          exact hlt
        have := Int.cast_lt.mp this
        omega
      have hleq : (j : ℚ) ≤ (cur.reversal_boxes_ : ℚ) - (m : ℚ) := by exact_mod_cast hle
      have := mul_le_mul_of_nonneg_right hleq hb.le
      nlinarith
  · have hrbpos : 0 < cur.box_size_ * (cur.reversal_boxes_ : ℚ) := by nlinarith
    rw [if_neg h3, if_neg (by rw [mul_comm] at hv; linarith)] at hchart
    refine ⟨_, _, _, hchart, ?_, rfl, rfl, rfl, hd, a2, a5,
      ⟨cur.reversal_boxes_, le_refl _, ?_⟩, ?_, ?_⟩
    · simp [PF_Chart.GetNumberOfColumns]
    · show s.bottom_ = _
      rw [a6]
      ring
    · show v ≤ s.bottom_
      rw [a6, mul_comm]
      exact hv
    · intro j hj hjv
      show s.bottom_ ≤ _
      rw [a6]
      push_neg at h3
      have hlt : (j : ℚ) < (cur.reversal_boxes_ : ℚ) + 1 := by
        by_contra hcon
        push_neg at hcon
        have := mul_le_mul_of_nonneg_right hcon hb.le
        nlinarith
      have hle : j ≤ cur.reversal_boxes_ := by
        have : (j : ℚ) < ((cur.reversal_boxes_ + 1 : Int) : ℚ) := by
          push_cast
          exact hlt
        have := Int.cast_lt.mp this
        omega
      have hleq : (j : ℚ) ≤ (cur.reversal_boxes_ : ℚ) := by exact_mod_cast hle
      have := mul_le_mul_of_nonneg_right hleq hb.le
      nlinarith


/-! ## Snapshots: failures and restored columns -/


theorem DecimalStrings.parse_eq_error_iff (D : DecimalStrings) (s : String) :
    (∃ e, D.parse s = Except.error e) ↔ D.FromStr s = none := by
  unfold DecimalStrings.parse
  cases D.FromStr s <;> simp

theorem DecimalStrings.parse_of_some (D : DecimalStrings) (s : String) (q : ℚ)
    (h : D.FromStr s = some q) : D.parse s = Except.ok q := by
  unfold DecimalStrings.parse
  rw [h]

theorem DecimalStrings.parse_of_none (D : DecimalStrings) (s : String)
    (h : D.FromStr s = none) : D.parse s = Except.error (SnapshotError.malformedDecimal s) := by
  unfold DecimalStrings.parse
  rw [h]

theorem direction_fromJSON_of_not_mem (s : String) (h : s ∉ ["up", "down", "unknown"]) :
    Direction.fromJSON s = Except.error (SnapshotError.invalidDirection s) := by
  simp only [List.mem_cons, List.mem_singleton, List.not_mem_nil, or_false, not_or] at h
  unfold Direction.fromJSON
  rw [if_neg h.1, if_neg h.2.1, if_neg h.2.2]

theorem direction_fromJSON_of_mem (s : String) (h : s ∈ ["up", "down", "unknown"]) :
    ∃ d, Direction.fromJSON s = Except.ok d := by
  unfold Direction.fromJSON
  split_ifs
  · exact ⟨_, rfl⟩
  · exact ⟨_, rfl⟩
  · exact ⟨_, rfl⟩
  · simp_all

theorem boxType_fromJSON_of_not_mem (s : String) (h : s ∉ ["integral", "fractional"]) :
    BoxType.fromJSON s = Except.error (SnapshotError.invalidBoxType s) := by
  simp only [List.mem_cons, List.mem_singleton, List.not_mem_nil, or_false, not_or] at h
  unfold BoxType.fromJSON
  rw [if_neg h.1, if_neg h.2]

theorem boxType_fromJSON_of_mem (s : String) (h : s ∈ ["integral", "fractional"]) :
    ∃ d, BoxType.fromJSON s = Except.ok d := by
  unfold BoxType.fromJSON
  split_ifs
  · exact ⟨_, rfl⟩
  · exact ⟨_, rfl⟩
  · simp_all

theorem columnScale_fromJSON_of_not_mem (s : String) (h : s ∉ ["linear", "percent"]) :
    ColumnScale.fromJSON s = Except.error (SnapshotError.invalidColumnScale s) := by
  simp only [List.mem_cons, List.mem_singleton, List.not_mem_nil, or_false, not_or] at h
  unfold ColumnScale.fromJSON
  rw [if_neg h.1, if_neg h.2]

theorem columnScale_fromJSON_of_mem (s : String) (h : s ∈ ["linear", "percent"]) :
    ∃ d, ColumnScale.fromJSON s = Except.ok d := by
  unfold ColumnScale.fromJSON
  split_ifs
  · exact ⟨_, rfl⟩
  · exact ⟨_, rfl⟩
  · simp_all

theorem PF_Chart.FromJSON_of_invalid_direction (D : DecimalStrings) (c : PF_Chart)
    (j : ChartJSON) (h : j.current_direction ∉ ["up", "down", "unknown"]) :
    ∃ e, c.FromJSON D j = Except.error e := by
  unfold PF_Chart.FromJSON
  rw [direction_fromJSON_of_not_mem _ h]
  cases Boxes.FromJSON D j.boxes with
  | error e => exact ⟨e, rfl⟩
  | ok b =>
    cases D.parse j.y_min with
    | error e => exact ⟨e, rfl⟩
    | ok q1 =>
      cases D.parse j.y_max with
      | error e => exact ⟨e, rfl⟩
      | ok q2 => exact ⟨_, rfl⟩

/-- A result is a value exactly when it is not a failure. -/
theorem except_ok_or_error {ε α : Type} (r : Except ε α) :
    (∃ a, r = Except.ok a) ↔ ¬ ∃ e, r = Except.error e := by
  cases r <;> simp

/-- `PF_Column::FromJSON` returns a column exactly when every read converts its member, the
three decimal strings parse and the three enumerated strings are valid. -/
theorem PF_Column.FromJSON_isOk_iff (D : DecimalStrings) (c : PF_Column) (j : ColumnJSON) :
    (∃ col, c.FromJSON D j = Except.ok col) ↔
      (j.start_at ≠ none ∧ j.last_entry ≠ none ∧ j.box_size.bind D.FromStr ≠ none ∧
        j.reversal_boxes ≠ none ∧ j.bottom.bind D.FromStr ≠ none ∧
        j.top.bind D.FromStr ≠ none ∧
        j.direction ∈ [some "up", some "down", some "unknown"] ∧
        j.box_type ∈ [some "integral", some "fractional"] ∧
        j.column_scale ∈ [some "linear", some "percent"] ∧ j.had_reversal ≠ none) := by
  obtain ⟨sa, le, bs, rb, bo, tp, di, bt, cs, hr⟩ := j
  unfold PF_Column.FromJSON
  cases sa
  · simp [readMember]
  cases le
  · simp [readMember]
  cases bs with
  | none => simp [readMember]
  | some bs =>
  cases h1 : D.FromStr bs with
  | none => simp [readMember, D.parse_of_none _ h1, h1]
  | some q1 =>
  cases rb
  · simp [readMember, D.parse_of_some _ _ h1]
  cases bo with
  | none => simp [readMember, D.parse_of_some _ _ h1]
  | some bo =>
  cases h2 : D.FromStr bo with
  | none => simp [readMember, D.parse_of_some _ _ h1, D.parse_of_none _ h2, h2]
  | some q2 =>
  cases tp with
  | none => simp [readMember, D.parse_of_some _ _ h1, D.parse_of_some _ _ h2]
  | some tp =>
  cases h3 : D.FromStr tp with
  | none =>
    simp [readMember, D.parse_of_some _ _ h1, D.parse_of_some _ _ h2, D.parse_of_none _ h3, h3]
  | some q3 =>
  simp only [readMember, D.parse_of_some _ _ h1, D.parse_of_some _ _ h2,
    D.parse_of_some _ _ h3]
  cases di with
  | none => simp
  | some di =>
  dsimp only
  by_cases hd : di ∈ ["up", "down", "unknown"]
  swap
  · rw [direction_fromJSON_of_not_mem _ hd]
    simp only [List.mem_cons, List.mem_singleton, List.not_mem_nil, or_false] at hd
    simp [hd]
  obtain ⟨d, hd1⟩ := direction_fromJSON_of_mem _ hd
  simp only [hd1]
  cases bt with
  | none => simp
  | some bt =>
  dsimp only
  by_cases hb : bt ∈ ["integral", "fractional"]
  swap
  · rw [boxType_fromJSON_of_not_mem _ hb]
    simp only [List.mem_cons, List.mem_singleton, List.not_mem_nil, or_false] at hb
    simp [hb]
  obtain ⟨b, hb1⟩ := boxType_fromJSON_of_mem _ hb
  simp only [hb1]
  cases cs with
  | none => simp
  | some cs =>
  dsimp only
  by_cases hs : cs ∈ ["linear", "percent"]
  swap
  · rw [columnScale_fromJSON_of_not_mem _ hs]
    simp only [List.mem_cons, List.mem_singleton, List.not_mem_nil, or_false] at hs
    simp [hs]
  obtain ⟨s, hs1⟩ := columnScale_fromJSON_of_mem _ hs
  simp only [hs1]
  simp only [List.mem_cons, List.mem_singleton, List.not_mem_nil, or_false] at hd hb hs
  cases hr with
  | none => simp
  | some hr => simp [hd, hb, hs, h1, h2, h3]


/-- When the members before the direction load, a direction string that is not a direction
fails with the error that carries it. -/
theorem PF_Column.FromJSON_invalid_direction_error (D : DecimalStrings) (c : PF_Column)
    (j : ColumnJSON) (s : String)
    (h : j.start_at ≠ none ∧ j.last_entry ≠ none ∧ j.box_size.bind D.FromStr ≠ none ∧
      j.reversal_boxes ≠ none ∧ j.bottom.bind D.FromStr ≠ none ∧ j.top.bind D.FromStr ≠ none)
    (hd : j.direction = some s) (hs : s ∉ ["up", "down", "unknown"]) :
    c.FromJSON D j = Except.error (SnapshotError.invalidDirection s) := by
  obtain ⟨sa, le, bs, rb, bo, tp, di, bt, cs, hr⟩ := j
  obtain ⟨g1, g2, g3, g4, g5, g6⟩ := h
  simp only at g1 g2 g3 g4 g5 g6 hd
  subst hd
  unfold PF_Column.FromJSON
  cases sa with
  | none => exact absurd rfl g1
  | some sa =>
  cases le with
  | none => exact absurd rfl g2
  | some le =>
  cases bs with
  | none => exact absurd rfl g3
  | some bs =>
  cases h1 : D.FromStr bs with
  | none => exact absurd (by simp [h1]) g3
  | some q1 =>
  cases rb with
  | none => exact absurd rfl g4
  | some rb =>
  cases bo with
  | none => exact absurd rfl g5
  | some bo =>
  cases h2 : D.FromStr bo with
  | none => exact absurd (by simp [h2]) g5
  | some q2 =>
  cases tp with
  | none => exact absurd rfl g6
  | some tp =>
  cases h3 : D.FromStr tp with
  | none => exact absurd (by simp [h3]) g6
  | some q3 =>
  simp only [readMember, D.parse_of_some _ _ h1, D.parse_of_some _ _ h2,
    D.parse_of_some _ _ h3, direction_fromJSON_of_not_mem _ hs]

/-- C12 (amended): `PF_Column::FromJSON` fails exactly when a read cannot convert its member,
a decimal string does not parse or an enumerated string is not one of its values; when the
integers and the boolean are converted and the decimal strings parse, it fails exactly when
an enumerated member is not one of its strings, and a direction string that is not a
direction fails with the error that carries the string; and `PF_Chart::FromJSON` fails
whenever `current_direction` is not a direction -/
theorem C12_snapshot_failures (D : DecimalStrings) (c : PF_Column) (new_data : ColumnJSON)
    (chart : PF_Chart) (chart_data : ChartJSON) :
    ((∃ e, c.FromJSON D new_data = Except.error e) ↔
      (new_data.start_at = none ∨ new_data.last_entry = none ∨
        new_data.box_size.bind D.FromStr = none ∨ new_data.reversal_boxes = none ∨
        new_data.bottom.bind D.FromStr = none ∨ new_data.top.bind D.FromStr = none ∨
        new_data.direction ∉ [some "up", some "down", some "unknown"] ∨
        new_data.box_type ∉ [some "integral", some "fractional"] ∨
        new_data.column_scale ∉ [some "linear", some "percent"] ∨
        new_data.had_reversal = none)) ∧
    ((new_data.start_at ≠ none ∧ new_data.last_entry ≠ none ∧
        new_data.box_size.bind D.FromStr ≠ none ∧ new_data.reversal_boxes ≠ none ∧
        new_data.bottom.bind D.FromStr ≠ none ∧ new_data.top.bind D.FromStr ≠ none ∧
        new_data.had_reversal ≠ none) →
      ((∃ e, c.FromJSON D new_data = Except.error e) ↔
        (new_data.direction ∉ [some "up", some "down", some "unknown"] ∨
          new_data.box_type ∉ [some "integral", some "fractional"] ∨
          new_data.column_scale ∉ [some "linear", some "percent"])) ∧
      (∀ s, new_data.direction = some s → s ∉ ["up", "down", "unknown"] →
        c.FromJSON D new_data = Except.error (SnapshotError.invalidDirection s))) ∧
    (chart_data.current_direction ∉ ["up", "down", "unknown"] →
      ∃ e, chart.FromJSON D chart_data = Except.error e) := by
  have hok := c.FromJSON_isOk_iff D new_data
  have hne : (∃ e, c.FromJSON D new_data = Except.error e) ↔
      ¬ ∃ col, c.FromJSON D new_data = Except.ok col := by
    rw [except_ok_or_error]
    exact not_not.symm
  refine ⟨?_, ?_, PF_Chart.FromJSON_of_invalid_direction D chart chart_data⟩
  · rw [hne, hok]
    tauto
  · rintro ⟨g1, g2, g3, g4, g5, g6, g7⟩
    refine ⟨?_, fun s hd hs =>
      c.FromJSON_invalid_direction_error D new_data s ⟨g1, g2, g3, g4, g5, g6⟩ hd hs⟩
    rw [hne, hok]
    tauto

/-- Loading the snapshot of `col` into `c0` gives `restoredInto`, when decimal strings
round-trip. -/
theorem PF_Column.FromJSON_ToJSON_value (D : DecimalStrings)
    (hD : ∀ q, D.FromStr (D.ToStr q) = some q) (c0 col : PF_Column) :
    c0.FromJSON D (col.ToJSON D) = Except.ok (PF_Column.restoredInto D c0 col) := by
  unfold PF_Column.FromJSON PF_Column.ToJSON PF_Column.restoredInto
  simp only [readMember, D.parse_ToStr hD, Direction.fromJSON_toJSON_direction,
    BoxType.fromJSON_toJSON_boxType, ColumnScale.fromJSON_toJSON_scale]

/-- Two percent-scale columns of unknown direction with the same top and bottom, restored
into the same target, give the same status for every price, whatever their box sizes. -/
theorem PF_Column.restored_unknown_status (D : DecimalStrings) (fuel : Nat) (c0 a b : PF_Column)
    (p : ℚ) (t : tpt)
    (ha : a.column_scale_ = ColumnScale.e_percent) (hb : b.column_scale_ = ColumnScale.e_percent)
    (hda : a.direction_ = Direction.e_unknown) (hdb : b.direction_ = Direction.e_unknown)
    (htop : a.top_ = b.top_) (hbot : a.bottom_ = b.bottom_) :
    ((PF_Column.restoredInto D c0 a).AddValue fuel p t).map (fun r => r.2.1)
      = ((PF_Column.restoredInto D c0 b).AddValue fuel p t).map (fun r => r.2.1) := by
  unfold PF_Column.AddValue
  have ha1 : (PF_Column.restoredInto D c0 a).column_scale_ = ColumnScale.e_percent := ha
  have hb1 : (PF_Column.restoredInto D c0 b).column_scale_ = ColumnScale.e_percent := hb
  rw [if_pos ha1, if_pos hb1]
  unfold PF_Column.AddValuePercent
  have e1 : (PF_Column.restoredInto D c0 a).top_ = b.top_ := htop
  have e2 : (PF_Column.restoredInto D c0 a).bottom_ = b.bottom_ := hbot
  have e3 : (PF_Column.restoredInto D c0 b).top_ = b.top_ := rfl
  have e4 : (PF_Column.restoredInto D c0 b).bottom_ = b.bottom_ := rfl
  have e5 : (PF_Column.restoredInto D c0 a).direction_ = Direction.e_unknown := hda
  have e6 : (PF_Column.restoredInto D c0 b).direction_ = Direction.e_unknown := hdb
  rw [e1, e2, e3, e4, e5, e6]
  by_cases hs : b.top_ = -1 ∧ b.bottom_ = -1
  · rw [if_pos hs, if_pos hs]
    rfl
  · rw [if_neg hs, if_neg hs, if_pos rfl, if_pos rfl]
    unfold PF_Column.TryToFindDirectionPercent
    have f1 : (PF_Column.restoredInto D c0 a).percent_box_increment_up_
        = c0.percent_box_increment_up_ := rfl
    have f2 : (PF_Column.restoredInto D c0 b).percent_box_increment_up_
        = c0.percent_box_increment_up_ := rfl
    have f3 : (PF_Column.restoredInto D c0 a).percent_box_increment_down_
        = c0.percent_box_increment_down_ := rfl
    have f4 : (PF_Column.restoredInto D c0 b).percent_box_increment_down_
        = c0.percent_box_increment_down_ := rfl
    rw [e1, e2, e3, e4, f1, f2, f3, f4]
    by_cases h1 : p ≥ b.top_ * c0.percent_box_increment_up_
    · rw [if_pos h1, if_pos h1]
      cases percentLoopUp fuel p b.top_ c0.percent_box_increment_up_ <;> rfl
    · rw [if_neg h1, if_neg h1]
      by_cases h2 : p ≤ b.bottom_ * c0.percent_box_increment_down_
      · rw [if_pos h2, if_pos h2]
        cases percentLoopDown fuel p b.bottom_ c0.percent_box_increment_down_ <;> rfl
      · rw [if_neg h2, if_neg h2]
        rfl


/-! ## The properties of single calls and snapshots at worked charts -/


/-- C11 fails on the percent scale, because `PF_Column::FromJSON` leaves the percent
members as they were in the target. The down column of `freshPercent` after the prices 100
and 3 ignores the price 4, while the column restored from its own snapshot, which compares
equal to it, reports a reversal. And whatever the target held: of two columns at 100 with box
sizes 0.04 and 0.05, the first accepts the price 104.5 and the second ignores it, but restored
into the same target they cannot give these two statuses. -/
theorem C11_restored_percent_column_differs :
    PF_Column.ofJSON unaryDecimalStrings (columnPercentDown.ToJSON unaryDecimalStrings)
      = Except.ok restoredPercentDown ∧
    columnPercentDown.column_scale_ = ColumnScale.e_percent ∧
    PF_Column.eq restoredPercentDown columnPercentDown = true ∧
    columnPercentDown.AddValue 0 4 3 = some (columnPercentDown, Status.e_ignored, none) ∧
    (restoredPercentDown.AddValue 0 4 3).map (fun r => r.2.1) = some Status.e_reversal ∧
    ((columnPercentStart (1 / 25)).AddValue 3 (209 / 2) 2).map (fun r => r.2.1)
      = some Status.e_accepted ∧
    ((columnPercentStart (1 / 20)).AddValue 3 (209 / 2) 2).map (fun r => r.2.1)
      = some Status.e_ignored ∧
    (∀ (c0 : PF_Column) (fuel : Nat),
      c0.FromJSON unaryDecimalStrings ((columnPercentStart (1 / 25)).ToJSON unaryDecimalStrings)
        = Except.ok (PF_Column.restoredInto unaryDecimalStrings c0 (columnPercentStart (1 / 25))) ∧
      c0.FromJSON unaryDecimalStrings ((columnPercentStart (1 / 20)).ToJSON unaryDecimalStrings)
        = Except.ok (PF_Column.restoredInto unaryDecimalStrings c0 (columnPercentStart (1 / 20))) ∧
      ¬ (((PF_Column.restoredInto unaryDecimalStrings c0
              (columnPercentStart (1 / 25))).AddValue fuel (209 / 2) 2).map (fun r => r.2.1)
            = some Status.e_accepted ∧
          ((PF_Column.restoredInto unaryDecimalStrings c0
              (columnPercentStart (1 / 20))).AddValue fuel (209 / 2) 2).map (fun r => r.2.1)
            = some Status.e_ignored)) := by
  refine ⟨?_, by decide!, by decide!, by decide!, by decide!, by decide!, by decide!, ?_⟩
  · unfold PF_Column.ofJSON
    rw [PF_Column.FromJSON_ToJSON_value unaryDecimalStrings unaryDecimalStrings_round_trip]
    rfl
  · intro c0 fuel
    refine ⟨PF_Column.FromJSON_ToJSON_value _ unaryDecimalStrings_round_trip _ _,
      PF_Column.FromJSON_ToJSON_value _ unaryDecimalStrings_round_trip _ _, ?_⟩
    rintro ⟨h1, h2⟩
    have h := PF_Column.restored_unknown_status unaryDecimalStrings fuel c0
      (columnPercentStart (1 / 25)) (columnPercentStart (1 / 20)) (209 / 2) 2
      (by decide!) (by decide!) (by decide!) (by decide!) (by decide!) (by decide!)
    rw [h1, h2] at h
    simp at h

/-- C12 fails at a snapshot whose three enumerated strings are valid and whose member
`start_at` holds a value that `asInt64` cannot convert: the first statement of
`PF_Column::FromJSON` fails, whatever the decimal strings denote and whatever the column that
is loaded. -/
theorem C12_counterexample :
    snapshotStartNotConvertible.direction = some "up" ∧
    snapshotStartNotConvertible.box_type = some "integral" ∧
    snapshotStartNotConvertible.column_scale = some "linear" ∧
    snapshotStartNotConvertible.start_at = none ∧
    ∀ (D : DecimalStrings) (c : PF_Column),
      c.FromJSON D snapshotStartNotConvertible
        = Except.error (SnapshotError.notConvertible "start_at") :=
  ⟨rfl, rfl, rfl, rfl, fun _ _ => rfl⟩

/-- C13 fails at its own witnesses: on a fresh chart of box size 1 the prices 10, 11, 12, 13
give one up column with top 13 whose bottom is 0, not 10, and the prices 10, 15 give bottom 0
and top 15, because `RoundDownToNearestBox` places the first price 10 at
`Mod(10, 1) * 1 = 0`. -/
theorem C13_monotone_run_starts_at_zero :
    freshBox1.current_column_.RoundDownToNearestBox 10 = 0 ∧
    (freshBox1.feed 0 [(10, 0), (11, 1), (12, 2), (13, 3)]).map
        (fun c => (c.GetNumberOfColumns, c.current_column_.direction_,
          c.current_column_.bottom_, c.current_column_.top_))
      = some (1, Direction.e_up, 0, 13) ∧
    (freshBox1.feed 0 [(10, 0), (15, 1)]).map
        (fun c => (c.GetNumberOfColumns, c.current_column_.direction_,
          c.current_column_.bottom_, c.current_column_.top_))
      = some (1, Direction.e_up, 0, 15) := by
  decide!

/-- C15 fails at its own witness: on a fresh chart of box size 1 the prices 50.0, 50.3, 50.7
and 50.9 give a column from 0 to 50 with direction up, not a column at 50 with direction
unknown, because `RoundDownToNearestBox` places the first price at `Mod(50, 1) * 1 = 0`; a
single price 50 already gives `top = bottom = 0`. -/
theorem C15_equal_truncations_start_at_zero :
    (freshBox1.feed 0 [(50, 0)]).map
        (fun c => (c.GetNumberOfColumns, c.current_column_.direction_,
          c.current_column_.bottom_, c.current_column_.top_))
      = some (1, Direction.e_unknown, 0, 0) ∧
    (freshBox1.feed 0 [(50, 0), (503 / 10, 1), (507 / 10, 2), (509 / 10, 3)]).map
        (fun c => (c.GetNumberOfColumns, c.current_column_.direction_,
          c.current_column_.bottom_, c.current_column_.top_))
      = some (1, Direction.e_up, 0, 50) := by
  decide!

/-- C17 fails on the chart of scenario S6 (box size 0.04, three reversal boxes) after the
prices 100, 104 and 108.16: the constructor has computed the down increment 0.038 and the
reversal factor 0, so the price 96, which is positive and below `top * 1.04 ^ (-3)`, is
ignored and no column is started; the price 100 of the scenario is ignored as well. -/
theorem C17_percent_reversal_not_reported :
    freshPercent.feed 8 [(100, 1), (104, 2), (2704 / 25, 3)] = some chartPercentUp ∧
    chartPercentUp.current_column_.direction_ = Direction.e_up ∧
    chartPercentUp.current_column_.top_ = 2704 / 25 ∧
    chartPercentUp.current_column_.percent_box_increment_up_ = 26 / 25 ∧
    chartPercentUp.current_column_.percent_box_increment_down_ = 19 / 500 ∧
    chartPercentUp.current_column_.reversal_factor_down_ = 0 ∧
    (0 : ℚ) < 96 ∧
    (96 : ℚ) ≤ chartPercentUp.current_column_.top_ * ((1 : ℚ) + 1 / 25) ^ (-3 : Int) ∧
    (chartPercentUp.current_column_.AddValue 8 96 4).map (fun r => r.2.1)
      = some Status.e_ignored ∧
    (chartPercentUp.AddValue 8 96 4).map (fun r => (r.2, r.1.GetNumberOfColumns))
      = some (Status.e_ignored, 1) ∧
    (chartPercentUp.AddValue 8 100 4).map (fun r => (r.2, r.1.GetNumberOfColumns))
      = some (Status.e_ignored, 1) := by
  decide!

/-- C14 (amended) at `chartBox1Up` (up column with top 13, box size 1, three reversal boxes)
with the price 10 at time 3: the current column becomes a down column with top 12 and bottom
10, and the chart has two columns. -/
theorem C14_reversal_starts_down_column_witness :
    chartBox1Up.current_column_.column_scale_ = ColumnScale.e_linear ∧
    0 < chartBox1Up.current_column_.box_size_ ∧
    2 ≤ chartBox1Up.current_column_.reversal_boxes_ ∧
    chartBox1Up.current_column_.direction_ = Direction.e_up ∧
    0 ≤ chartBox1Up.current_column_.possibleValue 10 ∧
    chartBox1Up.current_column_.possibleValue 10
      ≤ chartBox1Up.current_column_.top_
        - (chartBox1Up.current_column_.reversal_boxes_ : ℚ) * chartBox1Up.current_column_.box_size_ ∧
    FitsInt32 (ToIntTruncated ((chartBox1Up.current_column_.possibleValue 10
      - (chartBox1Up.current_column_.top_
        - chartBox1Up.current_column_.box_size_ * (chartBox1Up.current_column_.reversal_boxes_ : ℚ)))
      / chartBox1Up.current_column_.box_size_)) ∧
    chartBox1Up.current_column_.top_ = 13 ∧ chartBox1Up.current_column_.box_size_ = 1 ∧
    chartBox1Up.current_column_.reversal_boxes_ = 3 ∧
    (chartBox1Up.AddValue 0 10 3).map
        (fun r => (r.1.GetNumberOfColumns, r.1.current_column_.direction_,
          r.1.current_column_.top_, r.1.current_column_.bottom_))
      = some (2, Direction.e_down, 12, 10) ∧
    ∃ c1 status closed, chartBox1Up.AddValue 0 10 3 = some (c1, status) ∧
      c1.GetNumberOfColumns = chartBox1Up.GetNumberOfColumns + 1 ∧
      c1.columns_ = chartBox1Up.columns_ ++ [closed] ∧
      closed.top_ = chartBox1Up.current_column_.top_ ∧
      closed.bottom_ = chartBox1Up.current_column_.bottom_ ∧
      closed.direction_ = Direction.e_up ∧
      c1.current_column_.direction_ = Direction.e_down ∧
      c1.current_column_.top_
        = chartBox1Up.current_column_.top_ - chartBox1Up.current_column_.box_size_ ∧
      (∃ k : Int, chartBox1Up.current_column_.reversal_boxes_ ≤ k ∧
        c1.current_column_.bottom_
          = chartBox1Up.current_column_.top_ - (k : ℚ) * chartBox1Up.current_column_.box_size_) ∧
      chartBox1Up.current_column_.possibleValue 10 ≤ c1.current_column_.bottom_ ∧
      (∀ j : Int, chartBox1Up.current_column_.reversal_boxes_ ≤ j →
        chartBox1Up.current_column_.possibleValue 10
          ≤ chartBox1Up.current_column_.top_ - (j : ℚ) * chartBox1Up.current_column_.box_size_ →
        c1.current_column_.bottom_
          ≤ chartBox1Up.current_column_.top_ - (j : ℚ) * chartBox1Up.current_column_.box_size_) :=
  ⟨by decide!, by decide!, by decide!, by decide!, by decide!, by decide!, by decide!,
    by decide!, by decide!, by decide!, by decide!,
    C14_reversal_starts_down_column 0 chartBox1Up 10 3 (by decide!) (by decide!) (by decide!)
      (by decide!) (by decide!) (by decide!) (by decide!)⟩

/-- C14 fails without the bound on the count of boxes: at `chartUpFar` (up column from 6 to
9000000000, box size 3, three reversal boxes) the price 3 closes the column and the down
column is seeded from 8999999997 to 8999999991; the price lies 2999999996 boxes below that
bottom, a count that the `int` holds as 1294967300, so the re-feed moves the bottom up to
12884901891, above the top and not at the lowest box 3 that is not below the price; and no
count that an `int` holds brings the bottom there. -/
theorem C14_counterexample :
    chartUpFar.current_column_.column_scale_ = ColumnScale.e_linear ∧
    0 < chartUpFar.current_column_.box_size_ ∧
    2 ≤ chartUpFar.current_column_.reversal_boxes_ ∧
    chartUpFar.current_column_.direction_ = Direction.e_up ∧
    0 ≤ chartUpFar.current_column_.possibleValue 3 ∧
    chartUpFar.current_column_.possibleValue 3
      ≤ chartUpFar.current_column_.top_
        - (chartUpFar.current_column_.reversal_boxes_ : ℚ)
          * chartUpFar.current_column_.box_size_ ∧
    ToIntTruncated ((chartUpFar.current_column_.possibleValue 3
      - (chartUpFar.current_column_.top_
        - chartUpFar.current_column_.box_size_
          * (chartUpFar.current_column_.reversal_boxes_ : ℚ)))
      / chartUpFar.current_column_.box_size_) = -2999999996 ∧
    (chartUpFar.AddValue 0 3 4).map
        (fun r => (r.2, r.1.GetNumberOfColumns, r.1.current_column_.direction_,
          r.1.current_column_.top_, r.1.current_column_.bottom_,
          decide (r.1.current_column_.bottom_
            ≤ chartUpFar.current_column_.top_
              - (2999999999 : ℚ) * chartUpFar.current_column_.box_size_)))
      = some (Status.e_accepted, 2, Direction.e_down, 8999999997, 12884901891, false) ∧
    chartUpFar.current_column_.possibleValue 3
      ≤ chartUpFar.current_column_.top_
        - (2999999999 : ℚ) * chartUpFar.current_column_.box_size_ ∧
    ∀ m : Int, FitsInt32 m →
      ¬ (chartUpFar.current_column_.top_
          - chartUpFar.current_column_.box_size_
            * (chartUpFar.current_column_.reversal_boxes_ : ℚ)
          + (m : ℚ) * chartUpFar.current_column_.box_size_
        ≤ chartUpFar.current_column_.top_
          - (2999999999 : ℚ) * chartUpFar.current_column_.box_size_) := by
  refine ⟨by decide!, by decide!, by decide!, by decide!, by decide!, by decide!, by decide!,
    by decide!, by decide!, ?_⟩
  have e1 : chartUpFar.current_column_.top_ = 9000000000 := by decide!
  have e2 : chartUpFar.current_column_.box_size_ = 3 := by decide!
  have e3 : chartUpFar.current_column_.reversal_boxes_ = 3 := by decide!
  rw [e1, e2, e3]
  rintro m ⟨hm, -⟩ h2
  have h3 : (-2147483648 : ℚ) ≤ (m : ℚ) := by exact_mod_cast (by omega : -2147483648 ≤ m)
  push_cast at h2
  linarith

/-- C16 fails at `chartOneBoxUp` (one reversal box, up column from 6 to 9 with
`top − bottom` equal to the box size 3) with the price 6: the box below the top is occupied,
so the column is closed and a down column is started; nothing is reversed in place. -/
theorem C16_counterexample :
    freshOneBox.feed 0 [(8, 1), (9, 2)] = some chartOneBoxUp ∧
    chartOneBoxUp.current_column_.reversal_boxes_ = 1 ∧
    chartOneBoxUp.current_column_.direction_ = Direction.e_up ∧
    chartOneBoxUp.current_column_.top_ - chartOneBoxUp.current_column_.bottom_
      = chartOneBoxUp.current_column_.box_size_ ∧
    chartOneBoxUp.current_column_.possibleValue 6
      ≤ chartOneBoxUp.current_column_.top_ - chartOneBoxUp.current_column_.box_size_ ∧
    chartOneBoxUp.GetNumberOfColumns = 1 ∧
    (chartOneBoxUp.current_column_.AddValue 0 6 3).map (fun r => r.2.1)
      = some Status.e_reversal ∧
    (chartOneBoxUp.AddValue 0 6 3).map
        (fun r => (r.1.GetNumberOfColumns, r.1.columns_.map PF_Column.direction_,
          r.1.current_column_.direction_, r.1.current_column_.had_reversal_))
      = some (2, [Direction.e_up], Direction.e_down, false) := by
  decide!

/-- C16 (amended) at `chartSingleBox`, whose current column is an up column that holds the
single box 6, with the price 3 at time 4. -/
theorem C16_one_step_back_in_place_witness :
    chartSingleBox.current_column_.column_scale_ = ColumnScale.e_linear ∧
    0 < chartSingleBox.current_column_.box_size_ ∧
    chartSingleBox.current_column_.reversal_boxes_ = 1 ∧
    chartSingleBox.current_column_.direction_ = Direction.e_up ∧
    ¬ (chartSingleBox.current_column_.top_ = -1 ∧ chartSingleBox.current_column_.bottom_ = -1) ∧
    chartSingleBox.current_column_.top_ - chartSingleBox.current_column_.bottom_
      < chartSingleBox.current_column_.box_size_ ∧
    chartSingleBox.current_column_.possibleValue 3
      ≤ chartSingleBox.current_column_.top_ - chartSingleBox.current_column_.box_size_ ∧
    ∃ c1, chartSingleBox.AddValue 0 3 4 = some (c1, Status.e_accepted) ∧
      c1.columns_ = chartSingleBox.columns_ ∧
      c1.GetNumberOfColumns = chartSingleBox.GetNumberOfColumns ∧
      c1.current_column_.direction_ = Direction.e_down ∧
      c1.current_column_.had_reversal_ = true ∧
      c1.current_column_.top_ = chartSingleBox.current_column_.top_ :=
  ⟨by decide!, by decide!, by decide!, by decide!, by decide!, by decide!, by decide!,
    C16_one_step_back_in_place 0 chartSingleBox 3 4 (by decide!) (by decide!) (by decide!)
      (by decide!) (by decide!) (by decide!) (by decide!)⟩

/-- C18 fails at the up column of `chartUp` (top 18, box size 3, three reversal boxes) with
the price 3: the successor has top 15, not 18 − 3·3 = 9, and bottom 9, which is neither the
price nor `RoundDownToNearestBox` of the price. -/
theorem C18_counterexample :
    chartUp.current_column_.direction_ = Direction.e_up ∧
    chartUp.current_column_.top_ = 18 ∧
    chartUp.current_column_.top_
      - (chartUp.current_column_.reversal_boxes_ : ℚ) * chartUp.current_column_.box_size_ = 9 ∧
    chartUp.current_column_.RoundDownToNearestBox 3 = 0 ∧
    (chartUp.current_column_.AddValue 0 3 3).map
        (fun r => (r.2.1, r.2.2.map (fun s => (s.direction_, s.top_, s.bottom_))))
      = some (Status.e_reversal, some (Direction.e_down, 15, 9)) := by
  decide!

/-- C18 (amended) at the up column of `chartUp` with the price 3 at time 3. -/
theorem C18_successor_seeding_linear_witness :
    chartUp.current_column_.column_scale_ = ColumnScale.e_linear ∧
    chartUp.current_column_.direction_ = Direction.e_up ∧
    chartUp.current_column_.AddValue 0 3 3
      = some (closedUp, Status.e_reversal, some successorDown) ∧
    ∃ s, some successorDown = some s ∧ s.direction_ = Direction.e_down ∧
      s.top_ = chartUp.current_column_.top_ - chartUp.current_column_.box_size_ ∧
      s.bottom_ = (if chartUp.current_column_.reversal_boxes_ = 1
        then chartUp.current_column_.top_ - chartUp.current_column_.box_size_
        else chartUp.current_column_.top_
          - chartUp.current_column_.box_size_ * (chartUp.current_column_.reversal_boxes_ : ℚ)) ∧
      s.time_span_ = (3, 3) :=
  ⟨by decide!, by decide!, by decide!,
    C18_successor_seeding_linear 0 chartUp.current_column_ closedUp 3 3 (some successorDown)
      (by decide!) (by decide!) (by decide!)⟩

/-- C19 (amended) fails without the bound on the count of boxes: the up column of `chartUp`
(top 18, box size 3) with the price 6442450962 lies 2^31 boxes below the price, a count that
the `int` holds as −2^31, so the call is accepted and the top goes to −6442450926, not to the
highest box not above the price; and no count that an `int` holds brings the top there. -/
theorem C19_counterexample :
    chartUp.current_column_.column_scale_ = ColumnScale.e_linear ∧
    0 < chartUp.current_column_.box_size_ ∧
    ¬ (chartUp.current_column_.top_ = -1 ∧ chartUp.current_column_.bottom_ = -1) ∧
    chartUp.current_column_.direction_ = Direction.e_up ∧
    chartUp.current_column_.possibleValue 6442450962
      ≥ chartUp.current_column_.top_ + chartUp.current_column_.box_size_ ∧
    ToIntTruncated ((chartUp.current_column_.possibleValue 6442450962
      - chartUp.current_column_.top_) / chartUp.current_column_.box_size_) = 2 ^ 31 ∧
    (chartUp.current_column_.AddValue 0 6442450962 3).map
        (fun r => (r.2.1, r.1.top_, r.1.bottom_, r.1.direction_,
          decide (r.1.top_ ≤ chartUp.current_column_.possibleValue 6442450962 ∧
            chartUp.current_column_.possibleValue 6442450962
              < r.1.top_ + chartUp.current_column_.box_size_)))
      = some (Status.e_accepted, -6442450926, 6, Direction.e_up, false) ∧
    ∀ k : Int, FitsInt32 k →
      ¬ (chartUp.current_column_.top_ + (k : ℚ) * chartUp.current_column_.box_size_
            ≤ chartUp.current_column_.possibleValue 6442450962 ∧
        chartUp.current_column_.possibleValue 6442450962
          < chartUp.current_column_.top_ + (k : ℚ) * chartUp.current_column_.box_size_
            + chartUp.current_column_.box_size_) := by
  refine ⟨by decide!, by decide!, by decide!, by decide!, by decide!, by decide!,
    by decide!, ?_⟩
  have e1 : chartUp.current_column_.top_ = 18 := by decide!
  have e2 : chartUp.current_column_.box_size_ = 3 := by decide!
  have e3 : chartUp.current_column_.possibleValue 6442450962 = 6442450962 := by decide!
  rw [e1, e2, e3]
  rintro k ⟨-, hk⟩ ⟨-, h2⟩
  have h3 : (k : ℚ) ≤ 2147483647 := by exact_mod_cast (by omega : k ≤ 2147483647)
  linarith

/-- C19 (amended) at the up column of `chartUp` (top 18, box size 3) with the price 26: the
top moves to 24. -/
theorem C19_gap_advance_of_nonempty_column_witness :
    chartUp.current_column_.column_scale_ = ColumnScale.e_linear ∧
    0 < chartUp.current_column_.box_size_ ∧
    ¬ (chartUp.current_column_.top_ = -1 ∧ chartUp.current_column_.bottom_ = -1) ∧
    (chartUp.current_column_.direction_ = Direction.e_up ∨
      chartUp.current_column_.direction_ = Direction.e_unknown) ∧
    chartUp.current_column_.possibleValue 26
      ≥ chartUp.current_column_.top_ + chartUp.current_column_.box_size_ ∧
    FitsInt32 (ToIntTruncated ((chartUp.current_column_.possibleValue 26
      - chartUp.current_column_.top_) / chartUp.current_column_.box_size_)) ∧
    ∃ col, chartUp.current_column_.AddValue 0 26 3 = some (col, Status.e_accepted, none) ∧
      col.bottom_ = chartUp.current_column_.bottom_ ∧ col.direction_ = Direction.e_up ∧
      (∃ k : Int, 1 ≤ k ∧
        col.top_ = chartUp.current_column_.top_ + (k : ℚ) * chartUp.current_column_.box_size_) ∧
      col.top_ ≤ chartUp.current_column_.possibleValue 26 ∧
      chartUp.current_column_.possibleValue 26 < col.top_ + chartUp.current_column_.box_size_ ∧
      (chartUp.current_column_.possibleValue 26
          = chartUp.current_column_.top_ + chartUp.current_column_.box_size_ →
        col.top_ = chartUp.current_column_.top_ + chartUp.current_column_.box_size_) :=
  ⟨by decide!, by decide!, by decide!, by decide!, by decide!, by decide!,
    C19_gap_advance_of_nonempty_column 0 chartUp.current_column_ 26 3 (by decide!) (by decide!)
      (by decide!) (by decide!) (by decide!) (by decide!)⟩

/-- C20 at the up column of `chartUp` (top 18, box size 3, three reversal boxes) with the
price 12. -/
theorem C20_up_column_decision_boundaries_witness :
    chartUp.current_column_.column_scale_ = ColumnScale.e_linear ∧
    0 < chartUp.current_column_.box_size_ ∧
    1 ≤ chartUp.current_column_.reversal_boxes_ ∧
    ¬ (chartUp.current_column_.top_ = -1 ∧ chartUp.current_column_.bottom_ = -1) ∧
    chartUp.current_column_.direction_ = Direction.e_up ∧
    ∃ col status successor,
      chartUp.current_column_.AddValue 0 12 3 = some (col, status, successor) ∧
      ((status = Status.e_ignored ∧ col = chartUp.current_column_) ↔
        (chartUp.current_column_.top_
            - (chartUp.current_column_.reversal_boxes_ : ℚ) * chartUp.current_column_.box_size_
          < chartUp.current_column_.possibleValue 12 ∧
          chartUp.current_column_.possibleValue 12
            < chartUp.current_column_.top_ + chartUp.current_column_.box_size_)) ∧
      (status = Status.e_ignored → col = chartUp.current_column_ ∧ successor = none) ∧
      (2 ≤ chartUp.current_column_.reversal_boxes_ →
        (status = Status.e_reversal ↔
          chartUp.current_column_.possibleValue 12
            ≤ chartUp.current_column_.top_
              - (chartUp.current_column_.reversal_boxes_ : ℚ)
                * chartUp.current_column_.box_size_)) :=
  ⟨by decide!, by decide!, by decide!, by decide!, by decide!,
    C20_up_column_decision_boundaries 0 chartUp.current_column_ 12 3 (by decide!) (by decide!)
      (by decide!) (by decide!) (by decide!)⟩


/-! ## Mirror symmetry of the linear scale -/


theorem ToIntTruncated_neg_eq (x : ℚ) : ToIntTruncated (-x) = -ToIntTruncated x := by
  unfold ToIntTruncated
  rcases lt_trichotomy x 0 with h | h | h
  · have h1 : ¬ (0 ≤ x) := not_le.mpr h
    have h2 : 0 ≤ -x := by linarith
    rw [if_pos h2, if_neg h1]; simp
  · subst h; simp
  · have h1 : 0 ≤ x := h.le
    have h2 : ¬ (0 ≤ -x) := by linarith
    rw [if_neg h2, if_pos h1]; simp

theorem ToIntTruncated_neg_div (a b : ℚ) :
    (ToIntTruncated ((-a) / b) : ℚ) = -(ToIntTruncated (a / b) : ℚ) := by
  rw [neg_div, ToIntTruncated_neg_eq]; push_cast; ring

theorem PF_Column.possibleValue_mirror (c : PF_Column) (p : ℚ) :
    c.mirror.possibleValue (-p) = -c.possibleValue p := by
  unfold PF_Column.possibleValue PF_Column.mirror
  by_cases h : c.box_type_ = BoxType.e_integral
  · simp only [if_pos h]; rw [ToIntTruncated_neg_eq]; push_cast; ring
  · simp only [if_neg h]

theorem PF_Column.TryToExtendDown_mirror (c : PF_Column) (v : ℚ) (t : tpt)
    (hlin : c.column_scale_ = ColumnScale.e_linear)
    (hf : c.spanFits v) (hf2 : c.mirror.spanFits (-v)) :
    c.mirror.TryToExtendDown (-v) t = mirrorResult (c.TryToExtendUp v t) := by
  obtain ⟨bs, bse, rb, bt, cs, dir, top, bottom, hr, ts, pu, pe, pd, rfu, rfd⟩ := c
  simp only at hlin
  subst hlin
  simp only [PF_Column.spanFits, PF_Column.mirror] at hf hf2
  unfold PF_Column.TryToExtendDown PF_Column.TryToExtendUp
  simp only [PF_Column.mirror]
  by_cases h1 : v ≥ top + bs
  · have h1' : -v ≤ -top - bs := by linarith
    rw [if_pos h1, if_pos h1']
    simp only [mirrorResult, PF_Column.mirror, Option.map_none']
    rw [toInt32_of_fits hf.1, toInt32_of_fits hf2.2]
    have e : (-v - -top) = -(v - top) := by ring
    rw [e, ToIntTruncated_neg_div]
    congr 2
    ring
  · have h1' : ¬ (-v ≤ -top - bs) := by intro h; apply h1; linarith
    rw [if_neg h1, if_neg h1']
    by_cases h2 : v ≤ top - bs * (rb : ℚ)
    · have h2' : -v ≥ -top + bs * (rb : ℚ) := by linarith
      rw [if_pos h2, if_pos h2']
      by_cases h3 : rb = 1
      · rw [if_pos h3, if_pos h3]
        by_cases h4 : bottom ≤ top - bs
        · have h4' : -bottom ≥ -top + bs := by linarith
          rw [if_pos h4, if_pos h4']
          simp [mirrorResult, PF_Column.mirror, PF_Column.MakeReversalColumn, PF_Column.new,
            Direction.opposite]
          ring
        · have h4' : ¬ (-bottom ≥ -top + bs) := by intro h; apply h4; linarith
          rw [if_neg h4, if_neg h4']
          simp only [mirrorResult, PF_Column.mirror, Option.map_none', Direction.opposite]
          rw [toInt32_of_fits hf.2, toInt32_of_fits hf2.1]
          have e : (-v - -bottom) = -(v - bottom) := by ring
          rw [e, ToIntTruncated_neg_div]
          congr 2
          ring
      · rw [if_neg h3, if_neg h3]
        simp [mirrorResult, PF_Column.mirror, PF_Column.MakeReversalColumn, PF_Column.new,
            Direction.opposite]
        constructor <;> ring
    · have h2' : ¬ (-v ≥ -top + bs * (rb : ℚ)) := by intro h; apply h2; linarith
      rw [if_neg h2, if_neg h2']
      simp [mirrorResult, PF_Column.mirror]

theorem Direction.opposite_opposite (d : Direction) : d.opposite.opposite = d := by
  cases d <;> rfl

theorem PF_Column.mirror_mirror (c : PF_Column) : c.mirror.mirror = c := by
  obtain ⟨bs, bse, rb, bt, cs, dir, top, bottom, hr, ts, pu, pe, pd, rfu, rfd⟩ := c
  simp [PF_Column.mirror, Direction.opposite_opposite]

theorem mirrorResult_mirrorResult (r : PF_Column × AddResult) :
    mirrorResult (mirrorResult r) = r := by
  obtain ⟨col, st, s⟩ := r
  cases s with
  | none => simp [mirrorResult, PF_Column.mirror_mirror]
  | some s => simp [mirrorResult, PF_Column.mirror_mirror]

theorem PF_Column.TryToExtendUp_mirror (c : PF_Column) (v : ℚ) (t : tpt)
    (hlin : c.column_scale_ = ColumnScale.e_linear)
    (hf : c.spanFits v) (hf2 : c.mirror.spanFits (-v)) :
    c.mirror.TryToExtendUp (-v) t = mirrorResult (c.TryToExtendDown v t) := by
  have h := c.mirror.TryToExtendDown_mirror (-v) t hlin hf2
    (by rw [PF_Column.mirror_mirror, neg_neg]; exact hf)
  rw [PF_Column.mirror_mirror, neg_neg] at h
  rw [h, mirrorResult_mirrorResult]

/-- C21 (amended): mirror symmetry of `PF_Column::AddValue` on the linear scale: for a
non-empty up or down column whose mirror image is not at the sentinel either, and a price
that lies fewer than 2^31 boxes from the top and from the bottom of the column (so that
`int how_many_boxes` holds the count of boxes of the move and of the mirrored move), the call
on the mirror image with the negated price returns the same status, the mirror image of the
resulting column and the mirror image of the successor -/
theorem C21_mirror_symmetry (fuel : Nat) (c : PF_Column) (price : ℚ) (time : tpt)
    (hlin : c.column_scale_ = ColumnScale.e_linear)
    (hd : c.direction_ = Direction.e_up ∨ c.direction_ = Direction.e_down)
    (hne : ¬ (c.top_ = -1 ∧ c.bottom_ = -1))
    (hne2 : ¬ (c.mirror.top_ = -1 ∧ c.mirror.bottom_ = -1))
    (hf : c.moveFits price) (hf2 : c.mirror.moveFits (-price)) :
    c.mirror.top_ = -c.bottom_ ∧ c.mirror.bottom_ = -c.top_ ∧
    (c.direction_ = Direction.e_up → c.mirror.direction_ = Direction.e_down) ∧
    (c.direction_ = Direction.e_down → c.mirror.direction_ = Direction.e_up) ∧
    ∃ col status successor,
      c.AddValue fuel price time = some (col, status, successor) ∧
      c.mirror.AddValue fuel (-price) time
        = some (col.mirror, status, successor.map PF_Column.mirror) := by
  refine ⟨rfl, rfl, fun h => by simp [PF_Column.mirror, h, Direction.opposite],
    fun h => by simp [PF_Column.mirror, h, Direction.opposite], ?_⟩
  unfold PF_Column.moveFits at hf hf2
  rw [PF_Column.possibleValue_mirror] at hf2
  rcases hd with hd | hd
  · have hdm : c.mirror.direction_ = Direction.e_down := by
      simp [PF_Column.mirror, hd, Direction.opposite]
    rw [c.AddValue_up_eq fuel price time hlin hne hd,
      c.mirror.AddValue_down_eq fuel (-price) time hlin hne2 hdm,
      PF_Column.possibleValue_mirror, PF_Column.TryToExtendDown_mirror _ _ _ hlin hf hf2]
    exact ⟨_, _, _, rfl, rfl⟩
  · have hdm : c.mirror.direction_ = Direction.e_up := by
      simp [PF_Column.mirror, hd, Direction.opposite]
    rw [c.AddValue_down_eq fuel price time hlin hne hd,
      c.mirror.AddValue_up_eq fuel (-price) time hlin hne2 hdm,
      PF_Column.possibleValue_mirror, PF_Column.TryToExtendUp_mirror _ _ _ hlin hf hf2]
    exact ⟨_, _, _, rfl, rfl⟩

/-- C21 at the current column of `chartUp` (up column from 6 to 18, box size 3, three reversal
boxes) with the price 3 at time 3: the column reports a reversal, and so does its mirror
image, the down column from −6 to −18, for the price −3. -/
theorem C21_mirror_symmetry_witness :
    (chartUp.current_column_.AddValue 0 3 3).map (fun r => r.2.1) = some Status.e_reversal ∧
    chartUp.current_column_.column_scale_ = ColumnScale.e_linear ∧
    chartUp.current_column_.direction_ = Direction.e_up ∧
    ¬ (chartUp.current_column_.top_ = -1 ∧ chartUp.current_column_.bottom_ = -1) ∧
    ¬ (chartUp.current_column_.mirror.top_ = -1 ∧
      chartUp.current_column_.mirror.bottom_ = -1) ∧
    chartUp.current_column_.moveFits 3 ∧
    chartUp.current_column_.mirror.moveFits (-3) ∧
    chartUp.current_column_.mirror.top_ = -6 ∧
    chartUp.current_column_.mirror.bottom_ = -18 ∧
    chartUp.current_column_.mirror.direction_ = Direction.e_down ∧
    ∃ col status successor,
      chartUp.current_column_.AddValue 0 3 3 = some (col, status, successor) ∧
      chartUp.current_column_.mirror.AddValue 0 (-3) 3
        = some (col.mirror, status, successor.map PF_Column.mirror) :=
  ⟨by decide!, by decide!, by decide!, by decide!, by decide!, by decide!, by decide!,
    by decide!, by decide!, by decide!,
    (C21_mirror_symmetry 0 chartUp.current_column_ 3 3 (by decide!) (Or.inl (by decide!))
      (by decide!) (by decide!) (by decide!) (by decide!)).2.2.2.2⟩

/-- C21 fails for a move of 2^31 boxes: the up column of `chartUp` (from 6 to 18, box size 3)
with the price 6442450962 lies 2^31 boxes below the price, a count that an `int` does not
hold (the top goes to −6442450926), while its mirror image, the down column from −6 to −18,
lies −2^31 boxes from the price −6442450962, a count that an `int` holds: the bottom of the
mirror image goes to −6442450962, which is not the negated top of the column. -/
theorem C21_counterexample :
    chartUp.current_column_.column_scale_ = ColumnScale.e_linear ∧
    chartUp.current_column_.direction_ = Direction.e_up ∧
    ¬ (chartUp.current_column_.top_ = -1 ∧ chartUp.current_column_.bottom_ = -1) ∧
    ¬ (chartUp.current_column_.mirror.top_ = -1 ∧
      chartUp.current_column_.mirror.bottom_ = -1) ∧
    ToIntTruncated ((chartUp.current_column_.possibleValue 6442450962
      - chartUp.current_column_.top_) / chartUp.current_column_.box_size_) = 2 ^ 31 ∧
    ToIntTruncated ((chartUp.current_column_.mirror.possibleValue (-6442450962)
      - chartUp.current_column_.mirror.bottom_) / chartUp.current_column_.mirror.box_size_)
      = -2 ^ 31 ∧
    (chartUp.current_column_.AddValue 0 6442450962 3).map
        (fun r => (r.2.1, r.1.mirror.direction_, r.1.mirror.top_, r.1.mirror.bottom_))
      = some (Status.e_accepted, Direction.e_down, -6, 6442450926) ∧
    (chartUp.current_column_.mirror.AddValue 0 (-6442450962) 3).map
        (fun r => (r.2.1, r.1.direction_, r.1.top_, r.1.bottom_))
      = some (Status.e_accepted, Direction.e_down, -6, -6442450962) := by
  refine ⟨by decide!, by decide!, by decide!, by decide!, by decide!, by decide!, by decide!,
    by decide!⟩

/-! ## In-place reversal and rounding to a box -/

/-- C22 (amended): on the linear scale a non-empty up column with one reversal box that holds
a single box (`bottom > top − box_size`) and is fed a box-adjusted price `v ≤ top − box_size`
that lies so few boxes below the bottom that `int how_many_boxes` holds their count (at most
2^31) accepts it without a successor, becomes a down column with `had_reversal` set, keeps
its top and lowers its bottom by a natural multiple of the box size to the lowest box that is
not below `v`: `v ≤ bottom < v + box_size` afterwards -/
theorem C22_in_place_reversal_effect (fuel : Nat) (c : PF_Column) (price : ℚ) (time : tpt)
    (hlin : c.column_scale_ = ColumnScale.e_linear) (hb : 0 < c.box_size_)
    (hne : ¬ (c.top_ = -1 ∧ c.bottom_ = -1)) (hd : c.direction_ = Direction.e_up)
    (hr : c.reversal_boxes_ = 1) (hone : c.bottom_ > c.top_ - c.box_size_)
    (hv : c.possibleValue price ≤ c.top_ - c.box_size_)
    (hf : FitsInt32 (ToIntTruncated ((c.possibleValue price - c.bottom_) / c.box_size_))) :
    ∃ col, c.AddValue fuel price time = some (col, Status.e_accepted, none) ∧
      col.direction_ = Direction.e_down ∧ col.had_reversal_ = true ∧ col.top_ = c.top_ ∧
      (∃ n : ℕ, col.bottom_ = c.bottom_ - (n : ℚ) * c.box_size_ ∧ (c.top_ ≤ c.bottom_ → 1 ≤ n)) ∧
      c.possibleValue price ≤ col.bottom_ ∧
      col.bottom_ < c.possibleValue price + c.box_size_ := by
  rw [c.AddValue_up_eq fuel price time hlin hne hd]
  unfold PF_Column.TryToExtendUp
  have h1 : ¬ (c.possibleValue price ≥ c.top_ + c.box_size_) := by
    intro h; linarith
  have h2 : c.possibleValue price ≤ c.top_ - c.box_size_ * (c.reversal_boxes_ : ℚ) := by
    rw [hr]; simpa using hv
  have h3 : ¬ (c.bottom_ ≤ c.top_ - c.box_size_) := not_le.mpr hone
  rw [if_neg h1, if_pos h2, if_pos hr, if_neg h3, toInt32_of_fits hf]
  have hq : (c.possibleValue price - c.bottom_) / c.box_size_ ≤ 0 :=
    div_nonpos_of hb (by linarith)
  obtain ⟨k1, k2⟩ := ToIntTruncated_bounds_of_nonpos hq
  have k0 := ToIntTruncated_nonpos hq
  have e1 := mul_le_mul_of_nonneg_right k1 hb.le
  have e2 := mul_lt_mul_of_pos_right k2 hb
  rw [div_mul_cancel₀ _ hb.ne'] at e1
  rw [add_mul, div_mul_cancel₀ _ hb.ne'] at e2
  refine ⟨_, rfl, rfl, rfl, rfl, ⟨(-ToIntTruncated ((c.possibleValue price - c.bottom_)
    / c.box_size_)).toNat, ?_, ?_⟩, ?_, ?_⟩
  · show c.bottom_ + _ = _
    have hc : (((-ToIntTruncated ((c.possibleValue price - c.bottom_) / c.box_size_)).toNat
        : ℕ) : ℚ) = -(ToIntTruncated ((c.possibleValue price - c.bottom_) / c.box_size_) : ℚ) := by
      rw [← Int.cast_natCast, Int.toNat_of_nonneg (by omega)]
      push_cast
      ring
    rw [hc]
    ring
  · intro htb
    have := (lower_bottom_bounds hb (by linarith : c.possibleValue price
      ≤ c.bottom_ - c.box_size_)).1
    omega
  · show _ ≤ c.bottom_ + _
    linarith
  · show c.bottom_ + _ < _
    linarith

/-- C23 fails: the value computed by `PF_Column::RoundDownToNearestBox` is the remainder
times the box size. For box size 3 (integral) the value 7 gives 1 · 3 = 3, which is not
within one box below 7 (the multiple of 3 with `r ≤ 7 < r + 3` is 6 = 7 − mod(7, 3)); for box
size 1 the value 10 gives 0; for box size 0.5 (fractional) the value 0.7 gives 0.1, which is
no multiple of 0.5. `StartColumn` does set top and bottom to the computed value. -/
theorem C23_round_down_is_remainder_times_box :
    (∀ (c : PF_Column) (v : ℚ), c.RoundDownToNearestBox v =
      (if c.box_type_ = BoxType.e_integral
        then Mod (ToIntTruncated v : ℚ) c.box_size_ else Mod v c.box_size_) * c.box_size_) ∧
    (∀ (c : PF_Column) (v : ℚ) (t : tpt),
      (c.StartColumn v t).1.top_ = c.RoundDownToNearestBox v ∧
      (c.StartColumn v t).1.bottom_ = c.RoundDownToNearestBox v) ∧
    freshBox3.current_column_.box_size_ = 3 ∧
    freshBox3.current_column_.box_type_ = BoxType.e_integral ∧
    freshBox3.current_column_.RoundDownToNearestBox 7 = 3 ∧
    ¬ ((7 : ℚ) < freshBox3.current_column_.RoundDownToNearestBox 7
      + freshBox3.current_column_.box_size_) ∧
    (ToIntTruncated 7 : ℚ) - Mod (ToIntTruncated 7 : ℚ) 3 = 6 ∧
    (freshBox3.current_column_.StartColumn 7 1).1.top_ = 3 ∧
    (freshBox3.current_column_.StartColumn 7 1).1.bottom_ = 3 ∧
    freshBox1.current_column_.box_size_ = 1 ∧
    freshBox1.current_column_.RoundDownToNearestBox 10 = 0 ∧
    (PF_Column.new (1 / 2) (-1) 3 BoxType.e_fractional ColumnScale.e_linear
      Direction.e_unknown (-1) (-1)).RoundDownToNearestBox (7 / 10) = 1 / 10 ∧
    ¬ ∃ n : Int, (1 / 10 : ℚ) = (n : ℚ) * (1 / 2) := by
  refine ⟨?_, fun c v t => ⟨rfl, rfl⟩, by decide!, by decide!, by decide!, by decide!,
    by decide!, by decide!, by decide!, by decide!, by decide!, by decide!, ?_⟩
  · intro c v
    unfold PF_Column.RoundDownToNearestBox
    by_cases h : c.box_type_ = BoxType.e_integral
    · simp only [if_pos h]
    · simp only [if_neg h]
  · rintro ⟨n, hn⟩
    have h5 : (5 : ℚ) * n = 1 := by linarith
    have h6 : (5 : Int) * n = 1 := by exact_mod_cast h5
    omega

/-- C22 fails at `chartSingleBox` (one reversal box, box size 3, an up column that holds the
single box 6) with the price 2: the column reverses in place and its bottom is lowered to 3,
the lowest box that is not below the price, so the new bottom is above the box-adjusted
price 2 and not at or below it. -/
theorem C22_counterexample :
    freshOneBox.feed 0 [(8, 1), (3, 2), (6, 3)] = some chartSingleBox ∧
    chartSingleBox.current_column_.column_scale_ = ColumnScale.e_linear ∧
    chartSingleBox.current_column_.direction_ = Direction.e_up ∧
    chartSingleBox.current_column_.reversal_boxes_ = 1 ∧
    chartSingleBox.current_column_.bottom_
      > chartSingleBox.current_column_.top_ - chartSingleBox.current_column_.box_size_ ∧
    chartSingleBox.current_column_.possibleValue 2 = 2 ∧
    chartSingleBox.current_column_.possibleValue 2
      ≤ chartSingleBox.current_column_.top_ - chartSingleBox.current_column_.box_size_ ∧
    (chartSingleBox.current_column_.AddValue 0 2 4).map
        (fun r => (r.2.1, r.2.2.isNone, r.1.direction_, r.1.had_reversal_, r.1.top_,
          r.1.bottom_))
      = some (Status.e_accepted, true, Direction.e_down, true, 6, 3) ∧
    ¬ ((3 : ℚ) ≤ chartSingleBox.current_column_.possibleValue 2) := by
  decide!

/-- C22 (amended) at `chartSingleBox`, whose current column is an up column that holds the
single box 6, with the price 2 at time 4: the bottom is lowered by one box to 3. -/
theorem C22_in_place_reversal_effect_witness :
    chartSingleBox.current_column_.column_scale_ = ColumnScale.e_linear ∧
    0 < chartSingleBox.current_column_.box_size_ ∧
    ¬ (chartSingleBox.current_column_.top_ = -1 ∧
      chartSingleBox.current_column_.bottom_ = -1) ∧
    chartSingleBox.current_column_.direction_ = Direction.e_up ∧
    chartSingleBox.current_column_.reversal_boxes_ = 1 ∧
    chartSingleBox.current_column_.bottom_
      > chartSingleBox.current_column_.top_ - chartSingleBox.current_column_.box_size_ ∧
    chartSingleBox.current_column_.possibleValue 2
      ≤ chartSingleBox.current_column_.top_ - chartSingleBox.current_column_.box_size_ ∧
    FitsInt32 (ToIntTruncated ((chartSingleBox.current_column_.possibleValue 2
      - chartSingleBox.current_column_.bottom_) / chartSingleBox.current_column_.box_size_)) ∧
    chartSingleBox.current_column_.top_ = 6 ∧ chartSingleBox.current_column_.bottom_ = 6 ∧
    chartSingleBox.current_column_.box_size_ = 3 ∧
    chartSingleBox.current_column_.possibleValue 2 = 2 ∧
    ∃ col, chartSingleBox.current_column_.AddValue 0 2 4
        = some (col, Status.e_accepted, none) ∧
      col.direction_ = Direction.e_down ∧ col.had_reversal_ = true ∧
      col.top_ = chartSingleBox.current_column_.top_ ∧
      (∃ n : ℕ, col.bottom_ = chartSingleBox.current_column_.bottom_
          - (n : ℚ) * chartSingleBox.current_column_.box_size_ ∧
        (chartSingleBox.current_column_.top_ ≤ chartSingleBox.current_column_.bottom_ → 1 ≤ n)) ∧
      chartSingleBox.current_column_.possibleValue 2 ≤ col.bottom_ ∧
      col.bottom_ < chartSingleBox.current_column_.possibleValue 2
        + chartSingleBox.current_column_.box_size_ :=
  ⟨by decide!, by decide!, by decide!, by decide!, by decide!, by decide!, by decide!,
    by decide!, by decide!, by decide!, by decide!, by decide!,
    C22_in_place_reversal_effect 0 chartSingleBox.current_column_ 2 4 (by decide!) (by decide!)
      (by decide!) (by decide!) (by decide!) (by decide!) (by decide!) (by decide!)⟩

/-! ## The date of the last change -/

/-- C26 (amended): `PF_Chart::AddValue` sets `last_change_date_` to the time of the
observation when the current column reported accepted or reversal and leaves it as it was
when the column reported ignored; so a returned status accepted or reversal implies
`last_change_date_ = time`, while a returned status ignored comes either from a column that
reported ignored (date unchanged) or from a column that reported reversal, whose successor
ignored the price fed to it again (date set, a column appended) -/
theorem C26_last_change_date (fuel : Nat) (c c1 : PF_Chart) (price : ℚ) (time : tpt)
    (status : Status) (h : c.AddValue fuel price time = some (c1, status)) :
    ∃ col columnStatus successor,
      c.current_column_.AddValue fuel price time = some (col, columnStatus, successor) ∧
      ((columnStatus = Status.e_accepted ∨ columnStatus = Status.e_reversal) →
        c1.last_change_date_ = time) ∧
      (columnStatus = Status.e_ignored →
        c1.last_change_date_ = c.last_change_date_ ∧ status = Status.e_ignored) ∧
      ((status = Status.e_accepted ∨ status = Status.e_reversal) →
        c1.last_change_date_ = time) ∧
      (status = Status.e_ignored →
        (columnStatus = Status.e_ignored ∧ c1.last_change_date_ = c.last_change_date_) ∨
        (columnStatus = Status.e_reversal ∧ c1.last_change_date_ = time ∧
          c1.columns_ = c.columns_ ++ [col])) := by
  cases ha : c.current_column_.AddValue fuel price time with
  | none => simp [PF_Chart.AddValue, ha] at h
  | some ra =>
    obtain ⟨col, st, nc⟩ := ra
    refine ⟨col, st, nc, rfl, ?_⟩
    cases st with
    | e_accepted =>
      rw [c.AddValue_of_accepted fuel price time col nc ha] at h
      simp only [Option.some.injEq, Prod.mk.injEq] at h
      obtain ⟨h1, h2⟩ := h
      subst h1 h2
      simp
    | e_ignored =>
      rw [c.AddValue_of_ignored fuel price time col nc ha] at h
      simp only [Option.some.injEq, Prod.mk.injEq] at h
      obtain ⟨h1, h2⟩ := h
      subst h1 h2
      simp
    | e_reversal =>
      obtain ⟨-, s, hs, -⟩ := (c.current_column_.AddValue_step fuel price time _ ha).reversal rfl
      simp only at hs
      subst hs
      rw [c.AddValue_of_reversal fuel price time col s ha] at h
      cases hs2 : s.AddValue fuel price time with
      | none => simp [hs2] at h
      | some r2 =>
        simp only [hs2, Option.map_some', Option.some.injEq, Prod.mk.injEq] at h
        obtain ⟨h1, h2⟩ := h
        subst h1 h2
        simp

/-- C26 fails at `chartUp` (up column from 6 to 18, box size 3, three reversal boxes, last
change at time 2) with the price 9 at time 3: the column reports a reversal, the successor
from 15 to 9 ignores the price fed to it again, so `PF_Chart::AddValue` returns ignored while
`last_change_date_` has become the time of the observation. -/
theorem C26_counterexample :
    freshBox3.feed 0 [(8, 1), (20, 2)] = some chartUp ∧
    chartUp.last_change_date_ = 2 ∧
    (chartUp.current_column_.AddValue 0 9 3).map (fun r => r.2.1) = some Status.e_reversal ∧
    (chartUp.AddValue 0 9 3).map (fun r => (r.2, r.1.last_change_date_, r.1.GetNumberOfColumns))
      = some (Status.e_ignored, 3, 2) := by
  decide!

/-- C26 (amended) at `chartUp` with the price 9 at time 3, which gives `chartDown`. -/
theorem C26_last_change_date_witness :
    chartUp.last_change_date_ = 2 ∧
    ∃ col columnStatus successor,
      chartUp.current_column_.AddValue 0 9 3 = some (col, columnStatus, successor) ∧
      ((columnStatus = Status.e_accepted ∨ columnStatus = Status.e_reversal) →
        chartDown.last_change_date_ = 3) ∧
      (columnStatus = Status.e_ignored →
        chartDown.last_change_date_ = chartUp.last_change_date_ ∧
          Status.e_ignored = Status.e_ignored) ∧
      ((Status.e_ignored = Status.e_accepted ∨ Status.e_ignored = Status.e_reversal) →
        chartDown.last_change_date_ = 3) ∧
      (Status.e_ignored = Status.e_ignored →
        (columnStatus = Status.e_ignored ∧
          chartDown.last_change_date_ = chartUp.last_change_date_) ∨
        (columnStatus = Status.e_reversal ∧ chartDown.last_change_date_ = 3 ∧
          chartDown.columns_ = chartUp.columns_ ++ [col])) :=
  ⟨by decide!, C26_last_change_date 0 chartUp chartDown 9 3 Status.e_ignored (by decide!)⟩


/-! ## Unknown direction -/

theorem PF_Column.AddValue_unknownFlat (fuel : Nat) (c : PF_Column) (p : ℚ) (t : tpt)
    (r : PF_Column × AddResult) (h : c.AddValue fuel p t = some r) (hc : UnknownFlat c) :
    UnknownFlat r.1 ∧ ∀ s, r.2.2 = some s → UnknownFlat s := by
  have hstep := c.AddValue_step fuel p t r h
  have hsucc : ∀ s, r.2.2 = some s → UnknownFlat s := by
    intro s hs hu
    obtain ⟨col, st, nc⟩ := r
    simp only at hs
    subst hs
    cases st with
    | e_accepted => have := (hstep.accepted rfl).1; simp at this
    | e_ignored => have := (hstep.ignored rfl).2; simp at this
    | e_reversal =>
      obtain ⟨-, s2, hs2, -, -, -, hdir⟩ := hstep.reversal rfl
      simp only [Option.some.injEq] at hs2
      subst hs2
      rcases hdir with ⟨-, hd⟩ | ⟨-, hd⟩ <;> rw [hd] at hu <;> cases hu
  refine ⟨?_, hsucc⟩
  by_cases hk : c.direction_ = Direction.e_unknown
  · -- the column has no direction yet: the call starts it or looks for a direction
    by_cases h1 : c.column_scale_ = ColumnScale.e_percent
    · unfold PF_Column.AddValue at h
      rw [if_pos h1] at h
      unfold PF_Column.AddValuePercent at h
      split_ifs at h with k2
      · simp only [Option.some.injEq] at h
        subst h
        intro _
        rfl
      · unfold PF_Column.TryToFindDirectionPercent at h
        split_ifs at h
        · cases hx : percentLoopUp fuel p c.top_ c.percent_box_increment_up_ with
          | none => simp [hx] at h
          | some x =>
            simp only [hx, Option.some.injEq] at h
            subst h
            intro hu
            cases hu
        · cases hx : percentLoopDown fuel p c.bottom_ c.percent_box_increment_down_ with
          | none => simp [hx] at h
          | some x =>
            simp only [hx, Option.some.injEq] at h
            subst h
            intro hu
            cases hu
        · simp only [Option.some.injEq] at h
          subst h
          exact hc
    · rw [c.AddValue_linear_eq fuel p t h1] at h
      simp only [Option.some.injEq] at h
      subst h
      split_ifs with h2
      · intro _
        rfl
      · unfold PF_Column.TryToFindDirection
        split_ifs
        · intro hu; cases hu
        · intro hu; cases hu
        · exact hc
  · -- the column has a direction: it keeps one
    obtain ⟨col, st, nc⟩ := r
    intro hu
    cases st with
    | e_accepted =>
      rcases (hstep.accepted rfl).2 with ⟨-, hd⟩ | ⟨-, -, hd⟩
      · exact absurd ((hd hk).symm.trans hu) hk
      · exact absurd hu hd
    | e_ignored =>
      have := (hstep.ignored rfl).1
      simp only at this
      subst this
      exact absurd hu hk
    | e_reversal =>
      have := (hstep.reversal rfl).1
      simp only at this
      subst this
      exact absurd hu hk

theorem PF_Chart.AddValue_flatChart (fuel : Nat) (c c1 : PF_Chart) (p : ℚ) (t : tpt)
    (st : Status) (h : c.AddValue fuel p t = some (c1, st)) (hc : FlatChart c) :
    FlatChart c1 := by
  obtain ⟨hcols, hcur⟩ := hc
  cases ha : c.current_column_.AddValue fuel p t with
  | none => simp [PF_Chart.AddValue, ha] at h
  | some ra =>
    obtain ⟨col, cst, nc⟩ := ra
    obtain ⟨hflat, hsucc⟩ := c.current_column_.AddValue_unknownFlat fuel p t _ ha hcur
    cases cst with
    | e_accepted =>
      rw [c.AddValue_of_accepted fuel p t col nc ha] at h
      simp only [Option.some.injEq, Prod.mk.injEq] at h
      obtain ⟨h1, -⟩ := h
      subst h1
      exact ⟨hcols, hflat⟩
    | e_ignored =>
      rw [c.AddValue_of_ignored fuel p t col nc ha] at h
      simp only [Option.some.injEq, Prod.mk.injEq] at h
      obtain ⟨h1, -⟩ := h
      subst h1
      exact ⟨hcols, hflat⟩
    | e_reversal =>
      obtain ⟨-, s, hs, -⟩ := (c.current_column_.AddValue_step fuel p t _ ha).reversal rfl
      simp only at hs
      subst hs
      rw [c.AddValue_of_reversal fuel p t col s ha] at h
      cases hs2 : s.AddValue fuel p t with
      | none => simp [hs2] at h
      | some r2 =>
        simp only [hs2, Option.map_some', Option.some.injEq, Prod.mk.injEq] at h
        obtain ⟨h1, -⟩ := h
        subst h1
        refine ⟨?_, (s.AddValue_unknownFlat fuel p t _ hs2 (hsucc s rfl)).1⟩
        intro x hx
        simp only [List.mem_append, List.mem_singleton] at hx
        rcases hx with hx | hx
        · exact hcols x hx
        · exact hx ▸ hflat

theorem PF_Chart.feed_flatChart (fuel : Nat) (obs : List (ℚ × tpt)) :
    ∀ c c1 : PF_Chart, FlatChart c → c.feed fuel obs = some c1 → FlatChart c1 := by
  induction obs with
  | nil =>
    intro c c1 hc h
    simp only [PF_Chart.feed, Option.some.injEq] at h
    exact h ▸ hc
  | cons o rest ih =>
    intro c c1 hc h
    obtain ⟨p, t⟩ := o
    cases ha : c.AddValue fuel p t with
    | none => simp [PF_Chart.feed, ha] at h
    | some ra =>
      obtain ⟨c2, st⟩ := ra
      simp only [PF_Chart.feed, ha] at h
      exact ih c2 c1 (c.AddValue_flatChart fuel c2 p t st ha hc) h

theorem PF_Chart.new_flatChart (symbol : String) (b : ℚ) (e r : Int) (bt : BoxType)
    (sc : ColumnScale) : FlatChart (PF_Chart.new symbol b e r bt sc) := by
  obtain ⟨-, -, -, -, -, -, h7, h8, -⟩ :=
    PF_Column.new_fields b e r bt sc Direction.e_unknown (-1) (-1)
  refine ⟨by simp [PF_Chart.new], fun _ => ?_⟩
  show (PF_Column.new b e r bt sc Direction.e_unknown (-1) (-1)).top_
    = (PF_Column.new b e r bt sc Direction.e_unknown (-1) (-1)).bottom_
  rw [h7, h8]

/-- C28: on the linear scale every closed column and the current column of a chart reached
from a fresh chart have `top = bottom` while their direction is unknown -/
theorem C28_unknown_direction_flat (fuel : Nat) (symbol : String) (box_size : ℚ)
    (box_size_exponent reversal_boxes : Int) (box_type : BoxType) (obs : List (ℚ × tpt))
    (hb : 0 < box_size) (hr : 1 ≤ reversal_boxes) :
    ∃ c, (PF_Chart.new symbol box_size box_size_exponent reversal_boxes box_type
        ColumnScale.e_linear).feed fuel obs = some c ∧
      (∀ col ∈ c.columns_, col.direction_ = Direction.e_unknown → col.top_ = col.bottom_) ∧
      (c.current_column_.direction_ = Direction.e_unknown →
        c.current_column_.top_ = c.current_column_.bottom_) := by
  obtain ⟨c, h⟩ := PF_Chart.feed_linear_total fuel obs _
    (PF_Chart.new_linChart symbol box_size box_size_exponent reversal_boxes box_type).2.1
  obtain ⟨h1, h2⟩ := PF_Chart.feed_flatChart fuel obs _ c
    (PF_Chart.new_flatChart symbol box_size box_size_exponent reversal_boxes box_type
      ColumnScale.e_linear) h
  exact ⟨c, h, h1, h2⟩

/-- C28 at a fresh chart with box size 3 and three reversal boxes after the prices 8 and 7:
the current column has no direction yet and holds the single box 6. -/
theorem C28_unknown_direction_flat_witness :
    (0 : ℚ) < 3 ∧ (1 : Int) ≤ 3 ∧
    ((PF_Chart.new "B3" 3 0 3 BoxType.e_integral ColumnScale.e_linear).feed 0
        [(8, 1), (7, 2)]).map
      (fun c => (c.current_column_.direction_, c.current_column_.top_,
        c.current_column_.bottom_)) = some (Direction.e_unknown, 6, 6) ∧
    ∃ c, (PF_Chart.new "B3" 3 0 3 BoxType.e_integral ColumnScale.e_linear).feed 0
        [(8, 1), (7, 2)] = some c ∧
      (∀ col ∈ c.columns_, col.direction_ = Direction.e_unknown → col.top_ = col.bottom_) ∧
      (c.current_column_.direction_ = Direction.e_unknown →
        c.current_column_.top_ = c.current_column_.bottom_) :=
  ⟨by decide!, by decide!, by decide!,
    C28_unknown_direction_flat 0 "B3" 3 0 3 BoxType.e_integral
      [(8, 1), (7, 2)] (by decide!) (by decide!)⟩


/-! ## Average true range -/

theorem DecimalStrings.read_of_some (D : DecimalStrings) (s : String) (q : ℚ)
    (h : D.FromStr s = some q) : D.read s = Except.ok q := by
  unfold DecimalStrings.read
  rw [h]

theorem DecimalStrings.read_ne_insufficient (D : DecimalStrings) (s : String) :
    D.read s ≠ Except.error ATRError.insufficientData := by
  unfold DecimalStrings.read
  cases D.FromStr s <;> simp

theorem DecimalStrings.read_ne_outOfRange (D : DecimalStrings) (s : String) (k : Nat) :
    D.read s ≠ Except.error (ATRError.rowOutOfRange k) := by
  unfold DecimalStrings.read
  cases D.FromStr s <;> simp

theorem specTrueRange_eq (high low close : Nat → ℚ) (i : Nat) :
    specTrueRange high low close i
      = max (high i - low i) (max |high i - close (i + 1)| |low i - close (i + 1)|) := by
  unfold specTrueRange
  rw [max_assoc]

theorem ComputeATR.body_of_denote (D : DecimalStrings) (highOf lowOf closeOf : OHLCRow → String)
    (the_data : List OHLCRow) (i : Nat) (total : ℚ) (row prev : OHLCRow) (h l c : ℚ)
    (h1 : the_data[i]? = some row) (h2 : D.FromStr (highOf row) = some h)
    (h3 : D.FromStr (lowOf row) = some l) (h4 : the_data[i + 1]? = some prev)
    (h5 : D.FromStr (closeOf prev) = some c) :
    ComputeATR.body D highOf lowOf closeOf the_data i total
      = Except.ok (total + max (h - l) (max |h - c| |l - c|)) := by
  unfold ComputeATR.body
  simp only [h1, h4, D.read_of_some _ _ h2, D.read_of_some _ _ h3, D.read_of_some _ _ h5]

theorem ComputeATR.body_congr (D : DecimalStrings) (highOf lowOf closeOf : OHLCRow → String)
    (data1 data2 : List OHLCRow) (i : Nat) (total : ℚ)
    (h1 : data1[i]? = data2[i]?) (h2 : data1[i + 1]? = data2[i + 1]?) :
    ComputeATR.body D highOf lowOf closeOf data1 i total
      = ComputeATR.body D highOf lowOf closeOf data2 i total := by
  unfold ComputeATR.body
  rw [h1, h2]

/-- The failures of the loop body: a row that the data does not have, at the index `i` or
`i + 1`, or a decimal string that does not parse. -/
theorem ComputeATR.body_error (D : DecimalStrings) (highOf lowOf closeOf : OHLCRow → String)
    (the_data : List OHLCRow) (i : Nat) (total : ℚ) (e : ATRError)
    (h : ComputeATR.body D highOf lowOf closeOf the_data i total = Except.error e) :
    (e = ATRError.rowOutOfRange i ∧ the_data[i]? = none) ∨
    (e = ATRError.rowOutOfRange (i + 1) ∧ the_data[i + 1]? = none) ∨
    ∃ s, e = ATRError.malformedDecimal s := by
  have hread : ∀ s e2, D.read s = Except.error e2 → ∃ s2, e2 = ATRError.malformedDecimal s2 := by
    intro s e2 hs
    unfold DecimalStrings.read at hs
    cases hf : D.FromStr s with
    | none =>
      simp only [hf, Except.error.injEq] at hs
      exact ⟨s, hs.symm⟩
    | some q => simp [hf] at hs
  unfold ComputeATR.body at h
  cases h1 : the_data[i]? with
  | none =>
    simp only [h1, Except.error.injEq] at h
    exact Or.inl ⟨h.symm, rfl⟩
  | some row =>
    simp only [h1] at h
    cases h2 : D.read (highOf row) with
    | error e2 =>
      simp only [h2, Except.error.injEq] at h
      exact Or.inr (Or.inr (h ▸ hread _ _ h2))
    | ok hi =>
      simp only [h2] at h
      cases h3 : D.read (lowOf row) with
      | error e2 =>
        simp only [h3, Except.error.injEq] at h
        exact Or.inr (Or.inr (h ▸ hread _ _ h3))
      | ok lo =>
        simp only [h3] at h
        cases h4 : the_data[i + 1]? with
        | none =>
          simp only [h4, Except.error.injEq] at h
          exact Or.inr (Or.inl ⟨h.symm, rfl⟩)
        | some prev =>
          simp only [h4] at h
          cases h5 : D.read (closeOf prev) with
          | error e2 =>
            simp only [h5, Except.error.injEq] at h
            exact Or.inr (Or.inr (h ▸ hread _ _ h5))
          | ok cl => simp [h5] at h

theorem ComputeATR.body_ne_insufficient (D : DecimalStrings)
    (highOf lowOf closeOf : OHLCRow → String) (the_data : List OHLCRow) (i : Nat) (total : ℚ) :
    ComputeATR.body D highOf lowOf closeOf the_data i total
      ≠ Except.error ATRError.insufficientData := by
  intro h
  rcases ComputeATR.body_error D highOf lowOf closeOf the_data i total _ h with
    ⟨h1, -⟩ | ⟨h1, -⟩ | ⟨s, h1⟩ <;> cases h1

theorem ComputeATR.body_ne_outOfRange (D : DecimalStrings)
    (highOf lowOf closeOf : OHLCRow → String) (the_data : List OHLCRow) (i : Nat) (total : ℚ)
    (k : Nat) (hi : i + 1 < the_data.length) :
    ComputeATR.body D highOf lowOf closeOf the_data i total
      ≠ Except.error (ATRError.rowOutOfRange k) := by
  intro h
  rcases ComputeATR.body_error D highOf lowOf closeOf the_data i total _ h with
    ⟨-, h1⟩ | ⟨-, h1⟩ | ⟨s, h1⟩
  · rw [List.getElem?_eq_none_iff] at h1
    omega
  · rw [List.getElem?_eq_none_iff] at h1
    omega
  · cases h1

theorem ComputeATR.loop_of_denote (D : DecimalStrings) (highOf lowOf closeOf : OHLCRow → String)
    (the_data : List OHLCRow) (high low close : Nat → ℚ) :
    ∀ (remaining i : Nat) (total : ℚ),
      (∀ j, i ≤ j → j < i + remaining →
        (∃ row, the_data[j]? = some row ∧ D.FromStr (highOf row) = some (high j) ∧
          D.FromStr (lowOf row) = some (low j)) ∧
        (∃ prev, the_data[j + 1]? = some prev ∧
          D.FromStr (closeOf prev) = some (close (j + 1)))) →
      ComputeATR.loop D highOf lowOf closeOf the_data remaining i total
        = Except.ok (total + ((List.range remaining).map
            (fun j => specTrueRange high low close (i + j))).sum) := by
  intro remaining
  induction remaining with
  | zero => intro i total _; simp [ComputeATR.loop]
  | succ k ih =>
    intro i total h
    obtain ⟨⟨row, r1, r2, r3⟩, ⟨prev, p1, p2⟩⟩ := h i le_rfl (by omega)
    unfold ComputeATR.loop
    rw [ComputeATR.body_of_denote D highOf lowOf closeOf the_data i total row prev _ _ _
      r1 r2 r3 p1 p2]
    simp only
    rw [ih (i + 1) _ (fun j hj1 hj2 => h j (by omega) (by omega))]
    rw [List.range_succ_eq_map, List.map_cons, List.sum_cons, List.map_map]
    rw [specTrueRange_eq]
    have e : ((fun j => specTrueRange high low close (i + j)) ∘ Nat.succ)
        = (fun j => specTrueRange high low close (i + 1 + j)) := by
      funext j
      simp only [Function.comp, Nat.succ_eq_add_one]
      congr 1
      omega
    rw [e]
    simp only [add_zero]
    congr 1
    ring

theorem ComputeATR.loop_congr (D : DecimalStrings) (highOf lowOf closeOf : OHLCRow → String)
    (data1 data2 : List OHLCRow) :
    ∀ (remaining i : Nat) (total : ℚ),
      (∀ j, i ≤ j → j ≤ i + remaining → data1[j]? = data2[j]?) →
      ComputeATR.loop D highOf lowOf closeOf data1 remaining i total
        = ComputeATR.loop D highOf lowOf closeOf data2 remaining i total := by
  intro remaining
  induction remaining with
  | zero => intro i total _; simp [ComputeATR.loop]
  | succ k ih =>
    intro i total h
    unfold ComputeATR.loop
    rw [ComputeATR.body_congr D highOf lowOf closeOf data1 data2 i total
      (h i le_rfl (by omega)) (h (i + 1) (by omega) (by omega))]
    cases ComputeATR.body D highOf lowOf closeOf data2 i total with
    | error e => rfl
    | ok total2 => exact ih (i + 1) total2 (fun j hj1 hj2 => h j (by omega) (by omega))

theorem ComputeATR.loop_ne_insufficient (D : DecimalStrings)
    (highOf lowOf closeOf : OHLCRow → String) (the_data : List OHLCRow) :
    ∀ (remaining i : Nat) (total : ℚ),
      ComputeATR.loop D highOf lowOf closeOf the_data remaining i total
        ≠ Except.error ATRError.insufficientData := by
  intro remaining
  induction remaining with
  | zero => intro i total; simp [ComputeATR.loop]
  | succ k ih =>
    intro i total
    unfold ComputeATR.loop
    cases hb : ComputeATR.body D highOf lowOf closeOf the_data i total with
    | error e =>
      intro h
      simp only at h
      exact ComputeATR.body_ne_insufficient D highOf lowOf closeOf the_data i total (hb.trans h)
    | ok total2 => exact ih (i + 1) total2

theorem ComputeATR.loop_ne_domainError (D : DecimalStrings)
    (highOf lowOf closeOf : OHLCRow → String) (the_data : List OHLCRow) :
    ∀ (remaining i : Nat) (total : ℚ),
      ComputeATR.loop D highOf lowOf closeOf the_data remaining i total
        ≠ Except.error ATRError.domainError := by
  intro remaining
  induction remaining with
  | zero => intro i total; simp [ComputeATR.loop]
  | succ k ih =>
    intro i total
    unfold ComputeATR.loop
    cases hb : ComputeATR.body D highOf lowOf closeOf the_data i total with
    | error e =>
      intro h
      simp only at h
      rcases ComputeATR.body_error D highOf lowOf closeOf the_data i total _ (hb.trans h) with
        ⟨h1, -⟩ | ⟨h1, -⟩ | ⟨s, h1⟩ <;> cases h1
    | ok total2 => exact ih (i + 1) total2

theorem ComputeATR.loop_ne_outOfRange (D : DecimalStrings)
    (highOf lowOf closeOf : OHLCRow → String) (the_data : List OHLCRow) (m : Nat) :
    ∀ (remaining i : Nat) (total : ℚ), i + remaining < the_data.length →
      ComputeATR.loop D highOf lowOf closeOf the_data remaining i total
        ≠ Except.error (ATRError.rowOutOfRange m) := by
  intro remaining
  induction remaining with
  | zero => intro i total _; simp [ComputeATR.loop]
  | succ k ih =>
    intro i total hlen
    unfold ComputeATR.loop
    cases hb : ComputeATR.body D highOf lowOf closeOf the_data i total with
    | error e =>
      intro h
      simp only at h
      exact ComputeATR.body_ne_outOfRange D highOf lowOf closeOf the_data i total m (by omega)
        (hb.trans h)
    | ok total2 => exact ih (i + 1) total2 (by omega)

/-- The two loops of `ComputeATR` as one: the loop over the members that `use_adjusted`
selects. -/
theorem ComputeATR_eq (D : DecimalStrings) (symbol : String) (the_data : List OHLCRow)
    (how_many_days : Int) (use_adjusted : UseAdjusted) :
    ComputeATR D symbol the_data how_many_days use_adjusted =
      if ¬ ((the_data.length : Int) > how_many_days % 2 ^ 32) then
        Except.error ATRError.insufficientData
      else
        match ComputeATR.loop D use_adjusted.highOf use_adjusted.lowOf use_adjusted.closeOf
            the_data how_many_days.toNat 0 0 with
        | Except.error e => Except.error e
        | Except.ok total => divideByCount total how_many_days := by
  unfold ComputeATR
  cases use_adjusted <;> rfl

theorem count_mod_eq {n : Int} (h0 : 0 ≤ n) (h31 : n < 2 ^ 31) : n % 2 ^ 32 = n :=
  Int.emod_eq_of_lt h0 (by omega)

/-- C24: for more than `n ≥ 1` rows whose members chosen by `use_adjusted` are decimal
strings, `ComputeATR` returns the mean of the first `n` true ranges
`max(high_i − low_i, |high_i − close_{i+1}|, |low_i − close_{i+1}|)`, and the result is the
same for any other data with more than `n` rows and the same rows 0..n -/
theorem C24_compute_atr_reference (D : DecimalStrings) (symbol : String)
    (the_data : List OHLCRow) (n : Nat) (use_adjusted : UseAdjusted)
    (high low close : Nat → ℚ) (hn : 1 ≤ n) (h31 : (n : Int) < 2 ^ 31)
    (hlen : n < the_data.length)
    (hrows : RowsDenote D use_adjusted the_data n high low close) :
    ComputeATR D symbol the_data (n : Int) use_adjusted
      = Except.ok (specATR high low close n) ∧
    ∀ other : List OHLCRow, n < other.length → other.take (n + 1) = the_data.take (n + 1) →
      ComputeATR D symbol other (n : Int) use_adjusted
        = ComputeATR D symbol the_data (n : Int) use_adjusted := by
  have hmod : (n : Int) % 2 ^ 32 = n := count_mod_eq (by omega) h31
  have hne : ¬ ((n : Int) = 0) := by omega
  constructor
  · rw [ComputeATR_eq, hmod, if_neg (by simpa using hlen), Int.toNat_ofNat]
    rw [ComputeATR.loop_of_denote D _ _ _ the_data high low close n 0 0
      (fun j _ hj => hrows j (by omega))]
    simp only [divideByCount, if_neg hne, zero_add, Int.cast_natCast]
    rfl
  · intro other hlen2 htake
    rw [ComputeATR_eq, ComputeATR_eq, hmod, if_neg (by simpa using hlen2),
      if_neg (by simpa using hlen), Int.toNat_ofNat]
    rw [ComputeATR.loop_congr D _ _ _ other the_data n 0 0]
    intro j _ hj
    have e1 : (other.take (n + 1))[j]? = other[j]? := by
      rw [List.getElem?_take, if_pos (by omega)]
    have e2 : (the_data.take (n + 1))[j]? = the_data[j]? := by
      rw [List.getElem?_take, if_pos (by omega)]
    rw [← e1, ← e2, htake]

/-- The assertion of `ComputeATR` is its only failure of that kind: the call fails with it
exactly when the number of rows is not above the count as the comparison reads it. -/
theorem ComputeATR_insufficient_iff (D : DecimalStrings) (symbol : String)
    (the_data : List OHLCRow) (how_many_days : Int) (use_adjusted : UseAdjusted) :
    ComputeATR D symbol the_data how_many_days use_adjusted
        = Except.error ATRError.insufficientData ↔
      ¬ ((the_data.length : Int) > how_many_days % 2 ^ 32) := by
  rw [ComputeATR_eq]
  by_cases hlen : (the_data.length : Int) > how_many_days % 2 ^ 32
  · rw [if_neg (not_not.mpr hlen)]
    have k1 := ComputeATR.loop_ne_insufficient D use_adjusted.highOf use_adjusted.lowOf
      use_adjusted.closeOf the_data how_many_days.toNat 0 0
    cases hl : ComputeATR.loop D use_adjusted.highOf use_adjusted.lowOf use_adjusted.closeOf
        the_data how_many_days.toNat 0 0 with
    | error e =>
      rw [hl] at k1
      exact ⟨fun h => absurd h k1, fun h => absurd hlen h⟩
    | ok total =>
      simp only [divideByCount]
      refine ⟨fun h => ?_, fun h => absurd hlen h⟩
      split_ifs at h
      cases h
  · rw [if_pos hlen]
    exact ⟨fun _ => hlen, fun _ => rfl⟩

/-- C25 (amended): for a count that an `int32_t` holds, `ComputeATR` fails on its assertion
exactly when the number of rows is not above the count read as an unsigned integer of 32
bits. For a count `0 ≤ how_many_days` that is the count itself: the call fails on the
assertion exactly when the number of rows is not above the count, it never reads a row that
the data does not have, and for a count of at least one the divisor is not zero. For a
negative count that is the count plus 2^32: the call fails on the assertion exactly when the
number of rows is at most the count plus 2^32, so it does for every data of at most 2^31
rows -/
theorem C25_insufficient_data (D : DecimalStrings) (symbol : String)
    (the_data : List OHLCRow) (how_many_days : Int) (use_adjusted : UseAdjusted)
    (hlo : -2 ^ 31 ≤ how_many_days) (h31 : how_many_days < 2 ^ 31) :
    (ComputeATR D symbol the_data how_many_days use_adjusted
        = Except.error ATRError.insufficientData ↔
      ¬ ((the_data.length : Int) > how_many_days % 2 ^ 32)) ∧
    (0 ≤ how_many_days →
      (ComputeATR D symbol the_data how_many_days use_adjusted
          = Except.error ATRError.insufficientData ↔
        ¬ ((the_data.length : Int) > how_many_days)) ∧
      (∀ index, ComputeATR D symbol the_data how_many_days use_adjusted
          ≠ Except.error (ATRError.rowOutOfRange index)) ∧
      (1 ≤ how_many_days → (how_many_days : ℚ) ≠ 0 ∧
        ComputeATR D symbol the_data how_many_days use_adjusted
          ≠ Except.error ATRError.domainError)) ∧
    (how_many_days < 0 →
      how_many_days % 2 ^ 32 = how_many_days + 2 ^ 32 ∧
      (ComputeATR D symbol the_data how_many_days use_adjusted
          = Except.error ATRError.insufficientData ↔
        (the_data.length : Int) ≤ how_many_days + 2 ^ 32) ∧
      ((the_data.length : Int) ≤ 2 ^ 31 →
        ComputeATR D symbol the_data how_many_days use_adjusted
          = Except.error ATRError.insufficientData)) := by
  have main := ComputeATR_insufficient_iff D symbol the_data how_many_days use_adjusted
  refine ⟨main, fun h0 => ?_, fun hneg => ?_⟩
  · have hmod : how_many_days % 2 ^ 32 = how_many_days := count_mod_eq h0 h31
    have hq : 1 ≤ how_many_days → (how_many_days : ℚ) ≠ 0 := by
      intro h1
      exact_mod_cast (by omega : how_many_days ≠ 0)
    refine ⟨by rw [main, hmod], ?_⟩
    rw [ComputeATR_eq, hmod]
    by_cases hlen : (the_data.length : Int) > how_many_days
    · rw [if_neg (not_not.mpr hlen)]
      have hlen2 : 0 + how_many_days.toNat < the_data.length := by omega
      have k2 := fun index => ComputeATR.loop_ne_outOfRange D use_adjusted.highOf
        use_adjusted.lowOf use_adjusted.closeOf the_data index how_many_days.toNat 0 0 hlen2
      have k3 := ComputeATR.loop_ne_domainError D use_adjusted.highOf use_adjusted.lowOf
        use_adjusted.closeOf the_data how_many_days.toNat 0 0
      cases hl : ComputeATR.loop D use_adjusted.highOf use_adjusted.lowOf use_adjusted.closeOf
          the_data how_many_days.toNat 0 0 with
      | error e =>
        rw [hl] at k2 k3
        exact ⟨k2, fun h1 => ⟨hq h1, k3⟩⟩
      | ok total =>
        simp only [divideByCount]
        refine ⟨fun index => ?_, fun h1 => ⟨hq h1, ?_⟩⟩
        · split_ifs <;> simp
        · rw [if_neg (by omega)]
          simp
    · rw [if_pos hlen]
      exact ⟨fun index => by simp, fun h1 => ⟨hq h1, by simp⟩⟩
  · have hmod : how_many_days % 2 ^ 32 = how_many_days + 2 ^ 32 := by
      rw [← Int.add_mul_emod_self_left how_many_days (2 ^ 32) 1, mul_one]
      exact Int.emod_eq_of_lt (by omega) (by omega)
    refine ⟨hmod, ?_, fun hlen => ?_⟩
    · rw [main, hmod]
      omega
    · rw [main, hmod]
      omega


/-- C24 at the three rows `atrRows` with two days and the unadjusted members: the true
ranges are 4 and 6, the average is 5. -/
theorem C24_compute_atr_reference_witness :
    specATR atrHigh atrLow atrClose 2 = 5 ∧
    ComputeATR lengthDecimalStrings "X" atrRows ((2 : Nat) : Int) UseAdjusted.e_No
      = Except.ok (specATR atrHigh atrLow atrClose 2) ∧
    ∀ other : List OHLCRow, 2 < other.length → other.take (2 + 1) = atrRows.take (2 + 1) →
      ComputeATR lengthDecimalStrings "X" other ((2 : Nat) : Int) UseAdjusted.e_No
        = ComputeATR lengthDecimalStrings "X" atrRows ((2 : Nat) : Int) UseAdjusted.e_No :=
  ⟨by decide!,
    C24_compute_atr_reference lengthDecimalStrings "X" atrRows 2 UseAdjusted.e_No
      atrHigh atrLow atrClose (by decide) (by decide) (by decide)
      (fun i hi => by
        have hi2 : i = 0 ∨ i = 1 := by omega
        rcases hi2 with rfl | rfl
        · exact ⟨⟨_, rfl, by decide!, by decide!⟩, ⟨_, rfl, by decide!⟩⟩
        · exact ⟨⟨_, rfl, by decide!, by decide!⟩, ⟨_, rfl, by decide!⟩⟩)⟩

/-- C25 fails for a negative count: with the three rows `atrRows` and the count −1 the number
of rows is above the count, and the assertion fails all the same, because the comparison
with the unsigned size of the array reads the count as 4294967295. For the count 0 the
assertion holds and the call ends in the division by zero. -/
theorem C25_counterexample :
    (atrRows.length : Int) > -1 ∧
    ComputeATR lengthDecimalStrings "X" atrRows (-1) UseAdjusted.e_No
      = Except.error ATRError.insufficientData ∧
    (-1 : Int) % 2 ^ 32 = 4294967295 ∧
    (atrRows.length : Int) > 0 ∧
    ComputeATR lengthDecimalStrings "X" atrRows 0 UseAdjusted.e_No
      = Except.error ATRError.domainError := by
  decide!

/-- C25 (amended) at the three rows `atrRows` with the count 2 and with the count 3. -/
theorem C25_insufficient_data_witness :
    (-2 ^ 31 : Int) ≤ 2 ∧ (2 : Int) < 2 ^ 31 ∧
    ComputeATR lengthDecimalStrings "X" atrRows 2 UseAdjusted.e_No = Except.ok 5 ∧
    ComputeATR lengthDecimalStrings "X" atrRows 3 UseAdjusted.e_No
      = Except.error ATRError.insufficientData ∧
    ((ComputeATR lengthDecimalStrings "X" atrRows 2 UseAdjusted.e_No
        = Except.error ATRError.insufficientData ↔
      ¬ ((atrRows.length : Int) > 2 % 2 ^ 32)) ∧
    ((0 : Int) ≤ 2 →
      (ComputeATR lengthDecimalStrings "X" atrRows 2 UseAdjusted.e_No
          = Except.error ATRError.insufficientData ↔
        ¬ ((atrRows.length : Int) > 2)) ∧
      (∀ index, ComputeATR lengthDecimalStrings "X" atrRows 2 UseAdjusted.e_No
          ≠ Except.error (ATRError.rowOutOfRange index)) ∧
      ((1 : Int) ≤ 2 → ((2 : Int) : ℚ) ≠ 0 ∧
        ComputeATR lengthDecimalStrings "X" atrRows 2 UseAdjusted.e_No
          ≠ Except.error ATRError.domainError)) ∧
    ((2 : Int) < 0 →
      (2 : Int) % 2 ^ 32 = 2 + 2 ^ 32 ∧
      (ComputeATR lengthDecimalStrings "X" atrRows 2 UseAdjusted.e_No
          = Except.error ATRError.insufficientData ↔
        (atrRows.length : Int) ≤ 2 + 2 ^ 32) ∧
      ((atrRows.length : Int) ≤ 2 ^ 31 →
        ComputeATR lengthDecimalStrings "X" atrRows 2 UseAdjusted.e_No
          = Except.error ATRError.insufficientData))) :=
  ⟨by decide, by decide, by decide!, by decide!,
    C25_insufficient_data lengthDecimalStrings "X" atrRows 2 UseAdjusted.e_No
      (by decide) (by decide)⟩

/-! ## Percent scale: the end of the loops -/

theorem percentLoopUp_reaches (v inc : ℚ) (hi : 1 < inc) :
    ∀ (n : Nat) (top : ℚ), 0 < top → v < top * inc ^ n →
      ∃ x, percentLoopUp (n + 1) v top inc = some x := by
  intro n
  induction n with
  | zero =>
    intro top ht hv
    unfold percentLoopUp
    have h : ¬ (v ≥ top * inc) := by
      have : top < top * inc := by nlinarith
      simp only [pow_zero, mul_one] at hv
      intro h2
      linarith
    rw [if_neg h]
    exact ⟨top, rfl⟩
  | succ k ih =>
    intro top ht hv
    unfold percentLoopUp
    by_cases h : v ≥ top * inc
    · rw [if_pos h]
      exact ih (top * inc) (by positivity) (by rw [pow_succ] at hv; linarith [hv, mul_assoc top inc (inc ^ k), mul_comm inc (inc ^ k), mul_assoc top (inc ^ k) inc])
    · rw [if_neg h]
      exact ⟨top, rfl⟩

theorem percentLoopUp_terminates (v top inc : ℚ) (ht : 0 < top) (hi : 1 < inc) :
    ∃ fuel x, percentLoopUp fuel v top inc = some x := by
  obtain ⟨n, hn⟩ := pow_unbounded_of_one_lt (v / top) hi
  have hv : v < top * inc ^ n := by
    rw [div_lt_iff₀ ht] at hn
    linarith
  obtain ⟨x, hx⟩ := percentLoopUp_reaches v inc hi n top ht hv
  exact ⟨n + 1, x, hx⟩

theorem percentLoopDown_reaches (v inc : ℚ) (hv : 0 < v) (h0 : 0 ≤ inc) (h1 : inc < 1) :
    ∀ (n : Nat) (bottom : ℚ), bottom * inc ^ n < v →
      ∃ x, percentLoopDown (n + 1) v bottom inc = some x := by
  intro n
  induction n with
  | zero =>
    intro bottom hb
    unfold percentLoopDown
    simp only [pow_zero, mul_one] at hb
    have h : ¬ (v ≤ bottom * inc) := by
      intro h2
      rcases le_or_lt 0 bottom with hb0 | hb0
      · have : bottom * inc ≤ bottom := by nlinarith
        linarith
      · have : bottom * inc ≤ 0 := by nlinarith
        linarith
    rw [if_neg h]
    exact ⟨bottom, rfl⟩
  | succ k ih =>
    intro bottom hb
    unfold percentLoopDown
    by_cases h : v ≤ bottom * inc
    · rw [if_pos h]
      refine ih (bottom * inc) ?_
      rw [pow_succ] at hb
      have e : bottom * inc * inc ^ k = bottom * (inc ^ k * inc) := by ring
      rw [e]
      exact hb
    · rw [if_neg h]
      exact ⟨bottom, rfl⟩

theorem percentLoopDown_terminates (v bottom inc : ℚ) (hv : 0 < v) (h0 : 0 ≤ inc)
    (h1 : inc < 1) : ∃ fuel x, percentLoopDown fuel v bottom inc = some x := by
  have hn : ∃ n : Nat, bottom * inc ^ n < v := by
    rcases le_or_lt bottom 0 with hb | hb
    · exact ⟨0, by simp only [pow_zero, mul_one]; linarith⟩
    · obtain ⟨n, hn⟩ := exists_pow_lt_of_lt_one (div_pos hv hb) h1
      refine ⟨n, ?_⟩
      rw [lt_div_iff₀ hb] at hn
      linarith
  obtain ⟨n, hn⟩ := hn
  obtain ⟨x, hx⟩ := percentLoopDown_reaches v inc hv h0 h1 n bottom hn
  exact ⟨n + 1, x, hx⟩

theorem PF_Column.TryToFindDirectionPercent_terminates (c : PF_Column) (v : ℚ) (t : tpt)
    (hv : 0 < v) (ht : 0 < c.top_) (hu : 1 < c.percent_box_increment_up_)
    (h0 : 0 ≤ c.percent_box_increment_down_) (h1 : c.percent_box_increment_down_ < 1) :
    ∃ fuel r, c.TryToFindDirectionPercent fuel v t = some r := by
  unfold PF_Column.TryToFindDirectionPercent
  by_cases k1 : v ≥ c.top_ * c.percent_box_increment_up_
  · obtain ⟨fuel, x, hx⟩ := percentLoopUp_terminates v c.top_ _ ht hu
    exact ⟨fuel, by simp only [if_pos k1, hx]; exact ⟨_, rfl⟩⟩
  · by_cases k2 : v ≤ c.bottom_ * c.percent_box_increment_down_
    · obtain ⟨fuel, x, hx⟩ := percentLoopDown_terminates v c.bottom_ _ hv h0 h1
      exact ⟨fuel, by simp only [if_neg k1, if_pos k2, hx]; exact ⟨_, rfl⟩⟩
    · exact ⟨0, by simp only [if_neg k1, if_neg k2]; exact ⟨_, rfl⟩⟩

theorem PF_Column.TryToExtendUpPercent_terminates (c : PF_Column) (v : ℚ) (t : tpt)
    (hv : 0 < v) (ht : 0 < c.top_) (hu : 1 < c.percent_box_increment_up_)
    (h0 : 0 ≤ c.percent_box_increment_down_) (h1 : c.percent_box_increment_down_ < 1) :
    ∃ fuel r, c.TryToExtendUpPercent fuel v t = some r := by
  unfold PF_Column.TryToExtendUpPercent
  by_cases k1 : v ≥ c.top_ * c.percent_box_increment_up_
  · obtain ⟨fuel, x, hx⟩ := percentLoopUp_terminates v c.top_ _ ht hu
    exact ⟨fuel, by simp only [if_pos k1, hx]; exact ⟨_, rfl⟩⟩
  · by_cases k2 : v ≤ c.top_ * c.reversal_factor_down_
    · by_cases k3 : c.reversal_boxes_ = 1
      · by_cases k4 : c.bottom_ ≤ c.top_ * c.percent_box_increment_down_
        · exact ⟨0, by simp only [if_neg k1, if_pos k2, if_pos k3, if_pos k4]; exact ⟨_, rfl⟩⟩
        · obtain ⟨fuel, x, hx⟩ := percentLoopDown_terminates v c.bottom_ _ hv h0 h1
          exact ⟨fuel, by
            simp only [if_neg k1, if_pos k2, if_pos k3, if_neg k4, hx]; exact ⟨_, rfl⟩⟩
      · exact ⟨0, by simp only [if_neg k1, if_pos k2, if_neg k3]; exact ⟨_, rfl⟩⟩
    · exact ⟨0, by simp only [if_neg k1, if_neg k2]; exact ⟨_, rfl⟩⟩

theorem PF_Column.TryToExtendDownPercent_terminates (c : PF_Column) (v : ℚ) (t : tpt)
    (hv : 0 < v) (ht : 0 < c.top_) (hu : 1 < c.percent_box_increment_up_)
    (h0 : 0 ≤ c.percent_box_increment_down_) (h1 : c.percent_box_increment_down_ < 1) :
    ∃ fuel r, c.TryToExtendDownPercent fuel v t = some r := by
  unfold PF_Column.TryToExtendDownPercent
  by_cases k1 : v ≤ c.bottom_ * c.percent_box_increment_down_
  · obtain ⟨fuel, x, hx⟩ := percentLoopDown_terminates v c.bottom_ _ hv h0 h1
    exact ⟨fuel, by simp only [if_pos k1, hx]; exact ⟨_, rfl⟩⟩
  · by_cases k2 : v ≥ c.bottom_ * c.reversal_factor_up_
    · by_cases k3 : c.reversal_boxes_ = 1
      · by_cases k4 : c.top_ ≥ c.bottom_ * c.percent_box_increment_up_
        · exact ⟨0, by simp only [if_neg k1, if_pos k2, if_pos k3, if_pos k4]; exact ⟨_, rfl⟩⟩
        · obtain ⟨fuel, x, hx⟩ := percentLoopUp_terminates v c.top_ _ ht hu
          exact ⟨fuel, by
            simp only [if_neg k1, if_pos k2, if_pos k3, if_neg k4, hx]; exact ⟨_, rfl⟩⟩
      · exact ⟨0, by simp only [if_neg k1, if_pos k2, if_neg k3]; exact ⟨_, rfl⟩⟩
    · exact ⟨0, by simp only [if_neg k1, if_neg k2]; exact ⟨_, rfl⟩⟩

/-- With the preconditions `PercentLoopsEnd` on the percent scale, and always on the linear
scale, a call of `PF_Column::AddValue` returns: from some amount of fuel on the result is
there. -/
theorem PF_Column.AddValue_terminates (c : PF_Column) (p : ℚ) (t : tpt)
    (h : c.column_scale_ = ColumnScale.e_percent → PercentLoopsEnd c p) :
    ∃ fuel0 r, ∀ fuel, fuel0 ≤ fuel → c.AddValue fuel p t = some r := by
  have key : ∃ fuel0 r, c.AddValue fuel0 p t = some r := by
    by_cases hs : c.column_scale_ = ColumnScale.e_percent
    · obtain ⟨hv, hne, hu, h0, h1⟩ := h hs
      have e : ∀ fuel, c.AddValue fuel p t = c.AddValuePercent fuel p t := by
        intro fuel
        unfold PF_Column.AddValue
        rw [if_pos hs]
      simp only [e]
      unfold PF_Column.AddValuePercent
      by_cases k1 : c.top_ = -1 ∧ c.bottom_ = -1
      · exact ⟨0, _, by rw [if_pos k1]⟩
      · have ht : 0 < c.top_ := hne.resolve_left k1
        simp only [if_neg k1]
        by_cases k2 : c.direction_ = Direction.e_unknown
        · simp only [if_pos k2]
          exact c.TryToFindDirectionPercent_terminates p t hv ht hu h0 h1
        · simp only [if_neg k2]
          by_cases k3 : c.direction_ = Direction.e_up
          · simp only [if_pos k3]
            exact c.TryToExtendUpPercent_terminates p t hv ht hu h0 h1
          · simp only [if_neg k3]
            exact c.TryToExtendDownPercent_terminates p t hv ht hu h0 h1
    · exact ⟨0, _, c.AddValue_linear_eq 0 p t hs⟩
  obtain ⟨fuel0, r, hr⟩ := key
  exact ⟨fuel0, r, fun fuel hle => c.AddValue_mono fuel0 fuel p t r hr hle⟩

/-- C27 (amended): whenever `PF_Column::AddValue` returns, on either scale, a successor comes
with the status reversal and with no other status, so `new_col.value()` in
`PF_Chart::AddValue` does not fail: the chart call ends without a result only when a column
call does. The column call returns on the linear scale for every observation, and on the
percent scale for a positive price when the top is positive (or the column empty), the up
increment above one and the down increment in the interval from zero to one -/
theorem C27_successor_iff_reversal (chart : PF_Chart) (price : ℚ) (time : tpt) :
    (∀ fuel col status successor,
      chart.current_column_.AddValue fuel price time = some (col, status, successor) →
        (status = Status.e_reversal ↔ ∃ s, successor = some s) ∧
        (status = Status.e_accepted ∨ status = Status.e_ignored → successor = none)) ∧
    (∀ fuel, chart.AddValue fuel price time = none →
      chart.current_column_.AddValue fuel price time = none ∨
      ∃ col s, chart.current_column_.AddValue fuel price time
          = some (col, Status.e_reversal, some s) ∧
        s.AddValue fuel price time = none) ∧
    ((chart.current_column_.column_scale_ = ColumnScale.e_percent →
        PercentLoopsEnd chart.current_column_ price) →
      ∃ fuel0 col status successor, ∀ fuel, fuel0 ≤ fuel →
        chart.current_column_.AddValue fuel price time = some (col, status, successor)) := by
  have part1 : ∀ fuel col status successor,
      chart.current_column_.AddValue fuel price time = some (col, status, successor) →
        (status = Status.e_reversal ↔ ∃ s, successor = some s) ∧
        (status = Status.e_accepted ∨ status = Status.e_ignored → successor = none) := by
    intro fuel col status successor h
    have hstep := chart.current_column_.AddValue_step fuel price time _ h
    cases status with
    | e_accepted =>
      have h1 := (hstep.accepted rfl).1
      simp only at h1
      subst h1
      simp
    | e_ignored =>
      have h1 := (hstep.ignored rfl).2
      simp only at h1
      subst h1
      simp
    | e_reversal =>
      obtain ⟨-, s, hs, -⟩ := hstep.reversal rfl
      simp only at hs
      subst hs
      simp
  refine ⟨part1, ?_, ?_⟩
  · intro fuel h
    cases ha : chart.current_column_.AddValue fuel price time with
    | none => exact Or.inl rfl
    | some ra =>
      obtain ⟨col, st, nc⟩ := ra
      right
      cases st with
      | e_accepted =>
        rw [chart.AddValue_of_accepted fuel price time col nc ha] at h
        cases h
      | e_ignored =>
        rw [chart.AddValue_of_ignored fuel price time col nc ha] at h
        cases h
      | e_reversal =>
        obtain ⟨s, hs⟩ := (part1 fuel col _ nc ha).1.mp rfl
        subst hs
        rw [chart.AddValue_of_reversal fuel price time col s ha] at h
        refine ⟨col, s, rfl, ?_⟩
        cases hs2 : s.AddValue fuel price time with
        | none => rfl
        | some r2 => simp [hs2] at h
  · intro h
    obtain ⟨fuel0, ⟨col, status, successor⟩, hr⟩ :=
      chart.current_column_.AddValue_terminates price time h
    exact ⟨fuel0, col, status, successor, hr⟩

theorem percentLoopDown_zero_price (inc : ℚ) (h0 : 0 ≤ inc) :
    ∀ (fuel : Nat) (bottom : ℚ), 0 ≤ bottom → percentLoopDown fuel 0 bottom inc = none := by
  intro fuel
  induction fuel with
  | zero => intro bottom _; rfl
  | succ k ih =>
    intro bottom hb
    unfold percentLoopDown
    rw [if_pos (mul_nonneg hb h0)]
    exact ih _ (mul_nonneg hb h0)

/-- C27 fails on the percent scale for the price 0: the current column of the chart of
scenario S6 after the price 100 (top and bottom 100, down increment 0.038) enters the loop
`while (possible_value <= bottom_ * percent_box_increment_down_)`, whose condition stays true
as the bottom shrinks towards zero; whatever the fuel, the call does not return, and neither
does `PF_Chart::AddValue`. -/
theorem C27_counterexample :
    freshPercent.feed 8 [(100, 1)] = some chartPercentStart ∧
    chartPercentStart.current_column_.column_scale_ = ColumnScale.e_percent ∧
    chartPercentStart.current_column_.top_ = 100 ∧
    chartPercentStart.current_column_.bottom_ = 100 ∧
    chartPercentStart.current_column_.percent_box_increment_down_ = 19 / 500 ∧
    (∀ fuel, chartPercentStart.current_column_.AddValue fuel 0 2 = none) ∧
    (∀ fuel, chartPercentStart.AddValue fuel 0 2 = none) := by
  have hcol : ∀ fuel, chartPercentStart.current_column_.AddValue fuel 0 2 = none := by
    intro fuel
    have e1 : chartPercentStart.current_column_.column_scale_ = ColumnScale.e_percent := by
      decide!
    have e2 : ¬ (chartPercentStart.current_column_.top_ = -1 ∧
        chartPercentStart.current_column_.bottom_ = -1) := by decide!
    have e3 : chartPercentStart.current_column_.direction_ = Direction.e_unknown := by decide!
    have e4 : ¬ ((0 : ℚ) ≥ chartPercentStart.current_column_.top_ *
        chartPercentStart.current_column_.percent_box_increment_up_) := by decide!
    have e5 : (0 : ℚ) ≤ chartPercentStart.current_column_.bottom_ *
        chartPercentStart.current_column_.percent_box_increment_down_ := by decide!
    have e6 : (0 : ℚ) ≤ chartPercentStart.current_column_.percent_box_increment_down_ := by
      decide!
    have e7 : (0 : ℚ) ≤ chartPercentStart.current_column_.bottom_ := by decide!
    unfold PF_Column.AddValue
    rw [if_pos e1]
    unfold PF_Column.AddValuePercent
    rw [if_neg e2, if_pos e3]
    unfold PF_Column.TryToFindDirectionPercent
    rw [if_neg e4, if_pos e5, percentLoopDown_zero_price _ e6 fuel _ e7]
  refine ⟨by decide!, by decide!, by decide!, by decide!, by decide!, hcol, ?_⟩
  intro fuel
  unfold PF_Chart.AddValue
  rw [hcol fuel]

/-- C27 (amended) at `chartPercentUp` (percent scale, up column from 100 to 108.16) with the
price 120 at time 4. -/
theorem C27_successor_iff_reversal_witness :
    PercentLoopsEnd chartPercentUp.current_column_ 120 ∧
    (chartPercentUp.current_column_.AddValue 8 120 4).map (fun r => (r.2.1, r.2.2.isNone))
      = some (Status.e_accepted, true) ∧
    ∃ fuel0 col status successor, ∀ fuel, fuel0 ≤ fuel →
      chartPercentUp.current_column_.AddValue fuel 120 4 = some (col, status, successor) :=
  ⟨by unfold PercentLoopsEnd; decide!, by decide!,
    (C27_successor_iff_reversal chartPercentUp 120 4).2.2
      (fun _ => by unfold PercentLoopsEnd; decide!)⟩


/-! ## Percent scale: successors and the geometric relation -/

theorem roundHalfEven_near (x : ℚ) : |(roundHalfEven x : ℚ) - x| ≤ 1 / 2 := by
  unfold roundHalfEven
  have h1 := Int.floor_le x
  have h2 := Int.lt_floor_add_one x
  simp only
  split_ifs with k1 k2 k3
  · rw [abs_le]; constructor <;> linarith
  · rw [abs_le]; push_cast; constructor <;> linarith
  · rw [abs_le]; constructor <;> linarith
  · rw [abs_le]; push_cast; constructor <;> linarith

theorem Rescale_near (a : ℚ) (e : Int) : |Rescale a e - a| ≤ (10 : ℚ) ^ e / 2 := by
  unfold Rescale
  have hp : (0 : ℚ) < (10 : ℚ) ^ e := zpow_pos (by norm_num) e
  have h := roundHalfEven_near (a / (10 : ℚ) ^ e)
  have e1 : (roundHalfEven (a / (10 : ℚ) ^ e) : ℚ) * (10 : ℚ) ^ e - a
      = ((roundHalfEven (a / (10 : ℚ) ^ e) : ℚ) - a / (10 : ℚ) ^ e) * (10 : ℚ) ^ e := by
    field_simp
  rw [e1, abs_mul, abs_of_pos hp]
  calc |(roundHalfEven (a / (10 : ℚ) ^ e) : ℚ) - a / (10 : ℚ) ^ e| * (10 : ℚ) ^ e
      ≤ 1 / 2 * (10 : ℚ) ^ e := mul_le_mul_of_nonneg_right h hp.le
    _ = (10 : ℚ) ^ e / 2 := by ring

/-- C29 fails: on the percent scale with box size 0.04 and one reversal box, the positive
prices 50 and 1.9 give a down column from 50 to 1.9, and the positive price 2 makes it
report a reversal with a successor whose top is `Rescale(1.9 · 1.04, −3) = 1.976` and whose
bottom is `Rescale(1.9 · 1.04, −2) = 1.98`: top below bottom, also in the chart after the
call. With three reversal boxes the prices 0.13, 0.004 and 0.006 give a successor with top
0.006 and bottom 0.01. -/
theorem C29_percent_successor_top_below_bottom :
    (freshPercentOneBox.feed 8 [(50, 1), (19 / 10, 2)]).map (fun c => c.current_column_)
      = some columnPercentDownOneBox ∧
    columnPercentDownOneBox.column_scale_ = ColumnScale.e_percent ∧
    columnPercentDownOneBox.box_size_ = 1 / 25 ∧
    columnPercentDownOneBox.reversal_boxes_ = 1 ∧
    columnPercentDownOneBox.direction_ = Direction.e_down ∧
    columnPercentDownOneBox.top_ = 50 ∧
    columnPercentDownOneBox.bottom_ = 19 / 10 ∧
    (0 : ℚ) < 2 ∧
    (columnPercentDownOneBox.AddValue 8 2 3).map
        (fun r => (r.2.1, r.2.2.map (fun s => (s.direction_, s.top_, s.bottom_))))
      = some (Status.e_reversal, some (Direction.e_up, 247 / 125, 99 / 50)) ∧
    ¬ ((247 / 125 : ℚ) ≥ 99 / 50) ∧
    (freshPercentOneBox.feed 8 [(50, 1), (19 / 10, 2), (2, 3)]).map
        (fun c => (c.GetNumberOfColumns, c.current_column_.direction_, c.current_column_.top_,
          c.current_column_.bottom_))
      = some (2, Direction.e_up, 247 / 125, 99 / 50) ∧
    (freshPercent.feed 8 [(13 / 100, 1), (1 / 250, 2)]).map (fun c => c.current_column_)
      = some columnPercentDownSmall ∧
    columnPercentDownSmall.reversal_boxes_ = 3 ∧
    columnPercentDownSmall.direction_ = Direction.e_down ∧
    columnPercentDownSmall.top_ = 13 / 100 ∧
    columnPercentDownSmall.bottom_ = 1 / 200 ∧
    (columnPercentDownSmall.AddValue 8 (3 / 500) 3).map
        (fun r => (r.2.1, r.2.2.map (fun s => (s.direction_, s.top_, s.bottom_))))
      = some (Status.e_reversal, some (Direction.e_up, 3 / 500, 1 / 100)) ∧
    ¬ ((3 / 500 : ℚ) ≥ 1 / 100) := by
  refine ⟨by decide!, by decide!, by decide!, by decide!, by decide!, by decide!, by decide!,
    by decide!, by decide!, by decide!, by decide!, by decide!, by decide!, by decide!,
    by decide!, by decide!, by decide!, by decide!⟩

theorem pow_26_25_le (k : Nat) (hk : k ≤ 83) : (26 / 25 : ℚ) ^ k ≤ (26 / 25 : ℚ) ^ 83 :=
  pow_le_pow_right₀ (by norm_num) hk

theorem pow_26_25_ge (k : Nat) (hk : 84 ≤ k) : (26 / 25 : ℚ) ^ 84 ≤ (26 / 25 : ℚ) ^ k :=
  pow_le_pow_right₀ (by norm_num) hk

/-- C30 fails: on the chart of scenario S6 (percent scale, box size 0.04, exponent −2) the
positive prices 100 and 3 give a down column from 100 to 3.8, because the bottom is
multiplied by the down increment 0.038. No power of the up factor 1.04 takes the bottom 3.8
to the top 100: `3.8 · 1.04^83` is below 99 and `3.8 · 1.04^84` is above 101, so
`bottom · 1.04^k` stays further than 1 from the top for every `k`, and rescaling to the
exponent −3, which moves a value by at most 0.0005, cannot give the top. -/
theorem C30_percent_down_column_not_geometric :
    (freshPercent.feed 8 [(100, 1), (3, 2)]).map (fun c => c.current_column_)
      = some columnPercentDown ∧
    columnPercentDown.column_scale_ = ColumnScale.e_percent ∧
    columnPercentDown.direction_ = Direction.e_down ∧
    columnPercentDown.top_ = 100 ∧
    columnPercentDown.bottom_ = 19 / 5 ∧
    columnPercentDown.percent_box_increment_up_ = 1 + 1 / 25 ∧
    columnPercentDown.percent_box_increment_down_ = 19 / 500 ∧
    columnPercentDown.percent_exponent_ = -2 - 1 ∧
    (∀ k : ℕ, 1 < |columnPercentDown.bottom_ * columnPercentDown.percent_box_increment_up_ ^ k
      - columnPercentDown.top_|) ∧
    ¬ PercentGeometric columnPercentDown := by
  have t1 : columnPercentDown.top_ = 100 := by decide!
  have t2 : columnPercentDown.bottom_ = 19 / 5 := by decide!
  have t3 : columnPercentDown.percent_box_increment_up_ = 26 / 25 := by decide!
  have t4 : columnPercentDown.percent_exponent_ = -3 := by decide!
  have far : ∀ k : ℕ, 1 < |columnPercentDown.bottom_
      * columnPercentDown.percent_box_increment_up_ ^ k - columnPercentDown.top_| := by
    intro k
    rw [t1, t2, t3]
    rcases le_or_lt k 83 with hk | hk
    · have h1 := pow_26_25_le k hk
      have h2 : (26 / 25 : ℚ) ^ 83 < 99 / (19 / 5) := by norm_num
      rw [lt_abs]
      right
      have : (19 / 5 : ℚ) * (26 / 25) ^ k ≤ 19 / 5 * (26 / 25) ^ 83 :=
        mul_le_mul_of_nonneg_left h1 (by norm_num)
      have h3 : (19 / 5 : ℚ) * (26 / 25) ^ 83 < 99 := by
        have := mul_lt_mul_of_pos_left h2 (by norm_num : (0 : ℚ) < 19 / 5)
        calc (19 / 5 : ℚ) * (26 / 25) ^ 83 < 19 / 5 * (99 / (19 / 5)) := this
          _ = 99 := by norm_num
      linarith
    · have h1 := pow_26_25_ge k hk
      have h2 : (101 : ℚ) / (19 / 5) < (26 / 25 : ℚ) ^ 84 := by norm_num
      rw [lt_abs]
      left
      have : (19 / 5 : ℚ) * (26 / 25) ^ 84 ≤ 19 / 5 * (26 / 25) ^ k :=
        mul_le_mul_of_nonneg_left h1 (by norm_num)
      have h3 : (101 : ℚ) < 19 / 5 * (26 / 25) ^ 84 := by
        have := mul_lt_mul_of_pos_left h2 (by norm_num : (0 : ℚ) < 19 / 5)
        calc (101 : ℚ) = 19 / 5 * (101 / (19 / 5)) := by norm_num
          _ < 19 / 5 * (26 / 25) ^ 84 := this
      linarith
  refine ⟨by decide!, by decide!, by decide!, t1, t2, by rw [t3]; norm_num, by decide!,
    by rw [t4]; norm_num, far, ?_⟩
  rintro ⟨k, hk⟩
  have h1 := Rescale_near (columnPercentDown.bottom_
    * columnPercentDown.percent_box_increment_up_ ^ k) columnPercentDown.percent_exponent_
  rw [hk, t4] at h1
  have h2 := far k
  rw [abs_sub_comm] at h1
  have h3 : ((10 : ℚ) ^ (-3 : Int)) / 2 < 1 := by norm_num
  linarith


/-! ## Number of columns and indexing -/

/-- C32: `GetNumberOfColumns` is the number of closed columns plus one, so at least one, and
`operator[]` gives the closed column at a position below the number of closed columns and
the current column at every other position -/
theorem C32_number_of_columns_and_indexing (c : PF_Chart) :
    c.GetNumberOfColumns = c.columns_.length + 1 ∧ 1 ≤ c.GetNumberOfColumns ∧
    (∀ which : Nat, c.columns_.length ≤ which → c.operatorIndex which = c.current_column_) ∧
    (∀ which : Nat, which < c.columns_.length →
      c.columns_[which]? = some (c.operatorIndex which)) := by
  refine ⟨rfl, by unfold PF_Chart.GetNumberOfColumns; omega, ?_, ?_⟩
  · intro which h
    unfold PF_Chart.operatorIndex
    rw [dif_neg (by omega)]
  · intro which h
    unfold PF_Chart.operatorIndex
    rw [dif_pos h]
    exact List.getElem?_eq_getElem h

/-- C32 at `chartTwoClosed`, a chart with two closed columns. -/
theorem C32_number_of_columns_and_indexing_witness :
    chartTwoClosed.columns_.length = 2 ∧ chartTwoClosed.GetNumberOfColumns = 3 ∧
    chartTwoClosed.operatorIndex 2 = chartTwoClosed.current_column_ ∧
    chartTwoClosed.operatorIndex 7 = chartTwoClosed.current_column_ ∧
    chartTwoClosed.columns_[1]? = some (chartTwoClosed.operatorIndex 1) :=
  ⟨by decide!, by decide!,
    (C32_number_of_columns_and_indexing chartTwoClosed).2.2.1 2 (by decide!),
    (C32_number_of_columns_and_indexing chartTwoClosed).2.2.1 7 (by decide!),
    (C32_number_of_columns_and_indexing chartTwoClosed).2.2.2 1 (by decide!)⟩

/-! ## The status that the chart returns -/

/-- C33: on the linear scale with a positive box size and at least one reversal box,
`PF_Chart::AddValue` returns accepted or ignored, never reversal: when the current column
reports a reversal, the successor fed the same price returns accepted or ignored without a
successor of its own, and it becomes the current column behind the closed one -/
theorem C33_chart_never_returns_reversal (fuel : Nat) (c : PF_Chart) (price : ℚ) (time : tpt)
    (hlin : c.current_column_.column_scale_ = ColumnScale.e_linear)
    (hb : 0 < c.current_column_.box_size_) (hr : 1 ≤ c.current_column_.reversal_boxes_) :
    ∃ c1 status, c.AddValue fuel price time = some (c1, status) ∧
      (status = Status.e_accepted ∨ status = Status.e_ignored) ∧
      ∀ col successor, c.current_column_.AddValue fuel price time
          = some (col, Status.e_reversal, some successor) →
        ∃ current, successor.AddValue fuel price time = some (current, status, none) ∧
          c1.current_column_ = current ∧ c1.columns_ = c.columns_ ++ [col] := by
  obtain ⟨⟨col, st, nc⟩, hcol, -, hsucc⟩ :=
    c.current_column_.AddValue_lin fuel price time hlin hb hr
  have hstep := c.current_column_.AddValue_step fuel price time _ hcol
  cases st with
  | e_accepted =>
    refine ⟨_, _, c.AddValue_of_accepted fuel price time col nc hcol, Or.inl rfl, ?_⟩
    intro col2 s2 h2
    rw [hcol] at h2
    simp at h2
  | e_ignored =>
    refine ⟨_, _, c.AddValue_of_ignored fuel price time col nc hcol, Or.inr rfl, ?_⟩
    intro col2 s2 h2
    rw [hcol] at h2
    simp at h2
  | e_reversal =>
    obtain ⟨-, s, hs, hcfg, -⟩ := hstep.reversal rfl
    simp only at hs
    subst hs
    obtain ⟨-, hpl⟩ := hsucc s rfl
    rw [← PF_Column.possibleValue_congr hcfg] at hpl
    obtain ⟨cur, st2, h1, h2, -⟩ := s.AddValue_placed fuel price time
      (hcfg.2.2.2.2.trans hlin) (hcfg.1 ▸ hb) (hcfg.2.2.1 ▸ hr) hpl
    have h5 := c.AddValue_of_reversal fuel price time col s hcol
    rw [h1] at h5
    refine ⟨_, _, h5, h2, ?_⟩
    intro col2 s2 h6
    rw [hcol] at h6
    simp only [Option.some.injEq, Prod.mk.injEq, true_and] at h6
    obtain ⟨e1, e2⟩ := h6
    subst e1 e2
    exact ⟨cur, h1, rfl, rfl⟩

/-- C33 at `chartUp` (up column from 6 to 18, box size 3, three reversal boxes) with the price
9 at time 3: the column reports a reversal, the successor ignores the price, and the chart
returns ignored. -/
theorem C33_chart_never_returns_reversal_witness :
    (chartUp.current_column_.AddValue 0 9 3).map (fun r => r.2.1) = some Status.e_reversal ∧
    (chartUp.AddValue 0 9 3).map (fun r => r.2) = some Status.e_ignored ∧
    ∃ c1 status, chartUp.AddValue 0 9 3 = some (c1, status) ∧
      (status = Status.e_accepted ∨ status = Status.e_ignored) ∧
      ∀ col successor, chartUp.current_column_.AddValue 0 9 3
          = some (col, Status.e_reversal, some successor) →
        ∃ current, successor.AddValue 0 9 3 = some (current, status, none) ∧
          c1.current_column_ = current ∧ c1.columns_ = chartUp.columns_ ++ [col] :=
  ⟨by decide!, by decide!,
    C33_chart_never_returns_reversal 0 chartUp 9 3 (by decide!) (by decide!) (by decide!)⟩

/-! ## Closed columns have a direction -/

theorem PF_Chart.AddValue_knownClosed (fuel : Nat) (c c1 : PF_Chart) (p : ℚ) (t : tpt)
    (st : Status) (h : c.AddValue fuel p t = some (c1, st)) (hc : KnownClosed c) :
    KnownClosed c1 := by
  cases ha : c.current_column_.AddValue fuel p t with
  | none => simp [PF_Chart.AddValue, ha] at h
  | some ra =>
    obtain ⟨col, cst, nc⟩ := ra
    cases cst with
    | e_accepted =>
      rw [c.AddValue_of_accepted fuel p t col nc ha] at h
      simp only [Option.some.injEq, Prod.mk.injEq] at h
      obtain ⟨h1, -⟩ := h
      subst h1
      exact hc
    | e_ignored =>
      rw [c.AddValue_of_ignored fuel p t col nc ha] at h
      simp only [Option.some.injEq, Prod.mk.injEq] at h
      obtain ⟨h1, -⟩ := h
      subst h1
      exact hc
    | e_reversal =>
      obtain ⟨hcol, s, hs, -, -, -, hdir⟩ :=
        (c.current_column_.AddValue_step fuel p t _ ha).reversal rfl
      simp only at hs hcol
      subst hs
      rw [c.AddValue_of_reversal fuel p t col s ha] at h
      cases hs2 : s.AddValue fuel p t with
      | none => simp [hs2] at h
      | some r2 =>
        simp only [hs2, Option.map_some', Option.some.injEq, Prod.mk.injEq] at h
        obtain ⟨h1, -⟩ := h
        subst h1
        intro x hx
        simp only [List.mem_append, List.mem_singleton] at hx
        rcases hx with hx | hx
        · exact hc x hx
        · subst hx
          rw [hcol]
          rcases hdir with ⟨hd, -⟩ | ⟨hd, -⟩
          · exact Or.inl hd
          · exact Or.inr hd

theorem PF_Chart.feed_knownClosed (fuel : Nat) (obs : List (ℚ × tpt)) :
    ∀ c c1 : PF_Chart, KnownClosed c → c.feed fuel obs = some c1 → KnownClosed c1 := by
  induction obs with
  | nil =>
    intro c c1 hc h
    simp only [PF_Chart.feed, Option.some.injEq] at h
    exact h ▸ hc
  | cons o rest ih =>
    intro c c1 hc h
    obtain ⟨p, t⟩ := o
    cases ha : c.AddValue fuel p t with
    | none => simp [PF_Chart.feed, ha] at h
    | some ra =>
      obtain ⟨c2, st⟩ := ra
      simp only [PF_Chart.feed, ha] at h
      exact ih c2 c1 (c.AddValue_knownClosed fuel c2 p t st ha hc) h

/-- C34: in a chart reached from a fresh chart, on either scale, every closed column has the
direction up or down, and a column whose direction is unknown does not report a reversal -/
theorem C34_closed_columns_have_direction (fuel : Nat) (symbol : String) (box_size : ℚ)
    (box_size_exponent reversal_boxes : Int) (box_type : BoxType) (box_scale : ColumnScale)
    (obs : List (ℚ × tpt)) (c : PF_Chart)
    (h : (PF_Chart.new symbol box_size box_size_exponent reversal_boxes box_type
        box_scale).feed fuel obs = some c) :
    (∀ col ∈ c.columns_, col.direction_ = Direction.e_up ∨ col.direction_ = Direction.e_down) ∧
    (∀ (col : PF_Column) (fuel2 : Nat) (price : ℚ) (time : tpt) (r : PF_Column × AddResult),
      col.direction_ = Direction.e_unknown → col.AddValue fuel2 price time = some r →
        r.2.1 ≠ Status.e_reversal) := by
  refine ⟨PF_Chart.feed_knownClosed fuel obs _ c (by intro x hx; simp [PF_Chart.new] at hx) h,
    ?_⟩
  intro col fuel2 price time r hd hr hrev
  obtain ⟨-, s, -, -, -, -, hdir⟩ := (col.AddValue_step fuel2 price time r hr).reversal hrev
  rcases hdir with ⟨hx, -⟩ | ⟨hx, -⟩ <;> rw [hd] at hx <;> cases hx

/-- C34 at `chartPercentTwoColumns`, a chart on the percent scale with one closed column, and
at `chartTwoClosed` on the linear scale. -/
theorem C34_closed_columns_have_direction_witness :
    chartPercentTwoColumns.columns_.map PF_Column.direction_ = [Direction.e_down] ∧
    (∀ col ∈ chartPercentTwoColumns.columns_,
      col.direction_ = Direction.e_up ∨ col.direction_ = Direction.e_down) ∧
    (∀ (col : PF_Column) (fuel2 : Nat) (price : ℚ) (time : tpt) (r : PF_Column × AddResult),
      col.direction_ = Direction.e_unknown → col.AddValue fuel2 price time = some r →
        r.2.1 ≠ Status.e_reversal) :=
  ⟨by decide!,
    C34_closed_columns_have_direction 8 "P1" (1 / 25) (-2) 1 BoxType.e_fractional
      ColumnScale.e_percent [(50, 1), (19 / 10, 2), (2, 3)] chartPercentTwoColumns
      (by decide!)⟩

/-! ## Running extremes -/

/-- C37: `PF_Chart::AddValue` never lowers `y_max_` and never raises `y_min_`, and a changed
`y_max_` is the top and a changed `y_min_` the bottom of the current column after the call -/
theorem C37_running_extremes_monotone (fuel : Nat) (c c1 : PF_Chart) (price : ℚ) (time : tpt)
    (status : Status) (h : c.AddValue fuel price time = some (c1, status)) :
    c.y_max_ ≤ c1.y_max_ ∧ c1.y_min_ ≤ c.y_min_ ∧
    (c1.y_max_ ≠ c.y_max_ → c1.y_max_ = c1.current_column_.top_) ∧
    (c1.y_min_ ≠ c.y_min_ → c1.y_min_ = c1.current_column_.bottom_) := by
  cases ha : c.current_column_.AddValue fuel price time with
  | none => simp [PF_Chart.AddValue, ha] at h
  | some ra =>
    obtain ⟨col, cst, nc⟩ := ra
    cases cst with
    | e_accepted =>
      rw [c.AddValue_of_accepted fuel price time col nc ha] at h
      simp only [Option.some.injEq, Prod.mk.injEq] at h
      obtain ⟨h1, -⟩ := h
      subst h1
      simp only
      refine ⟨?_, ?_, ?_, ?_⟩
      · split_ifs with k
        · exact le_of_lt k
        · exact le_rfl
      · split_ifs with k
        · exact le_of_lt k
        · exact le_rfl
      · split_ifs with k
        · exact fun _ => rfl
        · exact fun hx => absurd rfl hx
      · split_ifs with k
        · exact fun _ => rfl
        · exact fun hx => absurd rfl hx
    | e_ignored =>
      rw [c.AddValue_of_ignored fuel price time col nc ha] at h
      simp only [Option.some.injEq, Prod.mk.injEq] at h
      obtain ⟨h1, -⟩ := h
      subst h1
      exact ⟨le_rfl, le_rfl, fun hx => absurd rfl hx, fun hx => absurd rfl hx⟩
    | e_reversal =>
      obtain ⟨-, s, hs, -⟩ := (c.current_column_.AddValue_step fuel price time _ ha).reversal rfl
      simp only at hs
      subst hs
      rw [c.AddValue_of_reversal fuel price time col s ha] at h
      cases hs2 : s.AddValue fuel price time with
      | none => simp [hs2] at h
      | some r2 =>
        simp only [hs2, Option.map_some', Option.some.injEq, Prod.mk.injEq] at h
        obtain ⟨h1, -⟩ := h
        subst h1
        exact ⟨le_rfl, le_rfl, fun hx => absurd rfl hx, fun hx => absurd rfl hx⟩

/-- C37 at `chartUp` (up column from 6 to 18, `y_max_` 18) with the price 23 at time 3: the
top and `y_max_` become 21 in `chartUpHigher`. -/
theorem C37_running_extremes_monotone_witness :
    chartUp.y_max_ = 18 ∧ chartUpHigher.y_max_ = 21 ∧
    chartUpHigher.current_column_.top_ = 21 ∧
    chartUp.y_max_ ≤ chartUpHigher.y_max_ ∧ chartUpHigher.y_min_ ≤ chartUp.y_min_ ∧
    (chartUpHigher.y_max_ ≠ chartUp.y_max_ →
      chartUpHigher.y_max_ = chartUpHigher.current_column_.top_) ∧
    (chartUpHigher.y_min_ ≠ chartUp.y_min_ →
      chartUpHigher.y_min_ = chartUpHigher.current_column_.bottom_) :=
  ⟨by decide!, by decide!, by decide!,
    C37_running_extremes_monotone 0 chartUp chartUpHigher 23 3 Status.e_accepted
      (by decide!)⟩

/-! ## Successors -/

/-- C38: when `PF_Column::AddValue` reports a reversal, on either scale, the successor has the
box size, the reversal count, the box type and the scale of the column, the opposite
direction, no in-place reversal and the time span `(time, time)`, and the column keeps its
top, bottom, direction and in-place flag (only the end of its time span is set) -/
theorem C38_successor_inherits_configuration (fuel : Nat) (c col : PF_Column) (price : ℚ)
    (time : tpt) (successor : Option PF_Column)
    (h : c.AddValue fuel price time = some (col, Status.e_reversal, successor)) :
    ∃ s, successor = some s ∧
      s.box_size_ = c.box_size_ ∧ s.reversal_boxes_ = c.reversal_boxes_ ∧
      s.box_type_ = c.box_type_ ∧ s.column_scale_ = c.column_scale_ ∧
      ((c.direction_ = Direction.e_up ∧ s.direction_ = Direction.e_down) ∨
        (c.direction_ = Direction.e_down ∧ s.direction_ = Direction.e_up)) ∧
      s.direction_ = c.direction_.opposite ∧
      s.had_reversal_ = false ∧ s.time_span_ = (time, time) ∧
      col.top_ = c.top_ ∧ col.bottom_ = c.bottom_ ∧ col.direction_ = c.direction_ ∧
      col.had_reversal_ = c.had_reversal_ ∧
      col = { c with time_span_ := (c.time_span_.1, time) } := by
  obtain ⟨hcol, s, hs, hcfg, hhr, hts, hdir⟩ := (c.AddValue_step fuel price time _ h).reversal rfl
  simp only at hcol hs
  subst hs
  refine ⟨s, rfl, hcfg.1, hcfg.2.2.1, hcfg.2.2.2.1, hcfg.2.2.2.2, hdir, ?_, hhr, hts, ?_⟩
  · rcases hdir with ⟨a, b⟩ | ⟨a, b⟩ <;> rw [a, b] <;> rfl
  · rw [hcol]
    exact ⟨rfl, rfl, rfl, rfl, rfl⟩

/-- C38 at the current column of `chartUp` (up column from 6 to 18) with the price 9 at time
3, which gives the closed column `closedUp` and the successor `successorDown`. -/
theorem C38_successor_inherits_configuration_witness :
    ∃ s, some successorDown = some s ∧
      s.box_size_ = chartUp.current_column_.box_size_ ∧
      s.reversal_boxes_ = chartUp.current_column_.reversal_boxes_ ∧
      s.box_type_ = chartUp.current_column_.box_type_ ∧
      s.column_scale_ = chartUp.current_column_.column_scale_ ∧
      ((chartUp.current_column_.direction_ = Direction.e_up ∧ s.direction_ = Direction.e_down) ∨
        (chartUp.current_column_.direction_ = Direction.e_down ∧
          s.direction_ = Direction.e_up)) ∧
      s.direction_ = chartUp.current_column_.direction_.opposite ∧
      s.had_reversal_ = false ∧ s.time_span_ = (3, 3) ∧
      closedUp.top_ = chartUp.current_column_.top_ ∧
      closedUp.bottom_ = chartUp.current_column_.bottom_ ∧
      closedUp.direction_ = chartUp.current_column_.direction_ ∧
      closedUp.had_reversal_ = chartUp.current_column_.had_reversal_ ∧
      closedUp = { chartUp.current_column_ with
        time_span_ := (chartUp.current_column_.time_span_.1, 3) } :=
  C38_successor_inherits_configuration 0 chartUp.current_column_ closedUp 9 3
    (some successorDown) (by decide!)


/-! ## Percent scale: the loops end -/

/-- C36: with `0 < percent_box_increment_down_ < 1 < percent_box_increment_up_`, a positive
top (the bottom is not constrained) and a positive price, the two loops of the percent scale come to an end, and so do
`TryToFindDirectionPercent`, `TryToExtendUpPercent`, `TryToExtendDownPercent` and
`AddValuePercent`: from some amount of fuel on each of them returns its result -/
theorem C36_percent_loops_terminate (c : PF_Column) (price : ℚ) (time : tpt)
    (hd0 : 0 < c.percent_box_increment_down_) (hd1 : c.percent_box_increment_down_ < 1)
    (hu : 1 < c.percent_box_increment_up_) (ht : 0 < c.top_) (hp : 0 < price) :
    (∃ fuel0 x, ∀ fuel, fuel0 ≤ fuel →
      percentLoopUp fuel price c.top_ c.percent_box_increment_up_ = some x) ∧
    (∃ fuel0 x, ∀ fuel, fuel0 ≤ fuel →
      percentLoopDown fuel price c.bottom_ c.percent_box_increment_down_ = some x) ∧
    (∃ fuel0 r, ∀ fuel, fuel0 ≤ fuel → c.TryToFindDirectionPercent fuel price time = some r) ∧
    (∃ fuel0 r, ∀ fuel, fuel0 ≤ fuel → c.TryToExtendUpPercent fuel price time = some r) ∧
    (∃ fuel0 r, ∀ fuel, fuel0 ≤ fuel → c.TryToExtendDownPercent fuel price time = some r) ∧
    (∃ fuel0 r, ∀ fuel, fuel0 ≤ fuel → c.AddValuePercent fuel price time = some r) := by
  have k1 : ∃ fuel0 r, ∀ fuel, fuel0 ≤ fuel →
      c.TryToFindDirectionPercent fuel price time = some r := by
    obtain ⟨f, r, h⟩ := c.TryToFindDirectionPercent_terminates price time hp ht hu hd0.le hd1
    exact ⟨f, r, fun fuel hle => c.TryToFindDirectionPercent_mono f fuel price time r h hle⟩
  have k2 : ∃ fuel0 r, ∀ fuel, fuel0 ≤ fuel →
      c.TryToExtendUpPercent fuel price time = some r := by
    obtain ⟨f, r, h⟩ := c.TryToExtendUpPercent_terminates price time hp ht hu hd0.le hd1
    exact ⟨f, r, fun fuel hle => c.TryToExtendUpPercent_mono f fuel price time r h hle⟩
  have k3 : ∃ fuel0 r, ∀ fuel, fuel0 ≤ fuel →
      c.TryToExtendDownPercent fuel price time = some r := by
    obtain ⟨f, r, h⟩ := c.TryToExtendDownPercent_terminates price time hp ht hu hd0.le hd1
    exact ⟨f, r, fun fuel hle => c.TryToExtendDownPercent_mono f fuel price time r h hle⟩
  refine ⟨?_, ?_, k1, k2, k3, ?_⟩
  · obtain ⟨f, x, h⟩ := percentLoopUp_terminates price c.top_ _ ht hu
    exact ⟨f, x, fun fuel hle => percentLoopUp_mono price _ f fuel c.top_ x h hle⟩
  · obtain ⟨f, x, h⟩ := percentLoopDown_terminates price c.bottom_ _ hp hd0.le hd1
    exact ⟨f, x, fun fuel hle => percentLoopDown_mono price _ f fuel c.bottom_ x h hle⟩
  · unfold PF_Column.AddValuePercent
    have hne : ¬ (c.top_ = -1 ∧ c.bottom_ = -1) := by
      intro hx
      rw [hx.1] at ht
      norm_num at ht
    simp only [if_neg hne]
    by_cases h2 : c.direction_ = Direction.e_unknown
    · simp only [if_pos h2]
      exact k1
    · simp only [if_neg h2]
      by_cases h3 : c.direction_ = Direction.e_up
      · simp only [if_pos h3]
        exact k2
      · simp only [if_neg h3]
        exact k3

/-- C36 at the current column of `chartPercentUp` (up column from 100 to 108.16, increments
1.04 and 0.038) with the price 120 at time 4. -/
theorem C36_percent_loops_terminate_witness :
    chartPercentUp.current_column_.percent_box_increment_up_ = 26 / 25 ∧
    chartPercentUp.current_column_.percent_box_increment_down_ = 19 / 500 ∧
    (chartPercentUp.current_column_.AddValuePercent 8 120 4).map (fun r => (r.2.1, r.1.top_))
      = some (Status.e_accepted, 58493 / 500) ∧
    ∃ fuel0 r, ∀ fuel, fuel0 ≤ fuel →
      chartPercentUp.current_column_.AddValuePercent fuel 120 4 = some r :=
  ⟨by decide!, by decide!, by decide!,
    (C36_percent_loops_terminate chartPercentUp.current_column_ 120 4 (by decide!) (by decide!)
      (by decide!) (by decide!) (by decide!)).2.2.2.2.2⟩

/-! ## Percent scale: the upward advance -/

/-- What the loop `while (possible_value >= top_ * percent_box_increment_up_)` leaves in
`top_`: the top times a power `k` of the increment, with `top · inc^k ≤ v` unless no pass
was made, at least one pass when the condition holds at the start, and `v < top · inc^(k+1)`. -/
theorem percentLoopUp_result (v inc : ℚ) : ∀ (fuel : Nat) (top x : ℚ),
    percentLoopUp fuel v top inc = some x →
    ∃ k : ℕ, x = top * inc ^ k ∧ (k = 0 ∨ top * inc ^ k ≤ v) ∧
      (v ≥ top * inc → 1 ≤ k) ∧ v < top * inc ^ (k + 1) := by
  intro fuel
  induction fuel with
  | zero => intro top x h; simp [percentLoopUp] at h
  | succ n ih =>
    intro top x h
    unfold percentLoopUp at h
    by_cases hc : v ≥ top * inc
    · rw [if_pos hc] at h
      obtain ⟨k, e1, e2, -, e4⟩ := ih (top * inc) x h
      refine ⟨k + 1, ?_, Or.inr ?_, fun _ => by omega, ?_⟩
      · rw [e1]; ring
      · rcases e2 with e2 | e2
        · subst e2
          simpa using hc
        · calc top * inc ^ (k + 1) = top * inc * inc ^ k := by ring
            _ ≤ v := e2
      · calc v < top * inc * inc ^ (k + 1) := e4
          _ = top * inc ^ (k + 1 + 1) := by ring
    · rw [if_neg hc] at h
      simp only [Option.some.injEq] at h
      subst h
      exact ⟨0, by simp, Or.inl rfl, fun hx => absurd hx hc, by simpa using not_le.mp hc⟩

/-- The exponent `k` with `T · u^k ≤ p < T · u^(k+1)` is unique among the integers when `T` is
positive and `u` is above one. -/
theorem geometric_step_unique {T u p : ℚ} (hT : 0 < T) (hu : 1 < u) {k : ℕ}
    (h1 : T * u ^ k ≤ p) (h2 : p < T * u ^ (k + 1)) (j : Int)
    (g1 : T * u ^ j ≤ p) (g2 : p < T * u ^ (j + 1)) : j = (k : Int) := by
  have hu0 : (0 : ℚ) < u := by linarith
  rcases lt_trichotomy j (k : Int) with hlt | heq | hgt
  · exfalso
    have hle : u ^ (j + 1) ≤ u ^ (k : Int) := zpow_le_zpow_right₀ hu.le (by omega)
    rw [zpow_natCast] at hle
    have := mul_le_mul_of_nonneg_left hle hT.le
    linarith
  · exact heq
  · exfalso
    have hle : u ^ ((k : Int) + 1) ≤ u ^ j := zpow_le_zpow_right₀ hu.le (by omega)
    have e : u ^ ((k : Int) + 1) = u ^ (k + 1) := by
      rw [← zpow_natCast]
      push_cast
      rfl
    rw [e] at hle
    have := mul_le_mul_of_nonneg_left hle hT.le
    linarith

/-- C31: on the percent scale, with the up increment `u = 1 + box_size > 1`, a column of
direction up or unknown with top `T > 0` fed a price `p ≥ T · u` accepts it, keeps its bottom
and sets its top to `Rescale(T · u^k, percent_exponent)`, where `k ≥ 1` is the one integer with
`T · u^k ≤ p < T · u^(k+1)`; the result is there from some amount of fuel on -/
theorem C31_percent_upward_advance (c : PF_Column) (price : ℚ) (time : tpt)
    (hs : c.column_scale_ = ColumnScale.e_percent)
    (hinc : c.percent_box_increment_up_ = 1 + c.box_size_) (hu : 1 < 1 + c.box_size_)
    (hd : c.direction_ = Direction.e_up ∨ c.direction_ = Direction.e_unknown)
    (ht : 0 < c.top_) (hp : price ≥ c.top_ * (1 + c.box_size_)) :
    ∃ (k : ℕ) (fuel0 : Nat) (col : PF_Column),
      1 ≤ k ∧ c.top_ * (1 + c.box_size_) ^ k ≤ price ∧
      price < c.top_ * (1 + c.box_size_) ^ (k + 1) ∧
      (∀ j : Int, c.top_ * (1 + c.box_size_) ^ j ≤ price →
        price < c.top_ * (1 + c.box_size_) ^ (j + 1) → j = (k : Int)) ∧
      (∀ fuel, fuel0 ≤ fuel →
        c.AddValue fuel price time = some (col, Status.e_accepted, none)) ∧
      col.bottom_ = c.bottom_ ∧
      col.top_ = Rescale (c.top_ * (1 + c.box_size_) ^ k) c.percent_exponent_ ∧
      col.direction_ = Direction.e_up := by
  obtain ⟨fuel0, x, hx⟩ := percentLoopUp_terminates price c.top_ (1 + c.box_size_) ht hu
  obtain ⟨k, e1, e2, e3, e4⟩ := percentLoopUp_result price _ fuel0 c.top_ x hx
  have hk : 1 ≤ k := e3 hp
  have hle : c.top_ * (1 + c.box_size_) ^ k ≤ price := by
    rcases e2 with e2 | e2
    · omega
    · exact e2
  have hne : ¬ (c.top_ = -1 ∧ c.bottom_ = -1) := by
    intro hx
    rw [hx.1] at ht
    norm_num at ht
  have hloop : ∀ fuel, fuel0 ≤ fuel →
      percentLoopUp fuel price c.top_ c.percent_box_increment_up_ = some x := by
    intro fuel hf
    rw [hinc]
    exact percentLoopUp_mono price _ fuel0 fuel c.top_ x hx hf
  have hp2 : price ≥ c.top_ * c.percent_box_increment_up_ := by rw [hinc]; exact hp
  rcases hd with hd | hd
  · refine ⟨k, fuel0,
      { c with top_ := Rescale x c.percent_exponent_, time_span_ := (c.time_span_.1, time) },
      hk, hle, e4,
      fun j g1 g2 => geometric_step_unique ht hu hle e4 j g1 g2, ?_, rfl, ?_, hd⟩
    · intro fuel hf
      unfold PF_Column.AddValue
      rw [if_pos hs]
      unfold PF_Column.AddValuePercent
      rw [if_neg hne, if_neg (by simp [hd]), if_pos hd]
      unfold PF_Column.TryToExtendUpPercent
      rw [if_pos hp2, hloop fuel hf]
    · show Rescale x c.percent_exponent_ = _
      rw [e1]
  · refine ⟨k, fuel0,
      { c with direction_ := Direction.e_up
               top_ := Rescale x c.percent_exponent_
               time_span_ := (c.time_span_.1, time) },
      hk, hle, e4,
      fun j g1 g2 => geometric_step_unique ht hu hle e4 j g1 g2, ?_, rfl, ?_, rfl⟩
    · intro fuel hf
      unfold PF_Column.AddValue
      rw [if_pos hs]
      unfold PF_Column.AddValuePercent
      rw [if_neg hne, if_pos hd]
      unfold PF_Column.TryToFindDirectionPercent
      rw [if_pos hp2, hloop fuel hf]
    · show Rescale x c.percent_exponent_ = _
      rw [e1]

/-- C31 at the current column of `chartPercentUp` (up column from 100 to 108.16, box size
0.04) with the price 120 at time 4: two boxes, the top becomes
`Rescale(108.16 · 1.04², −3) = 116.986`. -/
theorem C31_percent_upward_advance_witness :
    chartPercentUp.current_column_.top_ = 2704 / 25 ∧
    (chartPercentUp.current_column_.AddValue 8 120 4).map
        (fun r => (r.2.1, r.2.2.isNone, r.1.top_, r.1.bottom_))
      = some (Status.e_accepted, true, 58493 / 500, 100) ∧
    Rescale (chartPercentUp.current_column_.top_
      * (1 + chartPercentUp.current_column_.box_size_) ^ 2)
      chartPercentUp.current_column_.percent_exponent_ = 58493 / 500 ∧
    ∃ (k : ℕ) (fuel0 : Nat) (col : PF_Column),
      1 ≤ k ∧ chartPercentUp.current_column_.top_
        * (1 + chartPercentUp.current_column_.box_size_) ^ k ≤ 120 ∧
      120 < chartPercentUp.current_column_.top_
        * (1 + chartPercentUp.current_column_.box_size_) ^ (k + 1) ∧
      (∀ j : Int, chartPercentUp.current_column_.top_
          * (1 + chartPercentUp.current_column_.box_size_) ^ j ≤ 120 →
        120 < chartPercentUp.current_column_.top_
          * (1 + chartPercentUp.current_column_.box_size_) ^ (j + 1) → j = (k : Int)) ∧
      (∀ fuel, fuel0 ≤ fuel →
        chartPercentUp.current_column_.AddValue fuel 120 4
          = some (col, Status.e_accepted, none)) ∧
      col.bottom_ = chartPercentUp.current_column_.bottom_ ∧
      col.top_ = Rescale (chartPercentUp.current_column_.top_
        * (1 + chartPercentUp.current_column_.box_size_) ^ k)
        chartPercentUp.current_column_.percent_exponent_ ∧
      col.direction_ = Direction.e_up :=
  ⟨by decide!, by decide!, by decide!,
    C31_percent_upward_advance chartPercentUp.current_column_ 120 4 (by decide!) (by decide!)
      (by decide!) (Or.inl (by decide!)) (by decide!) (by decide!)⟩

/-! ## Average true range: sign -/

theorem specTrueRange_nonneg (high low close : Nat → ℚ) (i : Nat) :
    0 ≤ specTrueRange high low close i := by
  unfold specTrueRange
  exact le_trans (abs_nonneg _) (le_max_right _ _)

theorem sum_range_nonneg (f : Nat → ℚ) (hf : ∀ i, 0 ≤ f i) :
    ∀ n : Nat, 0 ≤ ((List.range n).map f).sum := by
  intro n
  induction n with
  | zero => simp
  | succ k ih =>
    rw [List.range_succ, List.map_append, List.sum_append]
    simp only [List.map_cons, List.map_nil, List.sum_cons, List.sum_nil, add_zero]
    linarith [hf k]

theorem sum_range_eq_zero (f : Nat → ℚ) (hf : ∀ i, 0 ≤ f i) :
    ∀ n : Nat, ((List.range n).map f).sum = 0 → ∀ i, i < n → f i = 0 := by
  intro n
  induction n with
  | zero => intro _ i hi; omega
  | succ k ih =>
    intro h i hi
    rw [List.range_succ, List.map_append, List.sum_append] at h
    simp only [List.map_cons, List.map_nil, List.sum_cons, List.sum_nil, add_zero] at h
    have h1 := sum_range_nonneg f hf k
    have h2 := hf k
    have h3 : ((List.range k).map f).sum = 0 := by linarith
    have h4 : f k = 0 := by linarith
    rcases Nat.lt_succ_iff_lt_or_eq.mp hi with hlt | heq
    · exact ih h3 i hlt
    · rw [heq]; exact h4

/-- The value `ComputeATR` returns for rows that denote decimals: the mean of the first `n`
true ranges. -/
theorem ComputeATR_of_denote (D : DecimalStrings) (symbol : String)
    (the_data : List OHLCRow) (n : Nat) (use_adjusted : UseAdjusted)
    (high low close : Nat → ℚ) (hn : 1 ≤ n) (h31 : (n : Int) < 2 ^ 31)
    (hlen : n < the_data.length)
    (hrows : RowsDenote D use_adjusted the_data n high low close) :
    ComputeATR D symbol the_data (n : Int) use_adjusted
      = Except.ok (specATR high low close n) := by
  have hmod : (n : Int) % 2 ^ 32 = n := count_mod_eq (by omega) h31
  have hne : ¬ ((n : Int) = 0) := by omega
  rw [ComputeATR_eq, hmod, if_neg (by simpa using hlen), Int.toNat_ofNat]
  rw [ComputeATR.loop_of_denote D _ _ _ the_data high low close n 0 0
    (fun j _ hj => hrows j (by omega))]
  simp only [divideByCount, if_neg hne, zero_add, Int.cast_natCast]
  rfl

/-- C39: for more than `n ≥ 1` rows that denote decimals, with no assumption on the order of
high, low and close, the average true range that `ComputeATR` returns is not negative, and it
is zero exactly when each of the first `n` true ranges is zero -/
theorem C39_atr_nonnegative (D : DecimalStrings) (symbol : String)
    (the_data : List OHLCRow) (n : Nat) (use_adjusted : UseAdjusted)
    (high low close : Nat → ℚ) (hn : 1 ≤ n) (h31 : (n : Int) < 2 ^ 31)
    (hlen : n < the_data.length)
    (hrows : RowsDenote D use_adjusted the_data n high low close) :
    ∃ atr, ComputeATR D symbol the_data (n : Int) use_adjusted = Except.ok atr ∧
      0 ≤ atr ∧
      (atr = 0 ↔ ∀ i, i < n →
        max (max (high i - low i) |high i - close (i + 1)|) |low i - close (i + 1)| = 0) := by
  refine ⟨_, ComputeATR_of_denote D symbol the_data n use_adjusted high low close hn h31 hlen
    hrows, ?_, ?_⟩
  · unfold specATR
    exact div_nonneg (sum_range_nonneg _ (specTrueRange_nonneg high low close) n)
      (by positivity)
  · have hn0 : (n : ℚ) ≠ 0 := by exact_mod_cast (by omega : n ≠ 0)
    unfold specATR
    rw [div_eq_zero_iff]
    constructor
    · intro h
      rcases h with h | h
      · exact sum_range_eq_zero _ (specTrueRange_nonneg high low close) n h
      · exact absurd h hn0
    · intro h
      left
      have : ∀ x ∈ (List.range n).map (specTrueRange high low close), x = 0 := by
        intro x hx
        rw [List.mem_map] at hx
        obtain ⟨i, hi, rfl⟩ := hx
        exact h i (List.mem_range.mp hi)
      exact List.sum_eq_zero this

/-- C39 at the three rows `atrRows` with two days and the unadjusted members: the average is
5. -/
theorem C39_atr_nonnegative_witness :
    ComputeATR lengthDecimalStrings "X" atrRows ((2 : Nat) : Int) UseAdjusted.e_No
      = Except.ok 5 ∧
    ∃ atr, ComputeATR lengthDecimalStrings "X" atrRows ((2 : Nat) : Int) UseAdjusted.e_No
        = Except.ok atr ∧
      0 ≤ atr ∧
      (atr = 0 ↔ ∀ i, i < 2 →
        max (max (atrHigh i - atrLow i) |atrHigh i - atrClose (i + 1)|)
          |atrLow i - atrClose (i + 1)| = 0) :=
  ⟨by decide!,
    C39_atr_nonnegative lengthDecimalStrings "X" atrRows 2 UseAdjusted.e_No
      atrHigh atrLow atrClose (by decide) (by decide) (by decide)
      (fun i hi => by
        have hi2 : i = 0 ∨ i = 1 := by omega
        rcases hi2 with rfl | rfl
        · exact ⟨⟨_, rfl, by decide!, by decide!⟩, ⟨_, rfl, by decide!⟩⟩
        · exact ⟨⟨_, rfl, by decide!, by decide!⟩, ⟨_, rfl, by decide!⟩⟩)⟩


/-! ## In-place reversals happen at most once -/

/-- C1 (amended): column rotation of `PF_Chart::AddValue`. When the call of the current column
returns a reversal, the column it returns has the top, bottom, direction and `had_reversal_`
of the current column and comes with a successor; the call that feeds the price to the
successor again returns on the linear scale, and on the percent scale from some amount of
fuel on when the price is positive, the top of the successor is positive, the up increment is
above one and the down increment is in the interval from zero to one; whenever it returns,
the chart call returns the closed columns with that one column appended and the successor
after the call as the current column, and when it does not return neither does the chart
call. When the call of the current column returns accepted or ignored the closed columns are
unchanged. In every case the closed columns before the call are a prefix of those after
it -/
theorem C1_add_value_column_rotation (fuel : Nat) (c : PF_Chart) (price : ℚ) (time : tpt)
    (col : PF_Column) (status : Status) (new_col : Option PF_Column)
    (h : c.current_column_.AddValue fuel price time = some (col, status, new_col)) :
    (status = Status.e_reversal →
      col.top_ = c.current_column_.top_ ∧ col.bottom_ = c.current_column_.bottom_ ∧
      col.direction_ = c.current_column_.direction_ ∧
      col.had_reversal_ = c.current_column_.had_reversal_ ∧
      ∃ successor, new_col = some successor ∧
        ((successor.column_scale_ = ColumnScale.e_percent →
            PercentLoopsEnd successor price) →
          ∃ fuel0 current status2, ∀ fuel2, fuel0 ≤ fuel2 →
            ∃ c1, c.AddValue fuel2 price time = some (c1, status2) ∧
              c1.columns_ = c.columns_ ++ [col] ∧ c1.current_column_ = current ∧
              ∃ x, successor.AddValue fuel2 price time = some (current, status2, x)) ∧
        (c.current_column_.column_scale_ = ColumnScale.e_linear →
          ∃ r, successor.AddValue fuel price time = some r) ∧
        (∀ current status2 x, successor.AddValue fuel price time = some (current, status2, x) →
          ∃ c1, c.AddValue fuel price time = some (c1, status2) ∧
            c1.columns_ = c.columns_ ++ [col] ∧ c1.current_column_ = current) ∧
        (∀ fuel2, fuel ≤ fuel2 → successor.AddValue fuel2 price time = none →
          c.AddValue fuel2 price time = none)) ∧
    (status ≠ Status.e_reversal →
      ∃ c1, c.AddValue fuel price time = some (c1, status) ∧ c1.columns_ = c.columns_) ∧
    (∀ c1 s, c.AddValue fuel price time = some (c1, s) → c.columns_ <+: c1.columns_) := by
  have hstep := c.current_column_.AddValue_step fuel price time _ h
  cases status with
  | e_accepted =>
    have h2 := c.AddValue_of_accepted fuel price time col new_col h
    refine ⟨by simp, fun _ => ⟨_, h2, rfl⟩, fun c1 s hc => ?_⟩
    rw [h2] at hc
    simp only [Option.some.injEq, Prod.mk.injEq] at hc
    rw [← hc.1]
  | e_ignored =>
    have h2 := c.AddValue_of_ignored fuel price time col new_col h
    refine ⟨by simp, fun _ => ⟨_, h2, rfl⟩, fun c1 s hc => ?_⟩
    rw [h2] at hc
    simp only [Option.some.injEq, Prod.mk.injEq] at hc
    rw [← hc.1]
  | e_reversal =>
    obtain ⟨hcol, s, hs, hcfg, -, -, -⟩ := hstep.reversal rfl
    simp only at hcol hs
    subst hs
    have h2 := c.AddValue_of_reversal fuel price time col s h
    refine ⟨fun _ => ⟨by rw [hcol], by rw [hcol], by rw [hcol], by rw [hcol], s, rfl, ?_, ?_,
      ?_, ?_⟩, by simp, fun c1 st hc => ?_⟩
    · intro hend
      obtain ⟨fuel0, ⟨current, status2, x⟩, hr⟩ := s.AddValue_terminates price time hend
      refine ⟨max fuel0 fuel, current, status2, fun fuel2 hle => ?_⟩
      have h3 := c.current_column_.AddValue_mono fuel fuel2 price time _ h
        (le_trans (le_max_right _ _) hle)
      have h4 := hr fuel2 (le_trans (le_max_left _ _) hle)
      have h5 := c.AddValue_of_reversal fuel2 price time col s h3
      rw [h4] at h5
      exact ⟨_, h5, rfl, rfl, x, h4⟩
    · intro hlin
      exact s.AddValue_linear_isSome fuel price time (hcfg.2.2.2.2.trans hlin)
    · intro current status2 x hx
      rw [h2, hx]
      exact ⟨_, rfl, rfl, rfl⟩
    · intro fuel2 hle hnone
      have h3 := c.current_column_.AddValue_mono fuel fuel2 price time _ h hle
      rw [c.AddValue_of_reversal fuel2 price time col s h3, hnone]
      rfl
    · rw [h2] at hc
      cases hx : s.AddValue fuel price time with
      | none => rw [hx] at hc; simp at hc
      | some r =>
        rw [hx] at hc
        simp only [Option.map_some', Option.some.injEq, Prod.mk.injEq] at hc
        rw [← hc.1]
        exact List.prefix_append _ _


/-- C1 (amended) at `chartPercentDownOneBox` (percent scale, one down column from 50 to 1.9)
with the price 2.1 at time 3: the column reports a reversal without any fuel; the call that
feeds the price to the successor runs its loop, so without fuel the chart call has no result,
and with three units of fuel it returns accepted, with the down column appended to the closed
columns and the successor, advanced to 2.055, as the current column. -/
theorem C1_add_value_column_rotation_witness :
    chartPercentDownOneBox.current_column_.AddValue 0 (21 / 10) 3
      = some (closedPercentDown, Status.e_reversal, some successorPercentUp) ∧
    successorPercentUp.column_scale_ = ColumnScale.e_percent ∧
    PercentLoopsEnd successorPercentUp (21 / 10) ∧
    chartPercentDownOneBox.AddValue 0 (21 / 10) 3 = none ∧
    (chartPercentDownOneBox.AddValue 3 (21 / 10) 3).map
        (fun r => (r.2, r.1.columns_, r.1.current_column_.direction_,
          r.1.current_column_.top_, r.1.current_column_.bottom_))
      = some (Status.e_accepted, [closedPercentDown], Direction.e_up, 411 / 200, 99 / 50) ∧
    ((Status.e_reversal = Status.e_reversal →
      closedPercentDown.top_ = chartPercentDownOneBox.current_column_.top_ ∧
      closedPercentDown.bottom_ = chartPercentDownOneBox.current_column_.bottom_ ∧
      closedPercentDown.direction_ = chartPercentDownOneBox.current_column_.direction_ ∧
      closedPercentDown.had_reversal_ = chartPercentDownOneBox.current_column_.had_reversal_ ∧
      ∃ successor, some successorPercentUp = some successor ∧
        ((successor.column_scale_ = ColumnScale.e_percent →
            PercentLoopsEnd successor (21 / 10)) →
          ∃ fuel0 current status2, ∀ fuel2, fuel0 ≤ fuel2 →
            ∃ c1, chartPercentDownOneBox.AddValue fuel2 (21 / 10) 3 = some (c1, status2) ∧
              c1.columns_ = chartPercentDownOneBox.columns_ ++ [closedPercentDown] ∧
              c1.current_column_ = current ∧
              ∃ x, successor.AddValue fuel2 (21 / 10) 3 = some (current, status2, x)) ∧
        (chartPercentDownOneBox.current_column_.column_scale_ = ColumnScale.e_linear →
          ∃ r, successor.AddValue 0 (21 / 10) 3 = some r) ∧
        (∀ current status2 x,
          successor.AddValue 0 (21 / 10) 3 = some (current, status2, x) →
          ∃ c1, chartPercentDownOneBox.AddValue 0 (21 / 10) 3 = some (c1, status2) ∧
            c1.columns_ = chartPercentDownOneBox.columns_ ++ [closedPercentDown] ∧
            c1.current_column_ = current) ∧
        (∀ fuel2, 0 ≤ fuel2 → successor.AddValue fuel2 (21 / 10) 3 = none →
          chartPercentDownOneBox.AddValue fuel2 (21 / 10) 3 = none)) ∧
    (Status.e_reversal ≠ Status.e_reversal →
      ∃ c1, chartPercentDownOneBox.AddValue 0 (21 / 10) 3 = some (c1, Status.e_reversal) ∧
        c1.columns_ = chartPercentDownOneBox.columns_) ∧
    (∀ c1 s, chartPercentDownOneBox.AddValue 0 (21 / 10) 3 = some (c1, s) →
      chartPercentDownOneBox.columns_ <+: c1.columns_)) :=
  ⟨by decide!, by decide!, by unfold PercentLoopsEnd; decide!, by decide!, by decide!,
    C1_add_value_column_rotation 0 chartPercentDownOneBox (21 / 10) 3 closedPercentDown
      Status.e_reversal (some successorPercentUp) (by decide!)⟩

theorem percentLoopUp_zero_top (v inc : ℚ) (hv : 0 ≤ v) :
    ∀ fuel : Nat, percentLoopUp fuel v 0 inc = none := by
  intro fuel
  induction fuel with
  | zero => rfl
  | succ k ih =>
    unfold percentLoopUp
    rw [zero_mul, if_pos hv]
    exact ih

/-- C1 fails on the percent scale where the call that feeds the price to the successor does
not end: the chart `freshPercent` (box size 0.04, three reversal boxes) after the prices 0.13
and 0.0001 holds a down column from 0.13 whose bottom is rescaled to 0; for the price 0.5 the
column reports a reversal, whatever the fuel, with a successor whose top and bottom are 0 (the
bottom times the reversal factor), and the loop
`while (possible_value >= top_ * percent_box_increment_up_)` of the successor keeps the top
at 0: whatever the fuel, neither the call on the successor nor `PF_Chart::AddValue` returns,
so no column is appended and no chart results. -/
theorem C1_counterexample :
    freshPercent.feed 8 [(13 / 100, 1), (1 / 10000, 2)] = some chartPercentDownZero ∧
    chartPercentDownZero.columns_ = [] ∧
    chartPercentDownZero.current_column_.column_scale_ = ColumnScale.e_percent ∧
    chartPercentDownZero.current_column_.direction_ = Direction.e_down ∧
    chartPercentDownZero.current_column_.top_ = 13 / 100 ∧
    chartPercentDownZero.current_column_.bottom_ = 0 ∧
    successorPercentZero.direction_ = Direction.e_up ∧
    successorPercentZero.top_ = 0 ∧ successorPercentZero.bottom_ = 0 ∧
    successorPercentZero.percent_box_increment_up_ = 26 / 25 ∧
    (∀ fuel, ∃ col, chartPercentDownZero.current_column_.AddValue fuel (1 / 2) 3
      = some (col, Status.e_reversal, some successorPercentZero)) ∧
    (∀ fuel, successorPercentZero.AddValue fuel (1 / 2) 3 = none) ∧
    (∀ fuel, chartPercentDownZero.AddValue fuel (1 / 2) 3 = none) := by
  have hcol : ∀ fuel, ∃ col, chartPercentDownZero.current_column_.AddValue fuel (1 / 2) 3
      = some (col, Status.e_reversal, some successorPercentZero) := by
    intro fuel
    have h0 : chartPercentDownZero.current_column_.AddValue 0 (1 / 2) 3
        = some ({ chartPercentDownZero.current_column_ with time_span_ := (1, 3) },
          Status.e_reversal, some successorPercentZero) := by decide!
    exact ⟨_, PF_Column.AddValue_mono 0 fuel _ _ _ _ h0 (Nat.zero_le _)⟩
  have hs : ∀ fuel, successorPercentZero.AddValue fuel (1 / 2) 3 = none := by
    intro fuel
    have e1 : successorPercentZero.column_scale_ = ColumnScale.e_percent := by decide!
    have e2 : ¬ (successorPercentZero.top_ = -1 ∧ successorPercentZero.bottom_ = -1) := by
      decide!
    have e3 : ¬ (successorPercentZero.direction_ = Direction.e_unknown) := by decide!
    have e4 : successorPercentZero.direction_ = Direction.e_up := by decide!
    have e5 : successorPercentZero.top_ = 0 := by decide!
    unfold PF_Column.AddValue
    rw [if_pos e1]
    unfold PF_Column.AddValuePercent
    rw [if_neg e2, if_neg e3, if_pos e4]
    unfold PF_Column.TryToExtendUpPercent
    rw [e5, zero_mul, if_pos (by norm_num), percentLoopUp_zero_top _ _ (by norm_num) fuel]
  refine ⟨by decide!, by decide!, by decide!, by decide!, by decide!, by decide!, by decide!,
    by decide!, by decide!, by decide!, hcol, hs, ?_⟩
  intro fuel
  obtain ⟨col, hc⟩ := hcol fuel
  rw [chartPercentDownZero.AddValue_of_reversal fuel (1 / 2) 3 col successorPercentZero hc,
    hs fuel]
  rfl


end PointFigure
